import Mathlib

/-!
go-procman: the lifecycle state machine and the supervisor.

A shallow embedding of `process.go`, `manager.go`, `periodical.go` and `worker.go`.

Conventions of the embedding:

* a Go `error` result is an `Option GoError` (`none` is `nil`);
* `int32` / `uint32` fields that only ever hold small constants are `Int` / `Nat`;
* a Go map is an association list with unique keys (`AList`), ranged over in the
  order of its entries; a pointer to a controller is the name under which the
  registry holds it, and a write through the pointer changes the registry;
* goroutines take turns. The state of a run holds, for each goroutine, the place
  where it stands; a turn moves one goroutine to its next operation on shared
  memory or on a channel. A goroutine that is blocked, or whose turn is not
  taken, stays where it is: a call that never returns is a run in which the
  turn that ends the call is never taken;
* a channel without buffer is the list of the values that blocked senders hold
  out on it; a receive takes the first and lets its sender go on, and blocks
  while the list is empty;
* what the goroutines do to the outside world (calls into a unit, stores,
  channel operations) is recorded, in the order of the turns, in a trace.
-/

namespace Procman

/-! ## process.go -/

/-- A Go `error` value that is not nil (its message). -/
abbrev GoError := String

/-- A value handed to `panic` that is not nil (its `%+v` rendering). -/
abbrev PanicValue := String

def ProcessStateReady : Int := 0
def ProcessStateStarting : Int := 1
def ProcessStateStarted : Int := 2
def ProcessStateStopping : Int := 3
def ProcessStateStopped : Int := 4
def ProcessStateAborted : Int := 5

def processStateString (pstate : Int) : String :=
  if pstate = ProcessStateReady then "ready"
  else if pstate = ProcessStateStarting then "starting"
  else if pstate = ProcessStateStarted then "started"
  else if pstate = ProcessStateStopping then "stopping"
  else if pstate = ProcessStateStopped then "stopped"
  else if pstate = ProcessStateAborted then "aborted"
  else "UNKNOWN"

/-- How a call of a method with result type `error` ends: it returns an error
value (possibly nil), or it panics. For a panic, `data` is what `recover()`
yields (`none` when the panic value is the nil interface) and `stack` is what
`debug.Stack()` yields inside the deferred function. -/
inductive Outcome where
  | returned (err : Option GoError)
  | panicked (data : Option PanicValue) (stack : String)
  deriving DecidableEq, Repr

/-- The `Process` interface. A unit is opaque to the manager; it is represented
by the way its `Start` call and its `Stop` call end. -/
structure Process where
  Start : Outcome
  Stop : Outcome
  deriving DecidableEq, Repr

structure controller where
  process : Process
  /-- The `control` channel, which has no buffer: the values that senders blocked
  on it hold out, oldest first. A receive takes the first and lets its sender go
  on. -/
  control : List Int
  state : Int
  deriving DecidableEq, Repr

/-- The deferred `recover()` wrapper shared by `controller.Start` and
`controller.Stop`: `what` is "starting" or "stopping". -/
def controller.recovered (what : String) : Outcome → Option GoError
  | .returned err => err
  | .panicked (some data) stack =>
      some ("process panic when " ++ what ++ "; " ++ data ++ "; " ++ stack)
  | .panicked none _ => none

def controller.Start (c : controller) : Option GoError :=
  controller.recovered "starting" c.process.Start

def controller.Stop (c : controller) : Option GoError :=
  controller.recovered "stopping" c.process.Stop

/-! ## manager.go -/

/-- What the manager does to the outside world. -/
inductive Event where
  /-- The statement `go manager.launch(name, process)`. -/
  | go (name : String)
  /-- the controller's `Start` of the unit is called -/
  | start (name : String)
  /-- the controller's `Stop` of the unit is called -/
  | stop (name : String)
  /-- the call `manager.Stop()`, by the `launch` of a unit or (`none`) by some
  other goroutine -/
  | managerStop (caller : Option String)
  /-- the store `atomic.StoreInt32(&pController.state, s)` -/
  | store (name : String) (s : Int)
  /-- the statement `pController.control <- v` is reached: the value is held out
  to a receiver -/
  | send (name : String) (v : Int)
  /-- the receive `<-process.control` completes -/
  | recv (name : String)
  /-- the `select` of `Manager.Start` is entered -/
  | block
  deriving DecidableEq, Repr

structure Manager where
  processes : AList (fun _ : String => controller)
  /-- The `control` channel, which has no buffer: the values that callers of
  `Stop` blocked on it hold out, oldest first. -/
  control : List Int
  started : Nat

def NewManager : Manager :=
  { processes := ∅, control := [], started := 0 }

def Manager.IsStarted (manager : Manager) : Bool :=
  manager.started == 1

/-- The new manager, and the panic value when the call panics. -/
def Manager.AddProcess (manager : Manager) (name : String) (process : Process) :
    Manager × Option PanicValue :=
  if manager.IsStarted then
    (manager, some "can not add processes after start")
  else
    ({ manager with
        processes := manager.processes.insert name
          { process := process, control := [], state := ProcessStateReady } },
     none)

/-- A read-modify-write through the pointer that the registry holds for `name`:
the registry keeps its keys and their order, and the controller of `name` is
changed in place. -/
def Manager.modify (manager : Manager) (name : String) (f : controller → controller) :
    Manager :=
  match manager.processes.lookup name with
  | some c => { manager with processes := manager.processes.replace name (f c) }
  | none => manager

/-- `Manager.Stop` up to its send. The result is the manager after the
compare-and-swap, and whether the swap succeeded. If it did, the caller now holds
out 1 on `manager.control` and stays blocked in that send until the `select` of
`Start` receives from the channel; if it did not, the call has returned. -/
def Manager.Stop (manager : Manager) : Manager × Bool :=
  if manager.started = 1 then
    ({ manager with started := 0, control := manager.control ++ [1] }, true)
  else (manager, false)

/-- Where the goroutine that runs `Manager.Start` stands. -/
inductive MainPc where
  /-- `Start` has not been called -/
  | idle
  /-- blocked in the `select` -/
  | select
  /-- a case of the `select` was taken; before the compare-and-swap that follows -/
  | woken
  /-- at the head of the second `range` loop, with the names still to visit -/
  | sweep (rest : List String)
  /-- inside `process.Stop()` of the unit `name` -/
  | inStop (name : String) (rest : List String)
  /-- blocked in the receive `<-process.control` of the unit `name` -/
  | waiting (name : String) (rest : List String)
  /-- `Start` has returned -/
  | returned (err : Option GoError)
  deriving DecidableEq, Repr

/-- Where the goroutine that runs `launch` for a unit stands. -/
inductive LaunchPc where
  /-- no such goroutine -/
  | absent
  /-- created by the `go` statement; before the first store -/
  | spawned
  /-- inside `pController.Start()` -/
  | inStart
  /-- `pController.Start()` returned an error; before `manager.Stop()` -/
  | failed
  /-- inside `manager.Stop()`, blocked in the send `manager.control <- 1` -/
  | inStop
  /-- `manager.Stop()` has returned; before the store of `Aborted` -/
  | stopped
  /-- blocked in the send `pController.control <- 0` -/
  | sending
  /-- `launch` has returned -/
  | done
  deriving DecidableEq, Repr

/-- The first `range` loop of `Manager.Start`: one goroutine per registered unit. -/
def Manager.Start.launchAll : List (Sigma fun _ : String => controller) → List Event
  | [] => []
  | ⟨name, _⟩ :: rest => Event.go name :: launchAll rest

/-- `Manager.Start` from its call to the point where it either has returned or is
blocked in its `select`: the manager, where the caller stands, and the events in
program order. -/
def Manager.Start (manager : Manager) : Manager × MainPc × List Event :=
  if manager.processes.entries.length < 1 then
    (manager, .returned (some "no processes are registered"), [])
  else if manager.started ≠ 0 then
    (manager, .returned (some "already started"), [])
  else
    ({ manager with started := 1 }, .select,
     Manager.Start.launchAll manager.processes.entries ++ [Event.block])

/-- One pass of the `range` loop of `StatusCheck`. -/
def Manager.StatusCheck.visit (acc : Bool × AList (fun _ : String => Int))
    (e : Sigma fun _ : String => controller) : Bool × AList (fun _ : String => Int) :=
  (if e.2.state = ProcessStateAborted then false else acc.1, acc.2.insert e.1 e.2.state)

/-- The manager after the call, the overall status and the map of statuses. -/
def Manager.StatusCheck (manager : Manager) :
    Manager × Bool × AList (fun _ : String => Int) :=
  let r := manager.processes.entries.foldl Manager.StatusCheck.visit (true, ∅)
  (manager, r.1, r.2)

/-! ## manager.go: `Start`, `launch` and `Stop` as interleaved steps

One goroutine calls `Manager.Start`, once; it creates one goroutine per
registered unit, which runs `launch`; any other goroutine may call
`Manager.Stop`, at any time and any number of times. `AddProcess` and `Destroy`
are not called while this goes on. The goroutines take turns; a turn runs one of
them up to its next operation on shared memory or on a channel. Neither channel
has a buffer, so a send blocks until it is received and a receive blocks until a
value is held out; a turn of a goroutine that cannot go on changes nothing.

A `Process` says how a call of the unit's `Start` or `Stop` ends if it ends.
Whether and when it ends is up to the turns: the call ends in the turn that ends
it (`startReturns`, `stopReturns`), and a call that never returns is a run in
which that turn is never taken.
-/

structure Sys where
  manager : Manager
  main : MainPc
  launches : String → LaunchPc
  /-- Who is blocked in the send of `Manager.Stop`, in order of arrival: the
  `launch` of a unit, or (`none`) another goroutine. -/
  senders : List (Option String)
  trace : List Event

def Sys.init (manager : Manager) : Sys :=
  { manager := manager, main := .idle, launches := fun _ => .absent, senders := [],
    trace := [] }

def Sys.emit (s : Sys) (es : List Event) : Sys :=
  { s with trace := s.trace ++ es }

/-- The `launch` of `name` goes on to `pc`. -/
def Sys.move (s : Sys) (name : String) (pc : LaunchPc) : Sys :=
  { s with launches := Function.update s.launches name pc }

/-- The store `atomic.StoreInt32(&pController.state, st)`. -/
def Sys.store (s : Sys) (name : String) (st : Int) : Sys :=
  { s with manager := s.manager.modify name fun c => { c with state := st } }

/-- The send `pController.control <- v` up to the point where it blocks. -/
def Sys.offer (s : Sys) (name : String) (v : Int) : Sys :=
  { s with manager := s.manager.modify name fun c => { c with control := c.control ++ [v] } }

/-- A receive takes the first value held out on the `control` channel of `name`. -/
def Sys.take (s : Sys) (name : String) : Sys :=
  { s with manager := s.manager.modify name fun c => { c with control := c.control.tail } }

/-- The goroutine of `launch` runs its first statements: the store of `Started`
and the call of the controller's `Start`. -/
def Sys.launch.begin (s : Sys) (name : String) : Sys :=
  match s.launches name with
  | .spawned =>
      ((s.store name ProcessStateStarted).emit
        [.store name ProcessStateStarted, .start name]).move name .inStart
  | _ => s

/-- The controller's `Start` returns to `launch`. On nil, `launch` stores
`Stopped` and blocks in its send; on an error it is about to call
`manager.Stop()`. -/
def Sys.launch.startReturns (s : Sys) (name : String) : Sys :=
  match s.launches name, s.manager.processes.lookup name with
  | .inStart, some pController =>
      match pController.Start with
      | some _ => s.move name .failed
      | none =>
          (((s.store name ProcessStateStopped).offer name 0).emit
            [.store name ProcessStateStopped, .send name 0]).move name .sending
  | _, _ => s

/-- The call `manager.Stop()` of `launch`. -/
def Sys.launch.callStop (s : Sys) (name : String) : Sys :=
  match s.launches name with
  | .failed =>
      let r := s.manager.Stop
      let s1 := ({ s with manager := r.1 } : Sys).emit [.managerStop (some name)]
      if r.2 then
        ({ s1 with senders := s1.senders ++ [some name] } : Sys).move name .inStop
      else s1.move name .stopped
  | _ => s

/-- After `manager.Stop()` has returned, `launch` stores `Aborted` and blocks in
its send. -/
def Sys.launch.record (s : Sys) (name : String) : Sys :=
  match s.launches name with
  | .stopped =>
      (((s.store name ProcessStateAborted).offer name 0).emit
        [.store name ProcessStateAborted, .send name 0]).move name .sending
  | _ => s

/-- `Manager.Stop` is called by a goroutine other than those of `launch`. -/
def Sys.Stop (s : Sys) : Sys :=
  let r := s.manager.Stop
  let s1 := ({ s with manager := r.1 } : Sys).emit [.managerStop none]
  if r.2 then { s1 with senders := s1.senders ++ [none] } else s1

/-- `Manager.Start` is called: it returns an error or creates the goroutines and
blocks in its `select`. -/
def Sys.Start (s : Sys) : Sys :=
  match s.main with
  | .idle =>
      let r := s.manager.Start
      { s with
        manager := r.1, main := r.2.1, trace := s.trace ++ r.2.2,
        launches := fun name => if Event.go name ∈ r.2.2 then .spawned else s.launches name }
  | _ => s

/-- The `select` takes the case of `termChan`: a termination signal has arrived.
That case can be taken whether or not a value is held out on `manager.control`. -/
def Sys.Start.signal (s : Sys) : Sys :=
  match s.main with
  | .select => { s with main := .woken }
  | _ => s

/-- The `select` takes the case of `manager.control`: it receives the value held
out by the first blocked caller of `Stop`, whose call returns. -/
def Sys.Start.stopRequest (s : Sys) : Sys :=
  match s.main, s.manager.control with
  | .select, _ :: rest =>
      let s1 : Sys :=
        { s with
          manager := { s.manager with control := rest }, main := .woken,
          senders := s.senders.tail }
      match s.senders.head? with
      | some (some name) => s1.move name .stopped
      | _ => s1
  | _, _ => s

/-- The compare-and-swap after the `select`; the second `range` loop is entered. -/
def Sys.Start.swap (s : Sys) : Sys :=
  match s.main with
  | .woken =>
      { s with
        manager :=
          { s.manager with started := if s.manager.started = 1 then 0 else s.manager.started },
        main := .sweep s.manager.processes.keys }
  | _ => s

/-- The head of the second `range` loop: the controller's `Stop` of the next unit
is called, or the loop is over and `Start` returns nil. -/
def Sys.Start.sweep (s : Sys) : Sys :=
  match s.main with
  | .sweep (name :: rest) => { s.emit [.stop name] with main := .inStop name rest }
  | .sweep [] => { s with main := .returned none }
  | _ => s

/-- The controller's `Stop` returns to the loop: on an error the loop goes on to
the next unit, on nil it blocks in the receive. -/
def Sys.Start.stopReturns (s : Sys) : Sys :=
  match s.main with
  | .inStop name rest =>
      match s.manager.processes.lookup name with
      | some process =>
          match process.Stop with
          | some _ => { s with main := .sweep rest }
          | none => { s with main := .waiting name rest }
      | none => s
  | _ => s

/-- The receive `<-process.control` completes, if a value is held out: its
sender, the `launch` of the unit, returns. -/
def Sys.Start.receive (s : Sys) : Sys :=
  match s.main with
  | .waiting name rest =>
      match s.manager.processes.lookup name with
      | some process =>
          match process.control with
          | _ :: _ =>
              { ((s.take name).emit [.recv name]).move name .done with main := .sweep rest }
          | [] => s
      | none => s
  | _ => s

/-- Whose turn it is, and what happens in it. -/
inductive Turn where
  /-- `Manager.Start` is called and runs up to its `select` (or returns an error) -/
  | callStart
  /-- the `select` of `Start` takes a termination signal -/
  | signal
  /-- the `select` of `Start` receives from `manager.control` -/
  | stopRequest
  /-- `Start` runs its compare-and-swap after the `select` -/
  | swap
  /-- `Start` is at the head of its second loop: it calls the controller's `Stop` of
  the next unit, or returns nil when no unit is left -/
  | sweep
  /-- the controller's `Stop` that `Start` has called returns -/
  | stopReturns
  /-- `Start` receives from the completion channel it waits on -/
  | receive
  /-- a goroutine other than those of `launch` calls `Manager.Stop` -/
  | callStop
  /-- the `launch` of the unit stores `Started` and calls the controller's `Start` -/
  | begin (name : String)
  /-- the controller's `Start` of the unit returns to `launch` -/
  | startReturns (name : String)
  /-- the `launch` of the unit calls `manager.Stop()` -/
  | launchStop (name : String)
  /-- the `launch` of the unit, back from `manager.Stop()`, stores `Aborted` and
  reaches its send -/
  | record (name : String)
  deriving DecidableEq, Repr

def Sys.step (s : Sys) : Turn → Sys
  | .callStart => s.Start
  | .signal => Sys.Start.signal s
  | .stopRequest => Sys.Start.stopRequest s
  | .swap => Sys.Start.swap s
  | .sweep => Sys.Start.sweep s
  | .stopReturns => Sys.Start.stopReturns s
  | .receive => Sys.Start.receive s
  | .callStop => s.Stop
  | .begin name => Sys.launch.begin s name
  | .startReturns name => Sys.launch.startReturns s name
  | .launchStop name => Sys.launch.callStop s name
  | .record name => Sys.launch.record s name

def Sys.exec (s : Sys) (turns : List Turn) : Sys :=
  turns.foldl Sys.step s

/-! ## periodical.go -/

/-- The constant `time.Second`, in nanoseconds (a `time.Duration` is an `int64`). -/
def Second : Int := 1000000000

/-- A value of type `func(fmt string, args ...interface{})`: nil, the empty
function installed by `sanitize`, or a function supplied by the caller. -/
inductive DebugFunc where
  | nil
  | noop
  | user (id : Nat)
  deriving DecidableEq, Repr

structure PeriodicalOptions where
  Idle : Int
  Once : Bool
  ShutdownTimeout : Int
  Dbgf : DebugFunc
  deriving DecidableEq, Repr

/-- The zero value of `PeriodicalOptions`. -/
def PeriodicalOptions.zero : PeriodicalOptions :=
  { Idle := 0, Once := false, ShutdownTimeout := 0, Dbgf := .nil }

def PeriodicalOptions.merge (opts new : PeriodicalOptions) : PeriodicalOptions :=
  let opts := if new.Idle > 0 then { opts with Idle := new.Idle } else opts
  let opts := if new.Once then { opts with Once := new.Once } else opts
  let opts :=
    if new.ShutdownTimeout > 0 then { opts with ShutdownTimeout := new.ShutdownTimeout }
    else opts
  if new.Dbgf ≠ .nil then { opts with Dbgf := new.Dbgf } else opts

def PeriodicalOptions.sanitize (opts : PeriodicalOptions) : PeriodicalOptions :=
  let opts :=
    if opts.ShutdownTimeout < Second then { opts with ShutdownTimeout := 60 * Second }
    else opts
  if opts.Dbgf = .nil then { opts with Dbgf := .noop } else opts

/-- The `periodical` struct. The channels `done` and `stop` carry no values and
are only ever closed: each is the flag "has been closed". `cancelled` is the
state of `ctx`. The user function is represented by the way its successive
calls end: `job n` is the outcome of call number `n` (counted from 0). -/
structure periodical where
  state : Int
  job : Nat → Outcome
  done : Bool
  stop : Bool
  cancelled : Bool
  period : Int
  opts : PeriodicalOptions

def NewPeriodicalJob (period : Int) (job : Nat → Outcome)
    (options : List PeriodicalOptions) : periodical :=
  { state := ProcessStateReady
    done := false
    stop := false
    job := job
    period := period
    cancelled := false
    opts := (options.foldl PeriodicalOptions.merge PeriodicalOptions.zero).sanitize }

/-! ## worker.go -/

structure WorkerOptions where
  ShutdownTimeout : Int
  deriving DecidableEq, Repr

def NewWorker (main : Nat → Outcome) (opts : List WorkerOptions) : periodical :=
  let options : PeriodicalOptions := { PeriodicalOptions.zero with Once := true }
  let options := opts.foldl
    (fun options opt =>
      options.merge { PeriodicalOptions.zero with ShutdownTimeout := opt.ShutdownTimeout })
    options
  NewPeriodicalJob 0 main [options]

/-! ## periodical.go: `Start` and `Stop` as interleaved steps

`Start` and `Stop` of one job run in different goroutines and meet only through
`c.state` (compare-and-swap), the two channels and the context. A `Run` is the
job together with the position of the goroutines that are inside one of its
methods; a `Move` is the next thing that happens. Only one goroutine can get
past the compare-and-swap of `Start`, and only one can wait in the `select` of
`Stop`; every other call returns at once with an error.

A timer that a `select` has just created has not fired when that `select` looks
at its cases: `Stop` entered after `done` was closed takes the `done` case.
Closing a closed channel would panic; every close is recorded in the trace.
-/

/-- Which method performed a compare-and-swap. -/
inductive Caller where
  | Start
  | Stop
  deriving DecidableEq, Repr

/-- What happens during a run, in the order it happens. -/
inductive Act where
  /-- a successful `atomic.CompareAndSwapInt32(&c.state, old, new)` -/
  | cas (who : Caller) (old new : Int)
  /-- a call `c.opts.Dbgf(msg)` -/
  | dbgf (msg : String)
  /-- call number `n` of `c.job(c.ctx)` begins -/
  | invoke (n : Nat)
  /-- the timer `time.After(c.opts.Idle)` is received from -/
  | idled
  /-- the ticker `ticker.C` is received from -/
  | ticked
  /-- the call `c.cancel()` -/
  | cancel
  /-- the statement `close(c.stop)` -/
  | closeStop
  /-- the statement `close(c.done)` -/
  | closeDone
  /-- the goroutine that got past the compare-and-swap leaves `Start` -/
  | startEnds (o : Outcome)
  /-- a call of `Start` fails its compare-and-swap and returns the error -/
  | startRejected (err : GoError)
  /-- the call of `Stop` that changed the state returns -/
  | stopEnds (err : Option GoError)
  /-- a call of `Stop` fails both compare-and-swaps and returns the error -/
  | stopRejected (err : GoError)
  deriving DecidableEq, Repr

/-- Where the goroutine that got past the compare-and-swap of `Start` stands. -/
inductive StartPc where
  /-- no goroutine got past it yet -/
  | out
  /-- at the top of the `for` loop -/
  | loop
  /-- inside `c.job(c.ctx)` -/
  | job
  /-- at the `select` on `c.stop` and `time.After(c.opts.Idle)` -/
  | idle
  /-- at the `select` on `c.stop` with a `default` case -/
  | check
  /-- at the `select` on `c.stop` and `ticker.C` -/
  | period
  /-- it left `Start` -/
  | ended (o : Outcome)
  deriving DecidableEq, Repr

structure Run where
  c : periodical
  starter : StartPc
  /-- A goroutine waits in the `select` of `Stop`. -/
  stopper : Bool
  /-- The number of calls of `c.job` that have ended. -/
  runs : Nat
  trace : List Act

/-- A job on which no method has been called. -/
def Run.init (c : periodical) : Run :=
  { c := c, starter := .out, stopper := false, runs := 0, trace := [] }

def Run.emit (r : Run) (acts : List Act) : Run :=
  { r with trace := r.trace ++ acts }

/-- A call of `Start`, up to the `for` loop. -/
def Run.Start (r : Run) : Run :=
  if r.c.state = ProcessStateReady then
    { r with
        c := { r.c with state := ProcessStateStarted }
        starter := .loop
        trace := r.trace ++ [.cas .Start ProcessStateReady ProcessStateStarted] }
  else
    r.emit [.startRejected
      ("error starting periodical job [state:" ++ processStateString r.c.state ++ "]")]

/-- Leaving `Start` after the `defer`: `close(c.done)` runs, then the call ends
as `o`. -/
def Run.Start.leave (r : Run) (o : Outcome) : Run :=
  { r with
      c := { r.c with done := true }
      starter := .ended o
      trace := r.trace ++ [.closeDone, .startEnds o] }

/-- The top of the `for` loop, up to the call of the job. -/
def Run.Start.top (r : Run) : Run :=
  if r.c.state ≠ ProcessStateStarted then
    Run.Start.leave (r.emit [.dbgf "new iteration but periodical job is already stopped"])
      (.returned none)
  else
    { r.emit [.dbgf "running periodical job", .invoke r.runs] with starter := .job }

/-- The call of the job ends, up to the next `select` or the end of `Start`. -/
def Run.Start.afterJob (r : Run) : Run :=
  let r' : Run := { r with runs := r.runs + 1 }
  match r.c.job r.runs with
  | .returned (some err) => Run.Start.leave r' (.returned (some err))
  | .panicked data stack => Run.Start.leave r' (.panicked data stack)
  | .returned none =>
      let r' := r'.emit [.dbgf "periodical job finished"]
      if r'.c.opts.Once then Run.Start.leave r' (.returned none)
      else if r'.c.opts.Idle > 0 then
        { r'.emit [.dbgf "periodical job is idleing"] with starter := .idle }
      else { r' with starter := .check }

/-- The `select` of the idle period takes a case: `c.stop` when `viaStop`, the
timer otherwise. The case of `c.stop` cannot be taken while `c.stop` is open. -/
def Run.Start.idleSelect (r : Run) (viaStop : Bool) : Run :=
  if viaStop then
    if r.c.stop then
      Run.Start.leave (r.emit [.dbgf "periodical job stopped during idle period"])
        (.returned none)
    else r
  else
    { r.emit [.idled, .dbgf "periodical job done idleing, back to work"] with
        starter := .check }

/-- The `select` with the `default` case. -/
def Run.Start.stopCheck (r : Run) : Run :=
  if r.c.stop then
    Run.Start.leave (r.emit [.dbgf "periodical job stopped"]) (.returned none)
  else if r.c.period > 0 then { r with starter := .period }
  else { r with starter := .loop }

/-- The `select` of the period takes a case: `c.stop` when `viaStop`, the ticker
otherwise. -/
def Run.Start.periodSelect (r : Run) (viaStop : Bool) : Run :=
  if viaStop then
    if r.c.stop then
      Run.Start.leave (r.emit [.dbgf "periodical job stopped"]) (.returned none)
    else r
  else
    { r.emit [.ticked, .dbgf "periodical job period expired"] with starter := .loop }

/-- A call of `Stop`, up to its `select`; the `select` is passed at once when
`done` is already closed. -/
def Run.Stop (r : Run) : Run :=
  if r.c.state = ProcessStateReady then
    { r with
        c := { r.c with
                state := ProcessStateStopped, cancelled := true, stop := true, done := true }
        trace := r.trace ++
          [.cas .Stop ProcessStateReady ProcessStateStopped,
           .dbgf "stopping an unstarted periodical job",
           .cancel, .closeStop, .closeDone, .stopEnds none] }
  else if r.c.state = ProcessStateStarted then
    let r' : Run :=
      { r with
          c := { r.c with state := ProcessStateStopping, cancelled := true, stop := true }
          trace := r.trace ++
            [.cas .Stop ProcessStateStarted ProcessStateStopping,
             .cancel, .closeStop, .dbgf "waiting for start to terminate"] }
    if r'.c.done then
      { r' with
          c := { r'.c with state := ProcessStateStopped }
          trace := r'.trace ++
            [.cas .Stop ProcessStateStopping ProcessStateStopped, .stopEnds none] }
    else { r' with stopper := true }
  else
    r.emit [.stopRejected
      ("error stopping periodical job [state:" ++ processStateString r.c.state ++ "]")]

/-- The compare-and-swap inside a case of the `select` of `Stop`. -/
def Run.Stop.swap (r : Run) (new : Int) : Run :=
  if r.c.state = ProcessStateStopping then
    { r with
        c := { r.c with state := new }
        trace := r.trace ++ [.cas .Stop ProcessStateStopping new] }
  else r

/-- The `select` of `Stop` takes a case: the timer when `timedOut`, `c.done`
otherwise. The case of `c.done` cannot be taken while `c.done` is open. -/
def Run.Stop.select (r : Run) (timedOut : Bool) : Run :=
  if timedOut then
    { (Run.Stop.swap r ProcessStateAborted).emit
        [.stopEnds (some "process terminated after shutdown timeout exceeded")] with
        stopper := false }
  else if r.c.done then
    { (Run.Stop.swap r ProcessStateStopped).emit [.stopEnds none] with stopper := false }
  else r

/-- The next thing that happens to a job. -/
inductive Move where
  /-- a goroutine calls `Start` -/
  | callStart
  /-- a goroutine calls `Stop` -/
  | callStop
  /-- the goroutine inside `Start` passes the top of the loop -/
  | top
  /-- the call of the job ends -/
  | jobEnds
  /-- the `select` of the idle period takes a case -/
  | idleSelect (viaStop : Bool)
  /-- the `select` with the `default` case is passed -/
  | stopCheck
  /-- the `select` of the period takes a case -/
  | periodSelect (viaStop : Bool)
  /-- the `select` of `Stop` takes a case -/
  | stopSelect (timedOut : Bool)
  deriving DecidableEq, Repr

/-- One move. A move of a goroutine that is not at that place changes nothing. -/
def Run.step (r : Run) : Move → Run
  | .callStart => r.Start
  | .callStop => r.Stop
  | .top => match r.starter with
    | .loop => Run.Start.top r
    | _ => r
  | .jobEnds => match r.starter with
    | .job => Run.Start.afterJob r
    | _ => r
  | .idleSelect viaStop => match r.starter with
    | .idle => Run.Start.idleSelect r viaStop
    | _ => r
  | .stopCheck => match r.starter with
    | .check => Run.Start.stopCheck r
    | _ => r
  | .periodSelect viaStop => match r.starter with
    | .period => Run.Start.periodSelect r viaStop
    | _ => r
  | .stopSelect timedOut => if r.stopper then Run.Stop.select r timedOut else r

def Run.exec (r : Run) (moves : List Move) : Run :=
  moves.foldl Run.step r

/-! ## Jobs a caller can hold, and what holds of them throughout a run -/

/-- The goroutine that got past the compare-and-swap of `Start` has left it. -/
def StartPc.left : StartPc → Bool
  | .ended _ => true
  | _ => false

/-- The jobs a caller can hold: `periodical` is not exported, the constructors
are `NewPeriodicalJob` and `NewWorker`. -/
def periodical.Built (c : periodical) : Prop :=
  (∃ period job options, c = NewPeriodicalJob period job options) ∨
  (∃ main opts, c = NewWorker main opts)

/-- What the state of a job says about its channels, its context and the
goroutines inside its methods. -/
def Run.Sound (r : Run) : Prop :=
  (r.c.state = ProcessStateReady ∧ r.starter = .out ∧ r.stopper = false ∧
      r.c.done = false ∧ r.c.stop = false ∧ r.c.cancelled = false ∧
      r.runs = 0 ∧ r.trace = []) ∨
  (r.c.state = ProcessStateStarted ∧ r.starter ≠ .out ∧ r.stopper = false ∧
      r.c.done = r.starter.left ∧ r.c.stop = false ∧ r.c.cancelled = false) ∨
  (r.c.state = ProcessStateStopping ∧ r.starter ≠ .out ∧ r.stopper = true ∧
      r.c.done = r.starter.left ∧ r.c.stop = true ∧ r.c.cancelled = true) ∨
  (r.c.state = ProcessStateStopped ∧ (r.starter = .out ∨ r.starter.left = true) ∧
      r.stopper = false ∧ r.c.done = true ∧ r.c.stop = true ∧ r.c.cancelled = true) ∨
  (r.c.state = ProcessStateAborted ∧ r.starter ≠ .out ∧ r.stopper = false ∧
      r.c.done = r.starter.left ∧ r.c.stop = true ∧ r.c.cancelled = true)

/-- An invocation of the user function. -/
def Act.isInvoke : Act → Bool
  | .invoke _ => true
  | _ => false

/-- A compare-and-swap performed by `Start`. -/
def Act.byStart : Act → Bool
  | .cas .Start _ _ => true
  | _ => false

/-- A compare-and-swap performed by `Stop`. -/
def Act.byStop : Act → Bool
  | .cas .Stop _ _ => true
  | _ => false

/-- The compare-and-swaps that `Start` has performed when its goroutine stands
at the given place. -/
def StartPc.swaps : StartPc → List Act
  | .out => []
  | _ => [.cas .Start ProcessStateReady ProcessStateStarted]

/-- What the trace of a run says about the compare-and-swaps: `Start` has
performed at most one, from `Ready` to `Started`, and while `Stop` has performed
none the state is the one `Start` left. -/
def Run.Tidy (r : Run) : Prop :=
  (r.trace.filter Act.byStart = r.starter.swaps) ∧
  (r.trace.filter Act.byStop = [] → r.starter ≠ .out →
      r.c.state = ProcessStateStarted)

/-- A close of `done`. -/
def Act.isCloseDone : Act → Bool
  | .closeDone => true
  | _ => false

/-- The closes of `done` in the trace: one when `done` is closed, none while it
is open. -/
def Run.DoneOnce (r : Run) : Prop :=
  r.trace.filter Act.isCloseDone = if r.c.done = true then [.closeDone] else []

/-- The table of the transitions of `c.state`. -/
def legalTransition (old new : Int) : Bool :=
  (old == ProcessStateReady && new == ProcessStateStarted) ||
  (old == ProcessStateReady && new == ProcessStateStopped) ||
  (old == ProcessStateStarted && new == ProcessStateStopping) ||
  (old == ProcessStateStopping && new == ProcessStateStopped) ||
  (old == ProcessStateStopping && new == ProcessStateAborted)

/-- The state reached by the compare-and-swaps of a trace, taken in order from
the state `s`: each of them has to start from the state reached so far and to be
in the table, else there is no result. -/
def replay : Int → List Act → Option Int
  | s, [] => some s
  | s, .cas _ old new :: rest =>
      if old = s ∧ legalTransition old new = true then replay new rest else none
  | s, _ :: rest => replay s rest

/-- The job with another value of the `Idle` option. -/
def periodical.withIdle (c : periodical) (idle : Int) : periodical :=
  { c with opts := { c.opts with Idle := idle } }

/-- The run with another value of the `Idle` option of its job. -/
def Run.withIdle (r : Run) (idle : Int) : Run :=
  { r with c := r.c.withIdle idle }

/-- A call of the user function, or a wait between two calls. -/
def Act.isRunOrWait : Act → Bool
  | .invoke _ => true
  | .idled => true
  | .ticked => true
  | _ => false

/-- The calls of the user function when the `Once` option is set: none before
the call, one from then on; `Start` ends without a call only after `Stop` has
changed the state. -/
def Run.Single (r : Run) : Prop :=
  match r.starter with
  | .out => r.trace.filter Act.isInvoke = [] ∧ r.runs = 0
  | .loop => r.trace.filter Act.isInvoke = [] ∧ r.runs = 0
  | .job => r.trace.filter Act.isInvoke = [.invoke 0] ∧ r.runs = 0
  | .ended _ =>
      (r.trace.filter Act.isInvoke = [.invoke 0] ∧ r.runs = 1) ∨
      (r.trace.filter Act.isInvoke = [] ∧ r.runs = 0 ∧ r.trace.filter Act.byStop ≠ [])
  | _ => False

/-! ## The options as the documentation words them -/

/-- The last strictly positive `ShutdownTimeout` among the options, 0 when there
is none. -/
def lastPositiveTimeout (options : List PeriodicalOptions) : Int :=
  ((options.map fun o => o.ShutdownTimeout).filter fun t => decide (0 < t)).getLast?.getD 0

/-- The last strictly positive `ShutdownTimeout` among the options of a worker,
0 when there is none. -/
def WorkerOptions.lastPositive (opts : List WorkerOptions) : Int :=
  ((opts.map fun o => o.ShutdownTimeout).filter fun t => decide (0 < t)).getLast?.getD 0

/-- The `ShutdownTimeout` that is left when "a later option overwrites an earlier
one unless its ShutdownTimeout is the zero value": the last one that is not 0,
and 0 when there is none. -/
def WorkerOptions.lastNonZero (opts : List WorkerOptions) : Int :=
  ((opts.map fun o => o.ShutdownTimeout).filter fun t => decide (t ≠ 0)).getLast?.getD 0

/-- The floor of `sanitize`: 60 seconds in place of a value below 1 second. -/
def sanitizedTimeout (t : Int) : Int :=
  if t < Second then 60 * Second else t

/-! ## What holds of the manager throughout a run -/

def Event.isStop : Event → Bool
  | .stop _ => true
  | _ => false

def Event.isRecv : Event → Bool
  | .recv _ => true
  | _ => false

/-- The events that the `launch` of the unit `name` brings about. -/
def Event.byLaunch (name : String) : Event → Bool
  | .start n => n == name
  | .store n _ => n == name
  | .send n _ => n == name
  | .managerStop (some n) => n == name
  | _ => false

/-- Whether the controller's `Stop` of the registered unit yields nil. -/
def Manager.stopsClean (manager : Manager) (name : String) : Bool :=
  match manager.processes.lookup name with
  | some c => c.Stop.isNone
  | none => false

/-- A manager as `NewManager` and `AddProcess` leave it: not started, and nobody
blocked on any of its channels. -/
def Manager.Fresh (manager : Manager) : Prop :=
  manager.started = 0 ∧ manager.control = [] ∧
    ∀ e ∈ manager.processes.entries, e.2.control = []

/-- How far the sweep of `Manager.Start` has come, in a run that began at the
manager `m0`: the calls of `Stop` made so far, followed by those still to make,
are the registry in its order, one call per unit; the receives made so far,
followed by those still to make, are the units whose `Stop` yields nil. -/
def Sys.Swept (m0 : Manager) (s : Sys) : Prop :=
  s.manager.processes.keys = m0.processes.keys ∧
  (∀ n, (s.manager.processes.lookup n).map controller.process
      = (m0.processes.lookup n).map controller.process) ∧
  match s.main with
  | .idle =>
      s.manager.started = 0 ∧ s.trace.filter Event.isStop = [] ∧
      s.trace.filter Event.isRecv = []
  | .select =>
      s.manager.started ≤ 1 ∧ s.trace.filter Event.isStop = [] ∧
      s.trace.filter Event.isRecv = []
  | .woken =>
      s.manager.started ≤ 1 ∧ s.trace.filter Event.isStop = [] ∧
      s.trace.filter Event.isRecv = []
  | .sweep rest =>
      s.manager.started = 0 ∧
      s.trace.filter Event.isStop ++ rest.map Event.stop
        = m0.processes.keys.map Event.stop ∧
      s.trace.filter Event.isRecv ++ (rest.filter m0.stopsClean).map Event.recv
        = (m0.processes.keys.filter m0.stopsClean).map Event.recv
  | .inStop name rest =>
      s.manager.started = 0 ∧ name ∈ m0.processes.keys ∧
      s.trace.filter Event.isStop ++ rest.map Event.stop
        = m0.processes.keys.map Event.stop ∧
      s.trace.filter Event.isRecv ++ ((name :: rest).filter m0.stopsClean).map Event.recv
        = (m0.processes.keys.filter m0.stopsClean).map Event.recv
  | .waiting name rest =>
      s.manager.started = 0 ∧ m0.stopsClean name = true ∧
      s.trace.filter Event.isStop ++ rest.map Event.stop
        = m0.processes.keys.map Event.stop ∧
      s.trace.filter Event.isRecv ++ Event.recv name :: (rest.filter m0.stopsClean).map Event.recv
        = (m0.processes.keys.filter m0.stopsClean).map Event.recv
  | .returned err =>
      err = none ∧ s.manager.started = 0 ∧
      s.trace.filter Event.isStop = m0.processes.keys.map Event.stop ∧
      s.trace.filter Event.isRecv
        = (m0.processes.keys.filter m0.stopsClean).map Event.recv

/-- The events of a `launch` that has got to its send, for a unit whose
controller is `c`. -/
def Sys.launch.events (name : String) (c : controller) : List Event :=
  match c.Start with
  | none =>
      [.store name ProcessStateStarted, .start name, .store name ProcessStateStopped,
       .send name 0]
  | some _ =>
      [.store name ProcessStateStarted, .start name, .managerStop (some name),
       .store name ProcessStateAborted, .send name 0]

/-- What a `launch` for the unit `name` with the controller `c` has done when it
stands at `pc`: the state it has recorded and its events `es` so far. -/
def Sys.launch.progress (name : String) (c : controller) (es : List Event) :
    LaunchPc → Prop
  | .absent => es = []
  | .spawned => es = []
  | .inStart =>
      c.state = ProcessStateStarted ∧ es = [.store name ProcessStateStarted, .start name]
  | .failed =>
      c.Start ≠ none ∧ c.state = ProcessStateStarted ∧
      es = [.store name ProcessStateStarted, .start name]
  | .inStop =>
      c.Start ≠ none ∧ c.state = ProcessStateStarted ∧
      es = [.store name ProcessStateStarted, .start name, .managerStop (some name)]
  | .stopped =>
      c.Start ≠ none ∧ c.state = ProcessStateStarted ∧
      es = [.store name ProcessStateStarted, .start name, .managerStop (some name)]
  | .sending =>
      c.state = (if c.Start = none then ProcessStateStopped else ProcessStateAborted) ∧
      es = Sys.launch.events name c
  | .done =>
      c.state = (if c.Start = none then ProcessStateStopped else ProcessStateAborted) ∧
      es = Sys.launch.events name c

/-- Every `launch` has done what belongs to the place where it stands. -/
def Sys.Launched (s : Sys) : Prop :=
  ∀ n c, s.manager.processes.lookup n = some c →
    Sys.launch.progress n c (s.trace.filter (Event.byLaunch n)) (s.launches n)

/-- Who is blocked where, in a run that began at a fresh manager: before `Start` is
called nothing has happened; at most one caller of `Stop` wins the
compare-and-swap and is blocked in its send; each completion channel holds a
value exactly while the `launch` of its unit is blocked in its send. -/
def Sys.Paired (s : Sys) : Prop :=
  (s.main = .idle → s.manager.started = 0 ∧ s.senders = [] ∧ ∀ n, s.launches n = .absent) ∧
  s.senders.length + s.manager.started ≤ 1 ∧
  (∀ n, some n ∈ s.senders → s.launches n = .inStop) ∧
  ∀ n c, s.manager.processes.lookup n = some c →
    c.control = if s.launches n = .sending then [0] else []

/-! ## Sample units and jobs, after the tests of the repository -/

/-- A unit whose `Start` and `Stop` return nil (`SampleService`). -/
def SampleService : Process :=
  { Start := .returned none, Stop := .returned none }

/-- A unit whose `Start` returns `errDefault` (`SampleBadService`). -/
def SampleBadService : Process :=
  { Start := .returned (some "an error"), Stop := .returned none }

/-- A unit whose `Start` panics (`SampleBadService` with `panic` set). -/
def SamplePanicService : Process :=
  { Start := .panicked (some "big estoiro") "goroutine 7 [running]", Stop := .returned none }

/-- A unit whose `Stop` returns an error. -/
def SampleStuckService : Process :=
  { Start := .returned none, Stop := .returned (some "an error") }

/-- A manager with three registered units, one of which fails to stop. -/
def sampleManager : Manager :=
  (((NewManager.AddProcess "a" SampleStuckService).1.AddProcess "b" SampleService).1.AddProcess
    "c" SampleBadService).1

/-- A run of the sample manager to the end: the unit `c` fails, which stops the
others; the unit `a` fails to stop. -/
def fullTurns : List Turn :=
  [.callStart, .begin "c", .begin "b", .begin "a", .startReturns "c", .launchStop "c",
   .stopRequest, .swap, .record "c", .sweep, .stopReturns, .receive, .sweep, .stopReturns,
   .startReturns "b", .receive, .sweep, .stopReturns, .sweep]

/-- A manager with one unit, whose `Start` returns an error. -/
def raceManager : Manager :=
  (NewManager.AddProcess "bad" SampleBadService).1

/-- The unit fails and calls `manager.Stop()`, which wins the compare-and-swap;
the `select` of `Start` then takes a termination signal. -/
def raceTurns : List Turn :=
  [.callStart, .begin "bad", .startReturns "bad", .launchStop "bad", .signal, .swap,
   .sweep, .stopReturns]

/-- A unit whose `Stop` returns nil without making its `Start` return; its
`Start` returns nil if it returns at all. -/
def SampleDeafService : Process :=
  { Start := .returned none, Stop := .returned none }

/-- A manager with two units, the first of which does not listen to its `Stop`. -/
def hungManager : Manager :=
  ((NewManager.AddProcess "b" SampleService).1.AddProcess "a" SampleDeafService).1

/-- A termination signal arrives while both units run; the sweep stops `a`. -/
def hungTurns : List Turn :=
  [.callStart, .begin "a", .begin "b", .signal, .swap, .sweep, .stopReturns]

/-- The job `ok` of the tests: every call returns nil. -/
def jobOk : Nat → Outcome := fun _ => .returned none

/-- The job `bad` of the tests: the call returns an error. -/
def jobBad : Nat → Outcome := fun _ => .returned (some "bad")

/-- The job `panic` of the tests: the call panics. -/
def jobPanic : Nat → Outcome := fun _ => .panicked (some "bad") "goroutine 9 [running]"

/-! ## The controller and the manager: lemmas -/

theorem StatusCheck_fold_flag (l : List (Sigma fun _ : String => controller)) :
    ∀ acc : Bool × AList (fun _ : String => Int),
      (l.foldl Manager.StatusCheck.visit acc).1
        = (acc.1 && l.all fun e => decide (e.2.state ≠ ProcessStateAborted)) := by
  induction l with
  | nil => intro acc; simp
  | cons e t ih =>
      intro acc
      rw [List.foldl_cons, ih]
      by_cases h : e.2.state = ProcessStateAborted <;>
        simp [Manager.StatusCheck.visit, h]

theorem StatusCheck_fold_lookup (n : String) (l : List (Sigma fun _ : String => controller)) :
    l.NodupKeys → ∀ acc : Bool × AList (fun _ : String => Int),
      (l.foldl Manager.StatusCheck.visit acc).2.lookup n
        = if n ∈ l.keys then (l.dlookup n).map (fun c => c.state) else acc.2.lookup n := by
  induction l with
  | nil => intro _ acc; simp
  | cons e t ih =>
      intro hl acc
      obtain ⟨k, c⟩ := e
      obtain ⟨hkt, ht⟩ := List.nodupKeys_cons.mp hl
      rw [List.foldl_cons, ih ht]
      by_cases hk : n = k
      · subst hk
        have hnt : n ∉ t.keys := hkt
        simp [hnt, Manager.StatusCheck.visit, AList.lookup_insert, List.dlookup_cons_eq]
      · have hk' : n ≠ (⟨k, c⟩ : Sigma fun _ : String => controller).1 := hk
        by_cases hnt : n ∈ t.keys
        · simp [hnt, List.dlookup_cons_ne _ _ hk', hk]
        · simp [hnt, hk, Manager.StatusCheck.visit, AList.lookup_insert_ne hk]

theorem dlookup_kreplace (a : String) (b : controller) (k : String) :
    ∀ l : List (Sigma fun _ : String => controller),
      List.dlookup k (List.kreplace a b l)
        = if k = a then (List.dlookup a l).map (fun _ => b) else List.dlookup k l := by
  intro l
  induction l with
  | nil => simp [List.kreplace]
  | cons e t ih =>
      obtain ⟨x, c⟩ := e
      unfold List.kreplace at ih ⊢
      by_cases hax : a = x
      · subst hax
        have h1 : List.lookmap (fun s : Sigma fun _ : String => controller =>
              if a = s.1 then some ⟨a, b⟩ else none) (⟨a, c⟩ :: t) = ⟨a, b⟩ :: t :=
          List.lookmap_cons_some _ _ (by simp)
        rw [h1]
        by_cases hk : k = a
        · subst hk; simp [List.dlookup_cons_eq]
        · have hk1 : k ≠ (⟨a, b⟩ : Sigma fun _ : String => controller).1 := hk
          have hk2 : k ≠ (⟨a, c⟩ : Sigma fun _ : String => controller).1 := hk
          simp [hk, List.dlookup_cons_ne _ _ hk1, List.dlookup_cons_ne _ _ hk2]
      · have h1 : List.lookmap (fun s : Sigma fun _ : String => controller =>
              if a = s.1 then some ⟨a, b⟩ else none) (⟨x, c⟩ :: t)
              = ⟨x, c⟩ :: List.lookmap (fun s : Sigma fun _ : String => controller =>
              if a = s.1 then some ⟨a, b⟩ else none) t :=
          List.lookmap_cons_none _ _ (by simp [hax])
        rw [h1]
        by_cases hk : k = x
        · subst hk
          have : ¬ k = a := fun h => hax h.symm
          simp [this, List.dlookup_cons_eq]
        · have hk1 : k ≠ (⟨x, c⟩ : Sigma fun _ : String => controller).1 := hk
          have hax1 : a ≠ (⟨x, c⟩ : Sigma fun _ : String => controller).1 := hax
          rw [List.dlookup_cons_ne _ _ hk1, ih, List.dlookup_cons_ne _ _ hk1,
            List.dlookup_cons_ne _ _ hax1]

theorem modify_keys (manager : Manager) (name : String) (f : controller → controller) :
    (manager.modify name f).processes.keys = manager.processes.keys := by
  unfold Manager.modify
  cases manager.processes.lookup name <;> simp

theorem modify_lookup (manager : Manager) (name : String) (f : controller → controller)
    (k : String) :
    (manager.modify name f).processes.lookup k
      = if k = name then (manager.processes.lookup name).map f
        else manager.processes.lookup k := by
  unfold Manager.modify
  cases h : manager.processes.lookup name with
  | none =>
      by_cases hk : k = name
      · subst hk; simp [h]
      · simp [hk]
  | some c =>
      show List.dlookup k (List.kreplace name (f c) manager.processes.entries) = _
      rw [dlookup_kreplace]
      have h' : List.dlookup name manager.processes.entries = some c := h
      by_cases hk : k = name
      · simp [hk, h']
      · simp [hk, AList.lookup]

theorem modify_started (manager : Manager) (name : String) (f : controller → controller) :
    (manager.modify name f).started = manager.started := by
  unfold Manager.modify
  cases manager.processes.lookup name <;> rfl

theorem modify_control (manager : Manager) (name : String) (f : controller → controller) :
    (manager.modify name f).control = manager.control := by
  unfold Manager.modify
  cases manager.processes.lookup name <;> rfl

theorem modify_process (manager : Manager) (name : String) (f : controller → controller)
    (hf : ∀ c, (f c).process = c.process) (k : String) :
    ((manager.modify name f).processes.lookup k).map controller.process
      = (manager.processes.lookup k).map controller.process := by
  rw [modify_lookup]
  by_cases hk : k = name
  · subst hk
    cases manager.processes.lookup k <;> simp [hf]
  · simp [hk]

theorem Swept_frame (m0 : Manager) (s t : Sys) (h : s.Swept m0)
    (hk : t.manager.processes.keys = s.manager.processes.keys)
    (hp : ∀ n, (t.manager.processes.lookup n).map controller.process
        = (s.manager.processes.lookup n).map controller.process)
    (hm : t.main = s.main)
    (h1 : t.trace.filter Event.isStop = s.trace.filter Event.isStop)
    (h2 : t.trace.filter Event.isRecv = s.trace.filter Event.isRecv)
    (hs : t.manager.started = s.manager.started ∨ t.manager.started = 0) : t.Swept m0 := by
  obtain ⟨hk0, hp0, h0⟩ := h
  refine ⟨hk.trans hk0, fun n => (hp n).trans (hp0 n), ?_⟩
  rw [hm, h1, h2]
  cases hmain : s.main <;> rw [hmain] at h0 <;> simp only at h0 ⊢ <;>
    rcases hs with hs | hs <;> simp_all

theorem Stop_started (manager : Manager) :
    manager.Stop.1.started = manager.started ∨ manager.Stop.1.started = 0 := by
  unfold Manager.Stop
  split_ifs <;> simp

theorem Stop_processes (manager : Manager) : manager.Stop.1.processes = manager.processes := by
  unfold Manager.Stop
  split_ifs <;> rfl

theorem Swept_begin (m0 : Manager) (s : Sys) (name : String) (h : s.Swept m0) :
    (Sys.launch.begin s name).Swept m0 := by
  unfold Sys.launch.begin
  split
  · apply Swept_frame m0 s _ h <;>
      simp [Sys.move, Sys.emit, Sys.store, modify_keys, modify_started, modify_process,
        Event.isStop, Event.isRecv]
  · exact h

theorem Swept_startReturns (m0 : Manager) (s : Sys) (name : String) (h : s.Swept m0) :
    (Sys.launch.startReturns s name).Swept m0 := by
  unfold Sys.launch.startReturns
  split
  · split
    · apply Swept_frame m0 s _ h <;> simp [Sys.move]
    · apply Swept_frame m0 s _ h <;>
        simp [Sys.move, Sys.emit, Sys.store, Sys.offer, modify_keys, modify_started,
          modify_process, Event.isStop, Event.isRecv]
  · exact h

theorem Swept_launchStop (m0 : Manager) (s : Sys) (name : String) (h : s.Swept m0) :
    (Sys.launch.callStop s name).Swept m0 := by
  unfold Sys.launch.callStop
  split
  · have h1 := Stop_started s.manager
    have h2 := Stop_processes s.manager
    simp only []
    split_ifs <;>
      apply Swept_frame m0 s _ h <;>
        simp [Sys.move, Sys.emit, Event.isStop, Event.isRecv, h1, h2]
  · exact h

theorem Swept_record (m0 : Manager) (s : Sys) (name : String) (h : s.Swept m0) :
    (Sys.launch.record s name).Swept m0 := by
  unfold Sys.launch.record
  split
  · apply Swept_frame m0 s _ h <;>
      simp [Sys.move, Sys.emit, Sys.store, Sys.offer, modify_keys, modify_started,
        modify_process, Event.isStop, Event.isRecv]
  · exact h

theorem Swept_Stop (m0 : Manager) (s : Sys) (h : s.Swept m0) : s.Stop.Swept m0 := by
  unfold Sys.Stop
  have h1 := Stop_started s.manager
  have h2 := Stop_processes s.manager
  simp only []
  split_ifs <;>
    apply Swept_frame m0 s _ h <;>
      simp [Sys.emit, Event.isStop, Event.isRecv, h1, h2]

theorem launchAll_filter (l : List (Sigma fun _ : String => controller)) :
    (Manager.Start.launchAll l).filter Event.isStop = [] ∧
    (Manager.Start.launchAll l).filter Event.isRecv = [] := by
  induction l with
  | nil => simp [Manager.Start.launchAll]
  | cons e t ih =>
      obtain ⟨k, c⟩ := e
      simp [Manager.Start.launchAll, Event.isStop, Event.isRecv, ih.1, ih.2]

theorem stopsClean_congr (m m0 : Manager) (n : String)
    (h : (m.processes.lookup n).map controller.process
      = (m0.processes.lookup n).map controller.process) :
    m.stopsClean n = m0.stopsClean n := by
  unfold Manager.stopsClean
  cases h1 : m.processes.lookup n <;> cases h2 : m0.processes.lookup n <;>
    simp [h1, h2] at h ⊢
  simp [controller.Stop, h]

theorem Swept_Start (m0 : Manager) (hne : m0.processes.entries ≠ []) (s : Sys)
    (h : s.Swept m0) : s.Start.Swept m0 := by
  unfold Sys.Start
  cases hmain : s.main with
  | idle =>
      obtain ⟨hk, hp, h0⟩ := h
      rw [hmain] at h0
      obtain ⟨hs, h1, h2⟩ := h0
      have hlen : ¬ s.manager.processes.entries.length < 1 := by
        have hk' : s.manager.processes.entries.map Sigma.fst
            = m0.processes.entries.map Sigma.fst := hk
        have : s.manager.processes.entries.length = m0.processes.entries.length := by
          simpa using congrArg List.length hk'
        rw [this]
        cases hl : m0.processes.entries with
        | nil => exact absurd hl hne
        | cons e t => simp
      obtain ⟨l1, l2⟩ := launchAll_filter s.manager.processes.entries
      refine ⟨?_, ?_, ?_⟩
      · simpa [Manager.Start, hlen, hs] using hk
      · simpa [Manager.Start, hlen, hs] using hp
      · simp [Manager.Start, hlen, hs, h1, h2, l1, l2, Event.isStop, Event.isRecv]
  | _ => simpa [hmain] using h

theorem Swept_signal (m0 : Manager) (s : Sys) (h : s.Swept m0) :
    (Sys.Start.signal s).Swept m0 := by
  unfold Sys.Start.signal
  cases hmain : s.main with
  | select =>
      obtain ⟨hk, hp, h0⟩ := h
      rw [hmain] at h0
      exact ⟨hk, hp, h0⟩
  | _ => simpa [hmain] using h

theorem Swept_stopRequest (m0 : Manager) (s : Sys) (h : s.Swept m0) :
    (Sys.Start.stopRequest s).Swept m0 := by
  unfold Sys.Start.stopRequest
  split
  · rename_i hmain hc
    obtain ⟨hk, hp, h0⟩ := h
    rw [hmain] at h0
    split <;> exact ⟨hk, hp, h0⟩
  · exact h

theorem Swept_swap (m0 : Manager) (s : Sys) (h : s.Swept m0) :
    (Sys.Start.swap s).Swept m0 := by
  unfold Sys.Start.swap
  cases hmain : s.main with
  | woken =>
      obtain ⟨hk, hp, h0⟩ := h
      rw [hmain] at h0
      obtain ⟨hs, h1, h2⟩ := h0
      refine ⟨hk, hp, ?_⟩
      have hs' : (if s.manager.started = 1 then 0 else s.manager.started) = 0 := by
        split_ifs <;> omega
      simp [hs', h1, h2, hk]
  | _ => simpa [hmain] using h

theorem Swept_sweep (m0 : Manager) (s : Sys) (h : s.Swept m0) :
    (Sys.Start.sweep s).Swept m0 := by
  unfold Sys.Start.sweep
  split
  · rename_i name rest hmain
    obtain ⟨hk, hp, h0⟩ := h
    rw [hmain] at h0
    obtain ⟨hs, h1, h2⟩ := h0
    have hmem : name ∈ m0.processes.keys := by
      have : Event.stop name ∈ m0.processes.keys.map Event.stop := by
        rw [← h1]; simp
      simpa using this
    refine ⟨hk, hp, ?_⟩
    simp [Sys.emit, hs, hmem, Event.isStop, Event.isRecv]
    exact ⟨by simpa using h1, by simpa using h2⟩
  · rename_i hmain
    obtain ⟨hk, hp, h0⟩ := h
    rw [hmain] at h0
    obtain ⟨hs, h1, h2⟩ := h0
    refine ⟨hk, hp, ?_⟩
    simp only [List.map_nil, List.filter_nil, List.append_nil] at h1 h2
    exact ⟨rfl, hs, h1, h2⟩
  · exact h

theorem Swept_stopReturns (m0 : Manager) (s : Sys) (h : s.Swept m0) :
    (Sys.Start.stopReturns s).Swept m0 := by
  unfold Sys.Start.stopReturns
  split
  · rename_i name rest hmain
    obtain ⟨hk, hp, h0⟩ := h
    rw [hmain] at h0
    obtain ⟨hs, hmem, h1, h2⟩ := h0
    have hc := stopsClean_congr s.manager m0 name (hp name)
    split
    · rename_i process hl
      have hc' : m0.stopsClean name = process.Stop.isNone := by
        rw [← hc]; simp [Manager.stopsClean, hl]
      split
      · rename_i e he
        refine ⟨hk, hp, ?_⟩
        have : m0.stopsClean name = false := by rw [hc', he]; rfl
        simp [hs, h1]
        simpa [List.filter_cons, this] using h2
      · rename_i he
        refine ⟨hk, hp, ?_⟩
        have : m0.stopsClean name = true := by rw [hc', he]; rfl
        simp [hs, h1, this]
        simpa [List.filter_cons, this] using h2
    · exact ⟨hk, hp, by rw [hmain]; exact ⟨hs, hmem, h1, h2⟩⟩
  · exact h

theorem Swept_receive (m0 : Manager) (s : Sys) (h : s.Swept m0) :
    (Sys.Start.receive s).Swept m0 := by
  unfold Sys.Start.receive
  split
  · rename_i name rest hmain
    obtain ⟨hk, hp, h0⟩ := h
    have h0' := h0
    rw [hmain] at h0
    obtain ⟨hs, hc, h1, h2⟩ := h0
    split
    · split
      · refine ⟨?_, ?_, ?_⟩
        · simpa [Sys.move, Sys.emit, Sys.take, modify_keys] using hk
        · intro n
          simpa [Sys.move, Sys.emit, Sys.take, modify_process] using hp n
        · simp [Sys.move, Sys.emit, Sys.take, modify_started, hs, Event.isStop, Event.isRecv]
          exact ⟨by simpa using h1, by simpa using h2⟩
      · exact ⟨hk, hp, h0'⟩
    · exact ⟨hk, hp, h0'⟩
  · exact h

theorem Swept_init (m0 : Manager) (h0 : m0.started = 0) : (Sys.init m0).Swept m0 := by
  simp [Sys.Swept, Sys.init, h0]

theorem Swept_step (m0 : Manager) (hne : m0.processes.entries ≠ []) (s : Sys) (t : Turn)
    (h : s.Swept m0) : (s.step t).Swept m0 := by
  cases t with
  | callStart => exact Swept_Start m0 hne s h
  | signal => exact Swept_signal m0 s h
  | stopRequest => exact Swept_stopRequest m0 s h
  | swap => exact Swept_swap m0 s h
  | sweep => exact Swept_sweep m0 s h
  | stopReturns => exact Swept_stopReturns m0 s h
  | receive => exact Swept_receive m0 s h
  | callStop => exact Swept_Stop m0 s h
  | begin name => exact Swept_begin m0 s name h
  | startReturns name => exact Swept_startReturns m0 s name h
  | launchStop name => exact Swept_launchStop m0 s name h
  | record name => exact Swept_record m0 s name h

theorem Sys_exec_nil (s : Sys) : s.exec [] = s := rfl

theorem Sys_exec_cons (s : Sys) (t : Turn) (ts : List Turn) :
    s.exec (t :: ts) = (s.step t).exec ts := rfl

theorem Sys_exec_append (s : Sys) (ts us : List Turn) :
    s.exec (ts ++ us) = (s.exec ts).exec us := by
  simp [Sys.exec, List.foldl_append]

theorem Swept_exec (m0 : Manager) (hne : m0.processes.entries ≠ []) (ts : List Turn) :
    ∀ s : Sys, s.Swept m0 → (s.exec ts).Swept m0 := by
  induction ts with
  | nil => intro s h; exact h
  | cons t ts ih => intro s h; exact ih _ (Swept_step m0 hne s t h)

theorem modify_lookup_some (manager : Manager) (name : String) (f : controller → controller)
    (n : String) (c : controller) (h : (manager.modify name f).processes.lookup n = some c) :
    ∃ d, manager.processes.lookup n = some d ∧ c = if n = name then f d else d := by
  rw [modify_lookup] at h
  by_cases hn : n = name
  · subst hn
    cases hl : manager.processes.lookup n with
    | none => simp [hl] at h
    | some d => exact ⟨d, rfl, by simpa [hl] using h.symm⟩
  · simp only [hn, if_false] at h
    exact ⟨c, h, by simp [hn]⟩

theorem Paired_init (m0 : Manager) (hf : m0.Fresh) : (Sys.init m0).Paired := by
  obtain ⟨h0, _, hc⟩ := hf
  refine ⟨fun _ => ⟨h0, rfl, fun _ => rfl⟩, by simp [Sys.init, h0], by simp [Sys.init], ?_⟩
  intro n c hl
  have := hc ⟨n, c⟩ (AList.mem_lookup_iff.mp hl)
  simpa [Sys.init] using this

theorem Paired_begin (s : Sys) (name : String) (h : s.Paired) :
    (Sys.launch.begin s name).Paired := by
  unfold Sys.launch.begin
  split
  · rename_i hpc
    obtain ⟨h1, h2, h3, h4⟩ := h
    refine ⟨?_, ?_, ?_, ?_⟩
    · intro hm
      have := (h1 hm).2.2 name
      simp [hpc] at this
    · simpa [Sys.move, Sys.emit, Sys.store, modify_started] using h2
    · intro n hn
      have := h3 n hn
      by_cases hnn : n = name
      · subst hnn; simp [hpc] at this
      · simpa [Sys.move, Sys.emit, Sys.store, Function.update_noteq hnn] using this
    · intro n c hl
      obtain ⟨d, hd, hcd⟩ := modify_lookup_some _ _ _ _ _ hl
      have := h4 n d hd
      by_cases hnn : n = name
      · subst hnn
        simp [Sys.move, Sys.emit, Sys.store, hcd, this, hpc]
      · simp [Sys.move, Sys.emit, Sys.store, hcd, this, hnn, Function.update_noteq hnn]
  · exact h

theorem store_offer_lookup (s : Sys) (name : String) (st v : Int) (n : String) (c : controller)
    (h : ((s.store name st).offer name v).manager.processes.lookup n = some c) :
    ∃ d, s.manager.processes.lookup n = some d ∧
      c = if n = name then { d with state := st, control := d.control ++ [v] } else d := by
  obtain ⟨e, he, hce⟩ := modify_lookup_some _ _ _ _ _ h
  obtain ⟨d, hd, hed⟩ := modify_lookup_some _ _ _ _ _ he
  refine ⟨d, hd, ?_⟩
  by_cases hn : n = name
  · simp [hn] at hce hed ⊢; rw [hce, hed]
  · simp [hn] at hce hed ⊢; rw [hce, hed]

theorem Paired_sending (s : Sys) (name : String) (st : Int) (es : List Event) (h : s.Paired)
    (hpc : s.launches name ≠ .sending) (hpc2 : s.launches name ≠ .inStop)
    (hpc3 : s.launches name ≠ .absent) :
    ((((s.store name st).offer name 0).emit es).move name .sending).Paired := by
  obtain ⟨h1, h2, h3, h4⟩ := h
  refine ⟨?_, ?_, ?_, ?_⟩
  · intro hm
    exact absurd ((h1 hm).2.2 name) hpc3
  · simpa [Sys.move, Sys.emit, Sys.store, Sys.offer, modify_started] using h2
  · intro n hn
    have := h3 n hn
    by_cases hnn : n = name
    · subst hnn; exact absurd this hpc2
    · simpa [Sys.move, Sys.emit, Sys.store, Sys.offer, Function.update_noteq hnn] using this
  · intro n c hl
    obtain ⟨d, hd, hcd⟩ := store_offer_lookup s name st 0 n c hl
    have := h4 n d hd
    by_cases hnn : n = name
    · subst hnn
      simp [Sys.move, hcd, this, hpc]
    · simp [Sys.move, Sys.emit, Sys.store, Sys.offer, hcd, this, hnn,
        Function.update_noteq hnn]

theorem Paired_move (s : Sys) (name : String) (pc : LaunchPc) (h : s.Paired)
    (hpc : s.launches name ≠ .sending) (hpc2 : s.launches name ≠ .inStop)
    (hpc3 : s.launches name ≠ .absent) (hpc4 : pc ≠ .sending) :
    (s.move name pc).Paired := by
  obtain ⟨h1, h2, h3, h4⟩ := h
  refine ⟨?_, h2, ?_, ?_⟩
  · intro hm
    exact absurd ((h1 hm).2.2 name) hpc3
  · intro n hn
    have := h3 n hn
    by_cases hnn : n = name
    · subst hnn; exact absurd this hpc2
    · simpa [Sys.move, Function.update_noteq hnn] using this
  · intro n c hl
    have := h4 n c hl
    by_cases hnn : n = name
    · subst hnn
      simp [Sys.move, this, hpc, hpc4]
    · simp [Sys.move, this, Function.update_noteq hnn]

theorem Paired_startReturns (s : Sys) (name : String) (h : s.Paired) :
    (Sys.launch.startReturns s name).Paired := by
  unfold Sys.launch.startReturns
  split
  · rename_i hpc hl
    split
    · exact Paired_move s name .failed h (by simp [hpc]) (by simp [hpc]) (by simp [hpc])
        (by simp)
    · exact Paired_sending s name _ _ h (by simp [hpc]) (by simp [hpc]) (by simp [hpc])
  · exact h

theorem Paired_record (s : Sys) (name : String) (h : s.Paired) :
    (Sys.launch.record s name).Paired := by
  unfold Sys.launch.record
  split
  · rename_i hpc
    exact Paired_sending s name _ _ h (by simp [hpc]) (by simp [hpc]) (by simp [hpc])
  · exact h

theorem Paired_launchStop (s : Sys) (name : String) (h : s.Paired) :
    (Sys.launch.callStop s name).Paired := by
  unfold Sys.launch.callStop
  split
  · rename_i hpc
    obtain ⟨h1, h2, h3, h4⟩ := h
    have hidle : s.main ≠ .idle := by
      intro hm
      have := (h1 hm).2.2 name
      simp [hpc] at this
    simp only []
    by_cases hs : s.manager.started = 1
    · have hsend : s.senders = [] := by
        cases hq : s.senders with
        | nil => rfl
        | cons a l => rw [hq] at h2; simp at h2; omega
      simp only [Manager.Stop, hs, if_true]
      refine ⟨fun hm => absurd hm hidle, ?_, ?_, ?_⟩
      · simp [Sys.move, Sys.emit, hsend]
      · intro n hn
        have hn' : n = name := by simpa [Sys.move, Sys.emit, hsend] using hn
        subst hn'
        simp [Sys.move]
      · intro n c hl
        have := h4 n c hl
        by_cases hnn : n = name
        · subst hnn
          simpa [Sys.move, hpc] using this
        · simpa [Sys.move, Function.update_noteq hnn] using this
    · simp only [Manager.Stop, hs, if_false]
      refine ⟨fun hm => absurd hm hidle, h2, ?_, ?_⟩
      · intro n hn
        have := h3 n hn
        by_cases hnn : n = name
        · subst hnn; simp [hpc] at this
        · simpa [Sys.move, Sys.emit, Function.update_noteq hnn] using this
      · intro n c hl
        have := h4 n c hl
        by_cases hnn : n = name
        · subst hnn
          simpa [Sys.move, hpc] using this
        · simpa [Sys.move, Function.update_noteq hnn] using this
  · exact h

theorem Paired_Stop (s : Sys) (h : s.Paired) : s.Stop.Paired := by
  unfold Sys.Stop
  obtain ⟨h1, h2, h3, h4⟩ := h
  simp only []
  by_cases hs : s.manager.started = 1
  · have hsend : s.senders = [] := by
      cases hq : s.senders with
      | nil => rfl
      | cons a l => rw [hq] at h2; simp at h2; omega
    have hidle : s.main ≠ .idle := by
      intro hm
      have := (h1 hm).1
      omega
    simp only [Manager.Stop, hs, if_true]
    refine ⟨fun hm => absurd hm hidle, ?_, ?_, h4⟩
    · simp [Sys.emit, hsend]
    · intro n hn
      simp [Sys.emit, hsend] at hn
  · simp only [Manager.Stop, hs, if_false]
    exact ⟨h1, h2, h3, h4⟩

theorem Paired_Start (s : Sys) (h : s.Paired) : s.Start.Paired := by
  unfold Sys.Start
  cases hmain : s.main with
  | idle =>
      obtain ⟨h1, h2, h3, h4⟩ := h
      obtain ⟨hs, hq, hl⟩ := h1 hmain
      simp only []
      have hctl : ∀ n c, s.manager.processes.lookup n = some c → c.control = [] := by
        intro n c hc
        simpa [hl n] using h4 n c hc
      unfold Manager.Start
      split_ifs with ha hb
      · refine ⟨fun _ => ⟨hs, hq, fun n => by simp [hl n]⟩, h2, h3, ?_⟩
        intro n c hc
        simpa [hl n] using hctl n c hc
      · exact absurd hs hb
      · refine ⟨fun hm => by simp at hm, by simp [hq], by simp [hq], ?_⟩
        intro n c hc
        have := hctl n c hc
        simp only [this]
        split_ifs <;> simp_all
  | _ => simpa [hmain] using h

theorem Paired_main (s t : Sys) (h : s.Paired) (hm : s.manager.processes = t.manager.processes)
    (hl : t.launches = s.launches) (hq : t.senders = s.senders)
    (hs : t.manager.started ≤ s.manager.started) (hi : t.main = .idle → s.main = .idle) :
    t.Paired := by
  obtain ⟨h1, h2, h3, h4⟩ := h
  refine ⟨?_, ?_, ?_, ?_⟩
  · intro hmi
    obtain ⟨a, b, c⟩ := h1 (hi hmi)
    exact ⟨by omega, by rw [hq]; exact b, by rw [hl]; exact c⟩
  · rw [hq]; omega
  · rw [hq, hl]; exact h3
  · rw [← hm, hl]; exact h4

theorem Paired_signal (s : Sys) (h : s.Paired) : (Sys.Start.signal s).Paired := by
  unfold Sys.Start.signal
  split
  · exact Paired_main s _ h rfl rfl rfl (le_refl _) (by simp)
  · exact h

theorem Paired_swap (s : Sys) (h : s.Paired) : (Sys.Start.swap s).Paired := by
  unfold Sys.Start.swap
  split
  · refine Paired_main s _ h rfl rfl rfl ?_ (by simp)
    simp only []
    split_ifs <;> omega
  · exact h

theorem Paired_sweep (s : Sys) (h : s.Paired) : (Sys.Start.sweep s).Paired := by
  unfold Sys.Start.sweep
  split
  · exact Paired_main s _ h rfl rfl rfl (le_refl _) (by simp)
  · exact Paired_main s _ h rfl rfl rfl (le_refl _) (by simp)
  · exact h

theorem Paired_stopReturns (s : Sys) (h : s.Paired) : (Sys.Start.stopReturns s).Paired := by
  unfold Sys.Start.stopReturns
  split
  · split
    · split
      · exact Paired_main s _ h rfl rfl rfl (le_refl _) (by simp)
      · exact Paired_main s _ h rfl rfl rfl (le_refl _) (by simp)
    · exact h
  · exact h

theorem Paired_stopRequest (s : Sys) (h : s.Paired) : (Sys.Start.stopRequest s).Paired := by
  unfold Sys.Start.stopRequest
  split
  · rename_i v rest hmain hc
    obtain ⟨h1, h2, h3, h4⟩ := h
    have htail : s.senders.tail = [] := by
      cases hq : s.senders with
      | nil => rfl
      | cons a l =>
          rw [hq] at h2
          cases l with
          | nil => rfl
          | cons b l2 => simp at h2; omega
    have hlen : s.senders.tail.length ≤ s.senders.length := by simp
    split
    · rename_i name hh
      have hin : s.launches name = .inStop := by
        apply h3
        cases hq : s.senders with
        | nil => simp [hq] at hh
        | cons a l => simp [hq] at hh; simp [hh]
      refine ⟨fun hm => by simp [Sys.move] at hm, ?_, ?_, ?_⟩
      · simp only [Sys.move]; omega
      · intro n hn
        simp [Sys.move, htail] at hn
      · intro n c hl
        have := h4 n c hl
        by_cases hnn : n = name
        · subst hnn
          simpa [Sys.move, hin] using this
        · simpa [Sys.move, Function.update_noteq hnn] using this
    · refine ⟨fun hm => by simp at hm, ?_, ?_, h4⟩
      · simp only []; omega
      · intro n hn
        simp [htail] at hn
  · exact h

theorem Paired_receive (s : Sys) (h : s.Paired) : (Sys.Start.receive s).Paired := by
  unfold Sys.Start.receive
  split
  · rename_i name rest hmain
    split
    · rename_i process hl
      split
      · rename_i v vs hv
        obtain ⟨h1, h2, h3, h4⟩ := h
        have hp := h4 name process hl
        have hsend : s.launches name = .sending := by
          by_contra hns
          simp [hns, hv] at hp
        refine ⟨fun hm => by simp at hm, ?_, ?_, ?_⟩
        · simpa [Sys.move, Sys.emit, Sys.take, modify_started] using h2
        · intro n hn
          have := h3 n hn
          by_cases hnn : n = name
          · subst hnn; simp [hsend] at this
          · simpa [Sys.move, Sys.emit, Sys.take, Function.update_noteq hnn] using this
        · intro n c hc
          obtain ⟨d, hd, hcd⟩ := modify_lookup_some _ _ _ _ _ hc
          have := h4 n d hd
          by_cases hnn : n = name
          · subst hnn
            simp [Sys.move, hcd, this, hsend]
          · simp [Sys.move, Sys.emit, Sys.take, hcd, this, hnn, Function.update_noteq hnn]
      · exact h
    · exact h
  · exact h

theorem Paired_step (s : Sys) (t : Turn) (h : s.Paired) : (s.step t).Paired := by
  cases t with
  | callStart => exact Paired_Start s h
  | signal => exact Paired_signal s h
  | stopRequest => exact Paired_stopRequest s h
  | swap => exact Paired_swap s h
  | sweep => exact Paired_sweep s h
  | stopReturns => exact Paired_stopReturns s h
  | receive => exact Paired_receive s h
  | callStop => exact Paired_Stop s h
  | begin name => exact Paired_begin s name h
  | startReturns name => exact Paired_startReturns s name h
  | launchStop name => exact Paired_launchStop s name h
  | record name => exact Paired_record s name h

theorem Paired_exec (ts : List Turn) : ∀ s : Sys, s.Paired → (s.exec ts).Paired := by
  induction ts with
  | nil => intro s h; exact h
  | cons t ts ih => intro s h; exact ih _ (Paired_step s t h)

theorem modify_lookup_ne (manager : Manager) (name n : String) (f : controller → controller)
    (h : name ≠ n) :
    (manager.modify n f).processes.lookup name = manager.processes.lookup name := by
  rw [modify_lookup]; simp [h]

/-- While `Start` waits for the unit `name` and the `launch` of that unit is
blocked in `manager.Stop()`, or is inside the unit's `Start` and that call does
not return in this turn, the turn leaves all of that as it is. -/
theorem parked_step (s : Sys) (name : String) (rest : List String) (t : Turn) (c : controller)
    (hpc : s.launches name = .inStop ∨ (s.launches name = .inStart ∧ t ≠ .startReturns name))
    (hm : s.main = .waiting name rest) (hc : s.manager.processes.lookup name = some c)
    (hctl : c.control = []) :
    (s.step t).launches name = s.launches name ∧ (s.step t).main = .waiting name rest ∧
    (s.step t).manager.processes.lookup name = some c ∧
    (s.step t).trace.filter (Event.byLaunch name) = s.trace.filter (Event.byLaunch name) ∧
    (s.step t).trace.filter Event.isStop = s.trace.filter Event.isStop := by
  have hne : s.launches name ≠ .spawned ∧ s.launches name ≠ .failed ∧
      s.launches name ≠ .stopped := by
    rcases hpc with h | ⟨h, _⟩ <;> simp [h]
  obtain ⟨hn1, hn2, hn3⟩ := hne
  cases t with
  | callStart => simp [Sys.step, Sys.Start, hm, hc]
  | signal => simp [Sys.step, Sys.Start.signal, hm, hc]
  | stopRequest => simp [Sys.step, Sys.Start.stopRequest, hm, hc]
  | swap => simp [Sys.step, Sys.Start.swap, hm, hc]
  | sweep => simp [Sys.step, Sys.Start.sweep, hm, hc]
  | stopReturns => simp [Sys.step, Sys.Start.stopReturns, hm, hc]
  | receive => simp [Sys.step, Sys.Start.receive, hm, hc, hctl]
  | callStop =>
      have hp := Stop_processes s.manager
      simp only [Sys.step, Sys.Stop]
      split_ifs <;> simp [Sys.emit, hm, hp, hc, Event.byLaunch, Event.isStop]
  | begin n =>
      simp only [Sys.step, Sys.launch.begin]
      by_cases hn : n = name
      · subst hn
        split
        · rename_i h; exact absurd h hn1
        · simp [hm, hc]
      · have hn' : name ≠ n := fun h => hn h.symm
        split
        · simp [Sys.move, Sys.emit, Sys.store, Function.update_noteq hn', hm,
            modify_lookup_ne _ _ _ _ hn', hc, Event.byLaunch, Event.isStop, hn]
        · simp [hm, hc]
  | startReturns n =>
      simp only [Sys.step, Sys.launch.startReturns]
      by_cases hn : n = name
      · subst hn
        rcases hpc with h | ⟨_, h⟩
        · split
          · rename_i h2 _; rw [h] at h2; exact absurd h2 (by simp)
          · simp [hm, hc]
        · exact absurd rfl h
      · have hn' : name ≠ n := fun h => hn h.symm
        split
        · split
          · simp [Sys.move, Function.update_noteq hn', hm, hc]
          · simp [Sys.move, Sys.emit, Sys.store, Sys.offer, Function.update_noteq hn', hm,
              modify_lookup_ne _ _ _ _ hn', hc, Event.byLaunch, Event.isStop, hn]
        · simp [hm, hc]
  | launchStop n =>
      have hp := Stop_processes s.manager
      simp only [Sys.step, Sys.launch.callStop]
      by_cases hn : n = name
      · subst hn
        split
        · rename_i h; exact absurd h hn2
        · simp [hm, hc]
      · have hn' : name ≠ n := fun h => hn h.symm
        split
        · split_ifs <;>
            simp [Sys.move, Sys.emit, Function.update_noteq hn', hm, hp, hc, Event.byLaunch,
              Event.isStop, hn]
        · simp [hm, hc]
  | record n =>
      simp only [Sys.step, Sys.launch.record]
      by_cases hn : n = name
      · subst hn
        split
        · rename_i h; exact absurd h hn3
        · simp [hm, hc]
      · have hn' : name ≠ n := fun h => hn h.symm
        split
        · simp [Sys.move, Sys.emit, Sys.store, Sys.offer, Function.update_noteq hn', hm,
            modify_lookup_ne _ _ _ _ hn', hc, Event.byLaunch, Event.isStop, hn]
        · simp [hm, hc]

/-- A `launch` blocked in `manager.Stop()` after the `select` of `Start` is over
stays blocked, whatever turns follow. -/
theorem blocked_exec (name : String) (rest : List String) (c : controller)
    (hctl : c.control = []) (ts : List Turn) :
    ∀ s : Sys, s.launches name = .inStop → s.main = .waiting name rest →
      s.manager.processes.lookup name = some c →
      (s.exec ts).launches name = .inStop ∧ (s.exec ts).main = .waiting name rest ∧
      (s.exec ts).manager.processes.lookup name = some c ∧
      (s.exec ts).trace.filter (Event.byLaunch name) = s.trace.filter (Event.byLaunch name) ∧
      (s.exec ts).trace.filter Event.isStop = s.trace.filter Event.isStop := by
  induction ts with
  | nil => intro s h1 h2 h3; exact ⟨h1, h2, h3, rfl, rfl⟩
  | cons t ts ih =>
      intro s h1 h2 h3
      obtain ⟨a, b, d, e, f⟩ := parked_step s name rest t c (Or.inl h1) h2 h3 hctl
      obtain ⟨a', b', d', e', f'⟩ := ih (s.step t) (a.trans h1) b d
      exact ⟨a', b', d', e'.trans e, f'.trans f⟩

/-- While the unit's `Start` does not return, a `Start` of the manager that waits
for the unit goes on waiting. -/
theorem hung_exec (name : String) (rest : List String) (c : controller)
    (hctl : c.control = []) (ts : List Turn) :
    (∀ t ∈ ts, t ≠ .startReturns name) →
    ∀ s : Sys, s.launches name = .inStart → s.main = .waiting name rest →
      s.manager.processes.lookup name = some c →
      (s.exec ts).launches name = .inStart ∧ (s.exec ts).main = .waiting name rest ∧
      (s.exec ts).manager.processes.lookup name = some c ∧
      (s.exec ts).trace.filter (Event.byLaunch name) = s.trace.filter (Event.byLaunch name) ∧
      (s.exec ts).trace.filter Event.isStop = s.trace.filter Event.isStop := by
  induction ts with
  | nil => intro _ s h1 h2 h3; exact ⟨h1, h2, h3, rfl, rfl⟩
  | cons t ts ih =>
      intro hts s h1 h2 h3
      have ht : t ≠ .startReturns name := hts t (by simp)
      obtain ⟨a, b, d, e, f⟩ := parked_step s name rest t c (Or.inr ⟨h1, ht⟩) h2 h3 hctl
      obtain ⟨a', b', d', e', f'⟩ :=
        ih (fun u hu => hts u (by simp [hu])) (s.step t) (a.trans h1) b d
      exact ⟨a', b', d', e'.trans e, f'.trans f⟩

theorem stops_prefix (m0 : Manager) (s : Sys) (h : s.Swept m0) :
    s.trace.filter Event.isStop <+: m0.processes.keys.map Event.stop ∧
    s.trace.filter Event.isRecv
      <+: (m0.processes.keys.filter m0.stopsClean).map Event.recv := by
  obtain ⟨_, _, h0⟩ := h
  cases hmain : s.main <;> rw [hmain] at h0 <;> simp only at h0
  · obtain ⟨_, h1, h2⟩ := h0; rw [h1, h2]; exact ⟨List.nil_prefix, List.nil_prefix⟩
  · obtain ⟨_, h1, h2⟩ := h0; rw [h1, h2]; exact ⟨List.nil_prefix, List.nil_prefix⟩
  · obtain ⟨_, h1, h2⟩ := h0; rw [h1, h2]; exact ⟨List.nil_prefix, List.nil_prefix⟩
  · obtain ⟨_, h1, h2⟩ := h0; exact ⟨⟨_, h1⟩, ⟨_, h2⟩⟩
  · obtain ⟨_, _, h1, h2⟩ := h0; exact ⟨⟨_, h1⟩, ⟨_, h2⟩⟩
  · obtain ⟨_, _, h1, h2⟩ := h0; exact ⟨⟨_, h1⟩, ⟨_, h2⟩⟩
  · obtain ⟨_, _, h1, h2⟩ := h0; rw [h1, h2]; exact ⟨List.prefix_refl _, List.prefix_refl _⟩

theorem count_stop_keys (m0 : Manager) (name : String) :
    (m0.processes.keys.map Event.stop).count (Event.stop name) = m0.processes.keys.count name :=
  List.count_map_of_injective _ _ (fun a b h => by simpa using h) _

theorem count_recv_keys (l : List String) (name : String) :
    (l.map Event.recv).count (Event.recv name) = l.count name :=
  List.count_map_of_injective _ _ (fun a b h => by simpa using h) _

theorem count_stop_trace (l : List Event) (name : String) :
    l.count (Event.stop name) = (l.filter Event.isStop).count (Event.stop name) :=
  (List.count_filter (by simp [Event.isStop])).symm

theorem count_recv_trace (l : List Event) (name : String) :
    l.count (Event.recv name) = (l.filter Event.isRecv).count (Event.recv name) :=
  (List.count_filter (by simp [Event.isRecv])).symm

theorem stopsClean_lookup (m0 : Manager) (name : String) (c : controller)
    (h : m0.processes.lookup name = some c) :
    m0.stopsClean name = true ↔ c.Stop = none := by
  simp [Manager.stopsClean, h]

theorem stopsClean_mem (m0 : Manager) (name : String) (h : m0.stopsClean name = true) :
    ∃ c, m0.processes.lookup name = some c := by
  unfold Manager.stopsClean at h
  cases hl : m0.processes.lookup name with
  | none => simp [hl] at h
  | some c => exact ⟨c, rfl⟩

theorem waiting_step (s : Sys) (name : String) (rest : List String) (t : Turn) (c : controller)
    (hm : s.main = .waiting name rest) (hc : s.manager.processes.lookup name = some c)
    (hctl : c.control = []) : (s.step t).main = .waiting name rest := by
  cases t with
  | callStart => simp [Sys.step, Sys.Start, hm]
  | signal => simp [Sys.step, Sys.Start.signal, hm]
  | stopRequest => simp [Sys.step, Sys.Start.stopRequest, hm]
  | swap => simp [Sys.step, Sys.Start.swap, hm]
  | sweep => simp [Sys.step, Sys.Start.sweep, hm]
  | stopReturns => simp [Sys.step, Sys.Start.stopReturns, hm]
  | receive => simp [Sys.step, Sys.Start.receive, hm, hc, hctl]
  | callStop =>
      simp only [Sys.step, Sys.Stop]
      split_ifs <;> simp [Sys.emit, hm]
  | begin n =>
      simp only [Sys.step, Sys.launch.begin]
      split <;> simp [Sys.move, Sys.emit, Sys.store, hm]
  | startReturns n =>
      simp only [Sys.step, Sys.launch.startReturns]
      split
      · split <;> simp [Sys.move, Sys.emit, Sys.store, Sys.offer, hm]
      · exact hm
  | launchStop n =>
      simp only [Sys.step, Sys.launch.callStop]
      split
      · split_ifs <;> simp [Sys.move, Sys.emit, hm]
      · exact hm
  | record n =>
      simp only [Sys.step, Sys.launch.record]
      split <;> simp [Sys.move, Sys.emit, Sys.store, Sys.offer, hm]

theorem progress_congr (name : String) (c d : controller) (es : List Event) (pc : LaunchPc)
    (hs : c.state = d.state) (hp : c.process = d.process)
    (h : Sys.launch.progress name d es pc) : Sys.launch.progress name c es pc := by
  have hS : c.Start = d.Start := by simp [controller.Start, hp]
  cases pc <;> simp only [Sys.launch.progress, Sys.launch.events, hs, hS] at h ⊢ <;> exact h

theorem Launched_init (m0 : Manager) : (Sys.init m0).Launched := by
  intro n c _
  simp [Sys.init, Sys.launch.progress]

/-- A turn that leaves the registry and the places of the `launch` goroutines as
they are, and adds no event of a `launch`. -/
theorem Launched_frame (s t : Sys) (h : s.Launched)
    (hm : t.manager.processes = s.manager.processes) (hl : t.launches = s.launches)
    (ht : ∀ n, t.trace.filter (Event.byLaunch n) = s.trace.filter (Event.byLaunch n)) :
    t.Launched := by
  intro n c hc
  rw [hm] at hc
  rw [hl, ht]
  exact h n c hc

theorem Launched_begin (s : Sys) (name : String) (h : s.Launched) :
    (Sys.launch.begin s name).Launched := by
  unfold Sys.launch.begin
  split
  · rename_i hpc
    intro n c hc
    obtain ⟨d, hd, hcd⟩ := modify_lookup_some _ _ _ _ _ hc
    have h0 := h n d hd
    by_cases hn : n = name
    · subst hn
      rw [hpc] at h0
      simp only [Sys.launch.progress] at h0
      simp [Sys.move, Sys.emit, Sys.store, Sys.launch.progress, hcd, h0, Event.byLaunch]
    · have hn' : name ≠ n := fun e => hn e.symm
      simp only [hn, if_false] at hcd
      subst hcd
      simpa [Sys.move, Sys.emit, Sys.store, Function.update_noteq hn, Event.byLaunch, hn']
        using h0
  · exact h

theorem Launched_startReturns (s : Sys) (name : String) (h : s.Launched) :
    (Sys.launch.startReturns s name).Launched := by
  unfold Sys.launch.startReturns
  split
  · rename_i pController hpc hl
    split
    · rename_i e he
      intro n c hc
      have h0 := h n c hc
      by_cases hn : n = name
      · subst hn
        have hcp : c = pController := Option.some.inj (hc.symm.trans hl)
        subst hcp
        rw [hpc] at h0
        simp only [Sys.launch.progress] at h0
        simp [Sys.move, Sys.launch.progress, h0, he]
      · simpa [Sys.move, Function.update_noteq hn] using h0
    · rename_i he
      intro n c hc
      obtain ⟨d, hd, hcd⟩ := store_offer_lookup s name _ 0 n c hc
      have h0 := h n d hd
      by_cases hn : n = name
      · subst hn
        have hdp : d = pController := Option.some.inj (hd.symm.trans hl)
        subst hdp
        rw [hpc] at h0
        simp only [Sys.launch.progress] at h0
        have hS : c.Start = none := by rw [hcd]; simpa [controller.Start] using he
        simp [Sys.move, Sys.emit, Sys.store, Sys.offer, Sys.launch.progress, Sys.launch.events,
          hS, h0, Event.byLaunch]
        simp [hcd]
      · have hn' : name ≠ n := fun e => hn e.symm
        simp only [hn, if_false] at hcd
        subst hcd
        simpa [Sys.move, Sys.emit, Sys.store, Sys.offer, Function.update_noteq hn,
          Event.byLaunch, hn'] using h0
  · exact h

theorem Launched_launchStop (s : Sys) (name : String) (h : s.Launched) :
    (Sys.launch.callStop s name).Launched := by
  unfold Sys.launch.callStop
  split
  · rename_i hpc
    have hp := Stop_processes s.manager
    intro n c hc
    have hc' : s.manager.processes.lookup n = some c := by
      revert hc
      simp only []
      split_ifs <;> simp [Sys.move, Sys.emit, hp]
    have h0 := h n c hc'
    by_cases hn : n = name
    · subst hn
      rw [hpc] at h0
      simp only [Sys.launch.progress] at h0
      simp only []
      split_ifs <;>
        simp [Sys.move, Sys.emit, Sys.launch.progress, h0, Event.byLaunch]
    · have hn' : name ≠ n := fun e => hn e.symm
      simp only []
      split_ifs <;>
        simpa [Sys.move, Sys.emit, Function.update_noteq hn, Event.byLaunch, hn'] using h0
  · exact h

theorem Launched_record (s : Sys) (name : String) (h : s.Launched) :
    (Sys.launch.record s name).Launched := by
  unfold Sys.launch.record
  split
  · rename_i hpc
    intro n c hc
    obtain ⟨d, hd, hcd⟩ := store_offer_lookup s name _ 0 n c hc
    have h0 := h n d hd
    by_cases hn : n = name
    · subst hn
      rw [hpc] at h0
      simp only [Sys.launch.progress] at h0
      obtain ⟨hS0, _, hes⟩ := h0
      have hS : c.Start ≠ none := by rw [hcd]; simpa [controller.Start] using hS0
      cases hcs : c.Start with
      | none => exact absurd hcs hS
      | some e =>
          simp [Sys.move, Sys.emit, Sys.store, Sys.offer, Sys.launch.progress,
            Sys.launch.events, hcs, hes, Event.byLaunch]
          simp [hcd]
    · have hn' : name ≠ n := fun e => hn e.symm
      simp only [hn, if_false] at hcd
      subst hcd
      simpa [Sys.move, Sys.emit, Sys.store, Sys.offer, Function.update_noteq hn,
        Event.byLaunch, hn'] using h0
  · exact h

theorem Launched_Stop (s : Sys) (h : s.Launched) : s.Stop.Launched := by
  unfold Sys.Stop
  have hp := Stop_processes s.manager
  simp only []
  split_ifs <;>
    exact Launched_frame s _ h (by simp [Sys.emit, hp]) (by simp [Sys.emit])
      (by intro n; simp [Sys.emit, Event.byLaunch])

theorem launchAll_byLaunch (n : String) (l : List (Sigma fun _ : String => controller)) :
    (Manager.Start.launchAll l).filter (Event.byLaunch n) = [] := by
  induction l with
  | nil => simp [Manager.Start.launchAll]
  | cons e t ih =>
      obtain ⟨k, c⟩ := e
      simp [Manager.Start.launchAll, Event.byLaunch, ih]

theorem Launched_Start (s : Sys) (hP : s.Paired) (h : s.Launched) : s.Start.Launched := by
  unfold Sys.Start
  cases hmain : s.main with
  | idle =>
      obtain ⟨_, _, habs⟩ := hP.1 hmain
      intro n c hc
      have hc' : s.manager.processes.lookup n = some c := by
        revert hc
        unfold Manager.Start
        split_ifs <;> simp
      have h0 := h n c hc'
      rw [habs n] at h0
      simp only [Sys.launch.progress] at h0
      have hes : (s.trace ++ s.manager.Start.2.2).filter (Event.byLaunch n) = [] := by
        unfold Manager.Start
        split_ifs <;> simp [h0, launchAll_byLaunch, Event.byLaunch]
      show Sys.launch.progress n c ((s.trace ++ s.manager.Start.2.2).filter (Event.byLaunch n))
        (if Event.go n ∈ s.manager.Start.2.2 then .spawned else s.launches n)
      rw [hes, habs n]
      split_ifs <;> simp [Sys.launch.progress]
  | _ => simpa [hmain] using h

theorem Launched_signal (s : Sys) (h : s.Launched) : (Sys.Start.signal s).Launched := by
  unfold Sys.Start.signal
  split
  · exact Launched_frame s _ h rfl rfl (fun _ => rfl)
  · exact h

theorem Launched_swap (s : Sys) (h : s.Launched) : (Sys.Start.swap s).Launched := by
  unfold Sys.Start.swap
  split
  · exact Launched_frame s _ h rfl rfl (fun _ => rfl)
  · exact h

theorem Launched_sweep (s : Sys) (h : s.Launched) : (Sys.Start.sweep s).Launched := by
  unfold Sys.Start.sweep
  split
  · exact Launched_frame s _ h rfl rfl (by intro n; simp [Sys.emit, Event.byLaunch])
  · exact Launched_frame s _ h rfl rfl (fun _ => rfl)
  · exact h

theorem Launched_stopReturns (s : Sys) (h : s.Launched) :
    (Sys.Start.stopReturns s).Launched := by
  unfold Sys.Start.stopReturns
  split
  · split
    · split
      · exact Launched_frame s _ h rfl rfl (fun _ => rfl)
      · exact Launched_frame s _ h rfl rfl (fun _ => rfl)
    · exact h
  · exact h

theorem Launched_stopRequest (s : Sys) (hP : s.Paired) (h : s.Launched) :
    (Sys.Start.stopRequest s).Launched := by
  unfold Sys.Start.stopRequest
  split
  · split
    · rename_i name hh
      have hin : s.launches name = .inStop := by
        apply hP.2.2.1
        cases hq : s.senders with
        | nil => simp [hq] at hh
        | cons a l => simp [hq] at hh; simp [hh]
      intro n c hc
      have h0 := h n c hc
      by_cases hn : n = name
      · subst hn
        rw [hin] at h0
        simpa [Sys.move, Sys.launch.progress] using h0
      · simpa [Sys.move, Function.update_noteq hn] using h0
    · exact Launched_frame s _ h rfl rfl (fun _ => rfl)
  · exact h

theorem Launched_receive (s : Sys) (hP : s.Paired) (h : s.Launched) :
    (Sys.Start.receive s).Launched := by
  unfold Sys.Start.receive
  split
  · rename_i name rest hmain
    split
    · rename_i process hl
      split
      · rename_i v vs hv
        have hp := hP.2.2.2 name process hl
        have hsend : s.launches name = .sending := by
          by_contra hns
          simp [hns, hv] at hp
        intro n c hc
        obtain ⟨d, hd, hcd⟩ := modify_lookup_some _ _ _ _ _ hc
        have h0 := h n d hd
        by_cases hn : n = name
        · subst hn
          rw [hsend] at h0
          have h1 : Sys.launch.progress n c (s.trace.filter (Event.byLaunch n)) .sending :=
            progress_congr n c d _ _ (by simp [hcd]) (by simp [hcd]) h0
          simpa [Sys.move, Sys.emit, Sys.take, Sys.launch.progress, Event.byLaunch] using h1
        · simp only [hn, if_false] at hcd
          subst hcd
          simpa [Sys.move, Sys.emit, Sys.take, Function.update_noteq hn, Event.byLaunch]
            using h0
      · exact h
    · exact h
  · exact h

theorem Launched_step (s : Sys) (t : Turn) (hP : s.Paired) (h : s.Launched) :
    (s.step t).Launched := by
  cases t with
  | callStart => exact Launched_Start s hP h
  | signal => exact Launched_signal s h
  | stopRequest => exact Launched_stopRequest s hP h
  | swap => exact Launched_swap s h
  | sweep => exact Launched_sweep s h
  | stopReturns => exact Launched_stopReturns s h
  | receive => exact Launched_receive s hP h
  | callStop => exact Launched_Stop s h
  | begin name => exact Launched_begin s name h
  | startReturns name => exact Launched_startReturns s name h
  | launchStop name => exact Launched_launchStop s name h
  | record name => exact Launched_record s name h

theorem Launched_exec (ts : List Turn) :
    ∀ s : Sys, s.Paired → s.Launched → (s.exec ts).Launched := by
  induction ts with
  | nil => intro s _ h; exact h
  | cons t ts ih => intro s hP h; exact ih _ (Paired_step s t hP) (Launched_step s t hP h)

/-- What `launch` records, as far as it gets. In every run from a fresh manager,
for every registered unit: `launch` calls `manager.Stop()` only if the
controller's `Start` has yielded an error; while it is blocked in that call the
state recorded is `Started` and nothing is sent; once it is in its send or has
returned, the state recorded is `Stopped` when the controller's `Start` yielded
nil and `Aborted` when it yielded an error, it has called `manager.Stop()`
exactly in the second case, and it has reached its send exactly once. -/
theorem launch_records_outcome (manager : Manager) (turns : List Turn) (hf : manager.Fresh)
    (name : String) (c : controller)
    (hc : ((Sys.init manager).exec turns).manager.processes.lookup name = some c) :
    let s := (Sys.init manager).exec turns
    (Event.managerStop (some name) ∈ s.trace → c.Start ≠ none) ∧
    (s.launches name = .inStop →
      c.Start ≠ none ∧ c.state = ProcessStateStarted ∧ ∀ v, Event.send name v ∉ s.trace) ∧
    (s.launches name = .sending ∨ s.launches name = .done →
      c.state = (if c.Start = none then ProcessStateStopped else ProcessStateAborted) ∧
      s.trace.filter (Event.byLaunch name) = Sys.launch.events name c ∧
      (Event.managerStop (some name) ∈ s.trace ↔ c.Start ≠ none) ∧
      s.trace.count (.send name 0) = 1) := by
  intro s
  have hP : s.Paired := Paired_exec turns _ (Paired_init manager hf)
  have hL : s.Launched := Launched_exec turns _ (Paired_init manager hf) (Launched_init manager)
  have h0 := hL name c hc
  have hmem : ∀ e, Event.byLaunch name e = true →
      (e ∈ s.trace ↔ e ∈ s.trace.filter (Event.byLaunch name)) := by
    intro e he
    simp [List.mem_filter, he]
  have hms : Event.byLaunch name (.managerStop (some name)) = true := by simp [Event.byLaunch]
  have hsd : ∀ v, Event.byLaunch name (.send name v) = true := by simp [Event.byLaunch]
  refine ⟨?_, ?_, ?_⟩
  · rw [hmem _ hms]
    intro hin
    cases hpc : s.launches name <;> rw [hpc] at h0 <;>
      simp only [Sys.launch.progress] at h0
    · simp [h0] at hin
    · simp [h0] at hin
    · simp [h0.2] at hin
    · exact h0.1
    · exact h0.1
    · exact h0.1
    · intro hn
      simp [h0.2, Sys.launch.events, hn] at hin
    · intro hn
      simp [h0.2, Sys.launch.events, hn] at hin
  · intro hpc
    rw [hpc] at h0
    simp only [Sys.launch.progress] at h0
    refine ⟨h0.1, h0.2.1, fun v => ?_⟩
    rw [hmem _ (hsd v), h0.2.2]
    simp
  · intro hpc
    have h1 : c.state = (if c.Start = none then ProcessStateStopped else ProcessStateAborted) ∧
        s.trace.filter (Event.byLaunch name) = Sys.launch.events name c := by
      rcases hpc with hpc | hpc <;> rw [hpc] at h0 <;> exact h0
    refine ⟨h1.1, h1.2, ?_, ?_⟩
    · rw [hmem _ hms, h1.2]
      cases hS : c.Start <;> simp [Sys.launch.events, hS]
    · rw [← List.count_filter (hsd 0), h1.2]
      cases hS : c.Start <;> simp [Sys.launch.events, hS, List.count_cons]

/-! ## The controller and the manager: claims -/

/-- C1, where the code departs from it. The only unit of the manager fails: its
controller's `Start` returns an error, and `launch` calls `manager.Stop()`, which
wins the compare-and-swap and blocks in its send. The `select` of `Start` takes a
termination signal instead. From then on, whatever turns follow, `launch` stays
inside `manager.Stop()`: the state recorded for the unit stays `Started`, not
`Aborted`, `launch` reaches neither its store of `Aborted` nor its send, and
`Start`, which has stopped the unit, waits for that send. -/
theorem launch_blocks_in_manager_Stop :
    (raceManager.processes.lookup "bad").map controller.Start = some (some "an error") ∧
    ∀ later : List Turn,
      let s := ((Sys.init raceManager).exec raceTurns).exec later
      s.launches "bad" = .inStop ∧
      (s.manager.processes.lookup "bad").map controller.state = some ProcessStateStarted ∧
      s.trace.filter (Event.byLaunch "bad")
        = [.store "bad" ProcessStateStarted, .start "bad", .managerStop (some "bad")] ∧
      Event.store "bad" ProcessStateAborted ∉ s.trace ∧
      (∀ v, Event.send "bad" v ∉ s.trace) ∧
      s.main = .waiting "bad" [] := by
  refine ⟨by decide, ?_⟩
  intro later
  obtain ⟨h1, h2, h3, h4, _⟩ :=
    blocked_exec "bad" [] ⟨SampleBadService, [], ProcessStateStarted⟩ rfl later
      ((Sys.init raceManager).exec raceTurns) (by decide) (by decide) (by decide)
  have h5 : (((Sys.init raceManager).exec raceTurns).exec later).trace.filter
      (Event.byLaunch "bad")
      = [.store "bad" ProcessStateStarted, .start "bad", .managerStop (some "bad")] := by
    rw [h4]; decide
  refine ⟨h1, by rw [h3]; rfl, h5, ?_, ?_, h2⟩
  · intro hmem
    have : Event.store "bad" ProcessStateAborted ∈
        (((Sys.init raceManager).exec raceTurns).exec later).trace.filter
          (Event.byLaunch "bad") :=
      List.mem_filter.mpr ⟨hmem, by simp [Event.byLaunch]⟩
    rw [h5] at this
    revert this
    decide
  · intro v hmem
    have : Event.send "bad" v ∈
        (((Sys.init raceManager).exec raceTurns).exec later).trace.filter
          (Event.byLaunch "bad") :=
      List.mem_filter.mpr ⟨hmem, by simp [Event.byLaunch]⟩
    rw [h5] at this
    simp at this

/-- C2: a panic of the wrapped `Start` or `Stop` with a value that is not nil
becomes an error that spells out the value and the stack; a wrapped call that
returns has its result passed on unchanged. The controller's methods have no
way to end but by returning an error value. -/
theorem controller_recovers (c : controller) :
    (∀ data stack, c.process.Start = .panicked (some data) stack →
        c.Start = some ("process panic when starting; " ++ data ++ "; " ++ stack)) ∧
    (∀ err, c.process.Start = .returned err → c.Start = err) ∧
    (∀ data stack, c.process.Stop = .panicked (some data) stack →
        c.Stop = some ("process panic when stopping; " ++ data ++ "; " ++ stack)) ∧
    (∀ err, c.process.Stop = .returned err → c.Stop = err) := by
  refine ⟨?_, ?_, ?_, ?_⟩
  · intro data stack h
    simp [controller.Start, controller.recovered, h]
  · intro err h
    simp [controller.Start, controller.recovered, h]
  · intro data stack h
    simp [controller.Stop, controller.recovered, h]
  · intro err h
    simp [controller.Stop, controller.recovered, h]

/-- C2, at a unit whose `Start` panics and whose `Stop` returns nil. -/
theorem controller_recovers_witness :
    (⟨SamplePanicService, [], ProcessStateReady⟩ : controller).Start
      = some "process panic when starting; big estoiro; goroutine 7 [running]" ∧
    (⟨SamplePanicService, [], ProcessStateReady⟩ : controller).Stop = none :=
  ⟨(controller_recovers ⟨SamplePanicService, [], ProcessStateReady⟩).1
      "big estoiro" "goroutine 7 [running]" rfl,
   (controller_recovers ⟨SamplePanicService, [], ProcessStateReady⟩).2.2.2 none rfl⟩

/-- C3: `StatusCheck` returns the manager as it was, a map with exactly the
registered names, each with the state recorded for it, and a flag that is false
exactly when some registered unit is recorded `Aborted` (so it is true for an
empty registry). -/
theorem StatusCheck_snapshot (manager : Manager) :
    let r := manager.StatusCheck
    (∀ name, r.2.2.lookup name = (manager.processes.lookup name).map fun c => c.state) ∧
    (∀ name, name ∈ r.2.2.keys ↔ name ∈ manager.processes.keys) ∧
    (r.2.1 = false ↔
      ∃ name c, manager.processes.lookup name = some c ∧ c.state = ProcessStateAborted) ∧
    (manager.processes.entries = [] → r.2.1 = true) ∧
    r.1 = manager := by
  intro r
  have hl : ∀ name,
      r.2.2.lookup name = (manager.processes.lookup name).map fun c => c.state := by
    intro name
    show (manager.processes.entries.foldl Manager.StatusCheck.visit (true, ∅)).2.lookup name = _
    rw [StatusCheck_fold_lookup name _ manager.processes.nodupKeys]
    by_cases hn : name ∈ manager.processes.entries.keys
    · simp [hn, AList.lookup]
    · have : manager.processes.lookup name = none := AList.lookup_eq_none.mpr hn
      simp [hn, this]
  have hf : r.2.1 = manager.processes.entries.all
      fun e => decide (e.2.state ≠ ProcessStateAborted) := by
    show (manager.processes.entries.foldl Manager.StatusCheck.visit (true, ∅)).1 = _
    rw [StatusCheck_fold_flag]
    simp
  refine ⟨hl, ?_, ?_, ?_, rfl⟩
  · intro name
    rw [← AList.mem_keys, ← AList.mem_keys, ← AList.lookup_isSome, ← AList.lookup_isSome, hl]
    cases manager.processes.lookup name <;> simp
  · rw [hf]
    constructor
    · intro h
      have h' : ∃ a b, (⟨a, b⟩ : Sigma fun _ : String => controller) ∈ manager.processes.entries
          ∧ b.state = ProcessStateAborted := by simpa using h
      obtain ⟨k, c, hm, hc⟩ := h'
      exact ⟨k, c, AList.mem_lookup_iff.mpr hm, hc⟩
    · rintro ⟨name, c, hc, habort⟩
      have hm : (⟨name, c⟩ : Sigma fun _ : String => controller) ∈ manager.processes.entries :=
        AList.mem_lookup_iff.mp hc
      simp only [List.all_eq_false]
      exact ⟨⟨name, c⟩, hm, by simp [habort]⟩
  · intro he
    rw [hf, he]
    rfl

/-- C3, at the empty registry: the overall status is true. -/
theorem StatusCheck_snapshot_witness :
    NewManager.processes.entries = [] ∧ NewManager.StatusCheck.2.1 = true :=
  ⟨rfl, (StatusCheck_snapshot NewManager).2.2.2.1 rfl⟩

/-- C4 fails as worded. Two units are registered, `a` before `b`; a termination
signal ends the `select`, and the controller's `Stop` of `a` returns nil but
does not make the `Start` of `a` return. As long as the `Start` of `a` does not
return, whatever else happens, `Manager.Start` stays in its receive from the
completion channel of `a`: it does not return, and the controller's `Stop` of `b`
is not called. -/
theorem sweep_waits_without_bound :
    hungManager.processes.keys = ["a", "b"] ∧
    ((Sys.init hungManager).exec hungTurns).main = .waiting "a" ["b"] ∧
    ∀ later : List Turn, (∀ t ∈ later, t ≠ Turn.startReturns "a") →
      let s := ((Sys.init hungManager).exec hungTurns).exec later
      s.main = .waiting "a" ["b"] ∧ (∀ err, s.main ≠ .returned err) ∧
      s.trace.filter Event.isStop = [.stop "a"] ∧ Event.stop "b" ∉ s.trace := by
  refine ⟨by decide, by decide, ?_⟩
  intro later hl
  obtain ⟨_, h2, _, _, h5⟩ :=
    hung_exec "a" ["b"] ⟨SampleDeafService, [], ProcessStateStarted⟩ rfl later hl
      ((Sys.init hungManager).exec hungTurns) (by decide) (by decide) (by decide)
  have h6 : (((Sys.init hungManager).exec hungTurns).exec later).trace.filter Event.isStop
      = [.stop "a"] := by
    rw [h5]; decide
  refine ⟨h2, fun err => by rw [h2]; simp, h6, ?_⟩
  intro hmem
  have : Event.stop "b" ∈
      (((Sys.init hungManager).exec hungTurns).exec later).trace.filter Event.isStop :=
    List.mem_filter.mpr ⟨hmem, rfl⟩
  rw [h6] at this
  revert this
  decide

/-- C4, amended. In every run from a fresh manager with a registry that is not
empty: the calls of the controller's `Stop` are made in the order of the
registry, one unit at a time and each unit at most once, and the receives are
made in that order from units whose `Stop` yielded nil; the sweep goes from one
unit to the call of `Stop` of the next; when that `Stop` yields an error it goes
on to the next unit without a receive, and when it yields nil it waits in the
receive, which completes exactly when the `launch` of the unit is in its send;
after the last unit `Start` returns; and when `Start` has returned it has
returned nil, the started flag is cleared, `Stop` has been called exactly once
for every registered unit and a receive was made exactly for those whose `Stop`
yielded nil. -/
theorem Start_sweeps_every_unit (manager : Manager) (turns : List Turn)
    (hne : manager.processes.entries ≠ []) (hf : manager.Fresh) :
    let s := (Sys.init manager).exec turns
    s.trace.filter Event.isStop <+: manager.processes.keys.map Event.stop ∧
    s.trace.filter Event.isRecv
      <+: (manager.processes.keys.filter manager.stopsClean).map Event.recv ∧
    (∀ name, s.trace.count (.stop name) ≤ 1 ∧ s.trace.count (.recv name) ≤ 1) ∧
    (s.main = .woken →
        (s.step .swap).main = .sweep manager.processes.keys ∧
        (s.step .swap).manager.started = 0) ∧
    (∀ name rest, s.main = .sweep (name :: rest) →
        s.manager.started = 0 ∧ (s.step .sweep).main = .inStop name rest ∧
        (s.step .sweep).trace = s.trace ++ [.stop name]) ∧
    (∀ name rest, s.main = .inStop name rest →
        (s.step .stopReturns).trace = s.trace ∧
        (s.step .stopReturns).main
          = if manager.stopsClean name = true then .waiting name rest else .sweep rest) ∧
    (∀ name rest, s.main = .waiting name rest →
        manager.stopsClean name = true ∧
        (s.launches name = .sending →
          (s.step .receive).main = .sweep rest ∧
          (s.step .receive).trace = s.trace ++ [.recv name]) ∧
        (s.launches name ≠ .sending → ∀ t, (s.step t).main = .waiting name rest)) ∧
    (s.main = .sweep [] → (s.step .sweep).main = .returned none) ∧
    (∀ err, s.main = .returned err →
        err = none ∧ s.manager.started = 0 ∧
        s.trace.filter Event.isStop = manager.processes.keys.map Event.stop ∧
        s.trace.filter Event.isRecv
          = (manager.processes.keys.filter manager.stopsClean).map Event.recv ∧
        ∀ name c, manager.processes.lookup name = some c →
          s.trace.count (.stop name) = 1 ∧
          s.trace.count (.recv name) = if c.Stop = none then 1 else 0) := by
  intro s
  have hS : s.Swept manager := Swept_exec manager hne turns _ (Swept_init manager hf.1)
  have hP : s.Paired := Paired_exec turns _ (Paired_init manager hf)
  obtain ⟨hp1, hp2⟩ := stops_prefix manager s hS
  have hnd : manager.processes.keys.Nodup := manager.processes.keys_nodup
  obtain ⟨hk, hpr, h0⟩ := hS
  refine ⟨hp1, hp2, ?_, ?_, ?_, ?_, ?_, ?_, ?_⟩
  · intro name
    constructor
    · rw [count_stop_trace]
      refine le_trans (hp1.sublist.count_le _) ?_
      rw [count_stop_keys]
      exact List.nodup_iff_count_le_one.mp hnd name
    · rw [count_recv_trace]
      refine le_trans (hp2.sublist.count_le _) ?_
      rw [count_recv_keys]
      exact le_trans ((List.filter_sublist _).count_le _) (List.nodup_iff_count_le_one.mp hnd name)
  · intro hm
    rw [hm] at h0
    have hs : (if s.manager.started = 1 then 0 else s.manager.started) = 0 := by
      split_ifs <;> omega
    simp [Sys.step, Sys.Start.swap, hm, hk, hs]
  · intro name rest hm
    rw [hm] at h0
    simp [Sys.step, Sys.Start.sweep, hm, Sys.emit, h0.1]
  · intro name rest hm
    rw [hm] at h0
    obtain ⟨_, hmem, _, _⟩ := h0
    have hmem' : name ∈ s.manager.processes.keys := by rw [hk]; exact hmem
    obtain ⟨c, hc⟩ := Option.isSome_iff_exists.mp
      (AList.lookup_isSome.mpr (AList.mem_keys.mpr hmem'))
    have hcl : manager.stopsClean name = c.Stop.isNone := by
      rw [← stopsClean_congr s.manager manager name (hpr name)]
      simp [Manager.stopsClean, hc]
    cases hst : c.Stop <;> simp [Sys.step, Sys.Start.stopReturns, hm, hc, hst, hcl]
  · intro name rest hm
    rw [hm] at h0
    obtain ⟨_, hcl, _, _⟩ := h0
    obtain ⟨c0, hc0⟩ := stopsClean_mem manager name hcl
    have hsome : (s.manager.processes.lookup name).isSome := by
      have := hpr name
      rw [hc0] at this
      cases hl : s.manager.processes.lookup name <;> simp [hl] at this ⊢
    obtain ⟨c, hc⟩ := Option.isSome_iff_exists.mp hsome
    have hctl := hP.2.2.2 name c hc
    refine ⟨hcl, ?_, ?_⟩
    · intro hs
      rw [if_pos hs] at hctl
      simp [Sys.step, Sys.Start.receive, hm, hc, hctl, Sys.move, Sys.emit, Sys.take]
    · intro hs t
      rw [if_neg hs] at hctl
      exact waiting_step s name rest t c hm hc hctl
  · intro hm
    simp [Sys.step, Sys.Start.sweep, hm]
  · intro err hm
    rw [hm] at h0
    obtain ⟨he, hs, h1, h2⟩ := h0
    refine ⟨he, hs, h1, h2, ?_⟩
    intro name c hc
    have hmem : name ∈ manager.processes.keys :=
      AList.mem_keys.mp (AList.lookup_isSome.mp (by simp [hc]))
    constructor
    · rw [count_stop_trace, h1, count_stop_keys]
      exact List.count_eq_one_of_mem hnd hmem
    · rw [count_recv_trace, h2, count_recv_keys]
      have hiff := stopsClean_lookup manager name c hc
      by_cases hcs : c.Stop = none
      · rw [if_pos hcs, List.count_filter (hiff.mpr hcs)]
        exact List.count_eq_one_of_mem hnd hmem
      · rw [if_neg hcs]
        apply List.count_eq_zero_of_not_mem
        intro hin
        exact hcs (hiff.mp (List.mem_filter.mp hin).2)

/-- C4, amended, at a manager with three units: `c` fails to start, which stops
the others, and `a` fails to stop. `Start` returns nil with the flag cleared
after it has stopped all three and waited for `c` and `b`. -/
theorem Start_sweeps_every_unit_witness :
    sampleManager.processes.entries ≠ [] ∧ sampleManager.Fresh ∧
    ((Sys.init sampleManager).exec fullTurns).main = .returned none ∧
    ((Sys.init sampleManager).exec fullTurns).manager.started = 0 ∧
    ((Sys.init sampleManager).exec fullTurns).trace.filter Event.isStop
      = [.stop "c", .stop "b", .stop "a"] ∧
    ((Sys.init sampleManager).exec fullTurns).trace.filter Event.isRecv
      = [.recv "c", .recv "b"] ∧
    ((Sys.init sampleManager).exec fullTurns).manager.StatusCheck.2.1 = false :=
  ⟨by decide, ⟨rfl, rfl, by decide⟩, by decide,
   ((Start_sweeps_every_unit sampleManager fullTurns (by decide)
      ⟨rfl, rfl, by decide⟩).2.2.2.2.2.2.2.2 none (by decide)).2.1,
   by decide, by decide, by decide⟩

/-- C5: on an empty registry `Start` returns the error "no processes are
registered" whatever the started flag is, in the turn in which it is called: the
manager is unchanged (the started flag is not set) and there is no event (no
unit is launched, the `select` is not entered). -/
theorem Start_empty_registry (manager : Manager) (h : manager.processes.entries = []) :
    let r := manager.Start
    r.2.1 = .returned (some "no processes are registered") ∧ r.1 = manager ∧
    r.1.started = manager.started ∧ r.2.2 = [] ∧
    (∀ name, Event.go name ∉ r.2.2) ∧ Event.block ∉ r.2.2 ∧
    ∀ s : Sys, s.manager = manager → s.main = .idle →
      (s.step .callStart).main = .returned (some "no processes are registered") ∧
      (s.step .callStart).manager = manager ∧ (s.step .callStart).trace = s.trace ∧
      (s.step .callStart).launches = s.launches := by
  refine ⟨?_, ?_, ?_, ?_, ?_, ?_, ?_⟩
  · simp [Manager.Start, h]
  · simp [Manager.Start, h]
  · simp [Manager.Start, h]
  · simp [Manager.Start, h]
  · simp [Manager.Start, h]
  · simp [Manager.Start, h]
  · intro s hs hm
    subst hs
    simp [Sys.step, Sys.Start, hm, Manager.Start, h]

/-- C5, at a fresh manager. -/
theorem Start_empty_registry_witness :
    NewManager.processes.entries = [] ∧
    NewManager.Start.2.1 = .returned (some "no processes are registered") ∧
    NewManager.Start.1.started = 0 ∧
    ((Sys.init NewManager).step .callStart).main
      = .returned (some "no processes are registered") :=
  ⟨rfl, (Start_empty_registry NewManager rfl).1,
   (Start_empty_registry NewManager rfl).2.2.1,
   ((Start_empty_registry NewManager rfl).2.2.2.2.2.2 (Sys.init NewManager) rfl rfl).1⟩

/-- C6: on a started manager `AddProcess` panics and leaves the manager as it
was; on a manager that is not started it does not panic, and afterwards the
registry maps the name to a controller of the given process in state `Ready`,
every other name being mapped as before. -/
theorem AddProcess_guard (manager : Manager) (name : String) (process : Process) :
    let r := manager.AddProcess name process
    (manager.IsStarted = true →
        r.2 = some "can not add processes after start" ∧ r.1 = manager ∧
        r.1.processes = manager.processes) ∧
    (manager.IsStarted = false →
        r.2 = none ∧
        r.1.processes.lookup name
          = some { process := process, control := [], state := ProcessStateReady } ∧
        (∀ other, other ≠ name →
          r.1.processes.lookup other = manager.processes.lookup other) ∧
        r.1.started = manager.started ∧ r.1.control = manager.control) := by
  refine ⟨?_, ?_⟩
  · intro h
    simp [Manager.AddProcess, h]
  · intro h
    refine ⟨?_, ?_, ?_, ?_, ?_⟩
    · simp [Manager.AddProcess, h]
    · simp [Manager.AddProcess, h, AList.lookup_insert]
    · intro other hne
      simp [Manager.AddProcess, h, AList.lookup_insert_ne hne]
    · simp [Manager.AddProcess, h]
    · simp [Manager.AddProcess, h]

/-- C6, at a started manager and at a fresh one. -/
theorem AddProcess_guard_witness :
    ({ sampleManager with started := 1 } : Manager).IsStarted = true ∧
    (({ sampleManager with started := 1 } : Manager).AddProcess "d" SampleService).2
      = some "can not add processes after start" ∧
    NewManager.IsStarted = false ∧
    (NewManager.AddProcess "d" SampleService).1.processes.lookup "d"
      = some { process := SampleService, control := [], state := ProcessStateReady } :=
  ⟨rfl,
   ((AddProcess_guard { sampleManager with started := 1 } "d" SampleService).1 rfl).1,
   rfl,
   ((AddProcess_guard NewManager "d" SampleService).2 rfl).2.1⟩

/-! ## The periodic job: lemmas -/

theorem Built_fresh (c : periodical) (h : c.Built) :
    c.state = ProcessStateReady ∧ c.done = false ∧ c.stop = false ∧ c.cancelled = false := by
  rcases h with ⟨period, job, options, rfl⟩ | ⟨main, opts, rfl⟩ <;>
    simp [NewPeriodicalJob, NewWorker]

theorem Sound_init (c : periodical) (h : c.Built) : (Run.init c).Sound := by
  obtain ⟨h1, h2, h3, h4⟩ := Built_fresh c h
  exact Or.inl ⟨h1, rfl, rfl, h2, h3, h4, rfl, rfl⟩

theorem Sound_step (r : Run) (m : Move) (h : r.Sound) : (r.step m).Sound := by
  rcases h with h | h | h | h | h
  · obtain ⟨h1, h2, h3, h4, h5, h6, h7, h8⟩ := h
    cases m <;>
      simp [Run.step, Run.Start, Run.Stop, Run.Sound, Run.emit, h1, h2, h3, h4, h5, h6, h7, h8,
        ProcessStateReady, ProcessStateStarted, ProcessStateStopping, ProcessStateStopped,
        ProcessStateAborted, StartPc.left]
  all_goals
    obtain ⟨h1, h2, h3, h4, h5, h6⟩ := h
    cases m with
    | jobEnds =>
        cases hs : r.starter <;> rcases hj : r.c.job r.runs with (_ | e) | ⟨d, st⟩ <;>
          simp_all [Run.step, Run.Sound, Run.emit, Run.Start.afterJob, Run.Start.leave,
            ProcessStateReady, ProcessStateStarted, ProcessStateStopping, ProcessStateStopped,
            ProcessStateAborted, StartPc.left] <;>
          split_ifs <;> simp_all
    | _ =>
        cases hs : r.starter <;>
          simp_all [Run.step, Run.Start, Run.Stop, Run.Sound, Run.emit, Run.Start.top,
            Run.Start.leave, Run.Start.idleSelect, Run.Start.stopCheck,
            Run.Start.periodSelect, Run.Stop.select, Run.Stop.swap,
            ProcessStateReady, ProcessStateStarted, ProcessStateStopping, ProcessStateStopped,
            ProcessStateAborted, StartPc.left] <;>
          split_ifs <;> simp_all [StartPc.left]

theorem exec_nil (r : Run) : r.exec [] = r := rfl

theorem exec_cons (r : Run) (m : Move) (moves : List Move) :
    r.exec (m :: moves) = (r.step m).exec moves := rfl

theorem Sound_exec (moves : List Move) : ∀ r : Run, r.Sound → (r.exec moves).Sound := by
  induction moves with
  | nil => intro r h; exact h
  | cons m t ih => intro r h; exact ih _ (Sound_step r m h)

theorem step_job (r : Run) (m : Move) : (r.step m).c.job = r.c.job := by
  cases m <;> cases hs : r.starter <;>
    simp [Run.step, Run.Start, Run.Stop, Run.emit, Run.Start.top,
      Run.Start.afterJob, Run.Start.leave, Run.Start.idleSelect, Run.Start.stopCheck,
      Run.Start.periodSelect, Run.Stop.select, Run.Stop.swap, hs] <;>
    (repeat' split) <;> simp

theorem exec_job (moves : List Move) : ∀ r : Run, (r.exec moves).c.job = r.c.job := by
  induction moves with
  | nil => intro r; rfl
  | cons m t ih => intro r; rw [exec_cons, ih, step_job]

theorem step_state (r : Run) (m : Move) :
    (r.step m).c.state = r.c.state ∨
    (r.c.state = ProcessStateReady ∧ (r.step m).c.state = ProcessStateStarted ∧ m = .callStart) ∨
    (r.c.state = ProcessStateReady ∧ (r.step m).c.state = ProcessStateStopped ∧ m = .callStop) ∨
    (r.c.state = ProcessStateStarted ∧ (r.step m).c.state = ProcessStateStopping ∧ m = .callStop) ∨
    (r.c.state = ProcessStateStarted ∧ (r.step m).c.state = ProcessStateStopped ∧ m = .callStop) ∨
    (r.c.state = ProcessStateStopping ∧ (r.step m).c.state = ProcessStateStopped
      ∧ m = .stopSelect false) ∨
    (r.c.state = ProcessStateStopping ∧ (r.step m).c.state = ProcessStateAborted
      ∧ m = .stopSelect true) := by
  cases m <;> cases hs : r.starter <;>
    simp [Run.step, Run.Start, Run.Stop, Run.emit, Run.Start.top,
      Run.Start.afterJob, Run.Start.leave, Run.Start.idleSelect, Run.Start.stopCheck,
      Run.Start.periodSelect, Run.Stop.select, Run.Stop.swap, hs] <;>
    (repeat' split) <;> simp_all

theorem step_state_stopped (r : Run) (m : Move) (h : r.c.state = ProcessStateStopped) :
    (r.step m).c.state = ProcessStateStopped := by
  rcases step_state r m with h' | ⟨h1, h2, -⟩ | ⟨h1, h2, -⟩ | ⟨h1, h2, -⟩ | ⟨h1, h2, -⟩ |
      ⟨h1, h2, -⟩ | ⟨h1, h2, -⟩ <;>
    simp_all [ProcessStateReady, ProcessStateStarted, ProcessStateStopping,
      ProcessStateStopped, ProcessStateAborted]

theorem step_state_aborted (r : Run) (m : Move) (h : r.c.state = ProcessStateAborted) :
    (r.step m).c.state = ProcessStateAborted := by
  rcases step_state r m with h' | ⟨h1, h2, -⟩ | ⟨h1, h2, -⟩ | ⟨h1, h2, -⟩ | ⟨h1, h2, -⟩ |
      ⟨h1, h2, -⟩ | ⟨h1, h2, -⟩ <;>
    simp_all [ProcessStateReady, ProcessStateStarted, ProcessStateStopping,
      ProcessStateStopped, ProcessStateAborted]

theorem exec_state_stopped (moves : List Move) :
    ∀ r : Run, r.c.state = ProcessStateStopped → (r.exec moves).c.state = ProcessStateStopped := by
  induction moves with
  | nil => intro r h; exact h
  | cons m t ih => intro r h; exact ih _ (step_state_stopped r m h)

theorem exec_state_aborted (moves : List Move) :
    ∀ r : Run, r.c.state = ProcessStateAborted → (r.exec moves).c.state = ProcessStateAborted := by
  induction moves with
  | nil => intro r h; exact h
  | cons m t ih => intro r h; exact ih _ (step_state_aborted r m h)

theorem step_state_stopping (r : Run) (m : Move) (h : r.c.state = ProcessStateStopping)
    (hm : ∀ t, m ≠ .stopSelect t) : (r.step m).c.state = ProcessStateStopping := by
  rcases step_state r m with h' | h' | h' | h' | h' | h' | h'
  · rw [h', h]
  all_goals
    first
    | exact absurd h'.2.2 (hm _)
    | simp_all [ProcessStateReady, ProcessStateStarted, ProcessStateStopping,
        ProcessStateStopped, ProcessStateAborted]

theorem exec_state_stopping (moves : List Move) :
    ∀ r : Run, r.c.state = ProcessStateStopping → (∀ t, Move.stopSelect t ∉ moves) →
      (r.exec moves).c.state = ProcessStateStopping := by
  induction moves with
  | nil => intro r h _; exact h
  | cons m t ih =>
      intro r h hm
      refine ih _ (step_state_stopping r m h fun t ht => hm t (by simp [ht])) ?_
      intro t' ht'
      exact hm t' (by simp [ht'])

theorem step_state_not_ready (r : Run) (m : Move) (h : r.c.state ≠ ProcessStateReady) :
    (r.step m).c.state ≠ ProcessStateReady := by
  rcases step_state r m with h' | ⟨h1, h2, -⟩ | ⟨h1, h2, -⟩ | ⟨h1, h2, -⟩ | ⟨h1, h2, -⟩ |
      ⟨h1, h2, -⟩ | ⟨h1, h2, -⟩ <;>
    simp_all [ProcessStateReady, ProcessStateStarted, ProcessStateStopping,
      ProcessStateStopped, ProcessStateAborted]

theorem exec_state_not_ready (moves : List Move) :
    ∀ r : Run, r.c.state ≠ ProcessStateReady → (r.exec moves).c.state ≠ ProcessStateReady := by
  induction moves with
  | nil => intro r h; exact h
  | cons m t ih => intro r h; exact ih _ (step_state_not_ready r m h)

theorem step_state_past_started (r : Run) (m : Move)
    (h : r.c.state ≠ ProcessStateReady ∧ r.c.state ≠ ProcessStateStarted) :
    (r.step m).c.state ≠ ProcessStateReady ∧ (r.step m).c.state ≠ ProcessStateStarted := by
  rcases step_state r m with h' | ⟨h1, h2, -⟩ | ⟨h1, h2, -⟩ | ⟨h1, h2, -⟩ | ⟨h1, h2, -⟩ |
      ⟨h1, h2, -⟩ | ⟨h1, h2, -⟩ <;>
    simp_all [ProcessStateReady, ProcessStateStarted, ProcessStateStopping,
      ProcessStateStopped, ProcessStateAborted]

theorem exec_state_past_started (moves : List Move) :
    ∀ r : Run, (r.c.state ≠ ProcessStateReady ∧ r.c.state ≠ ProcessStateStarted) →
      ((r.exec moves).c.state ≠ ProcessStateReady
        ∧ (r.exec moves).c.state ≠ ProcessStateStarted) := by
  induction moves with
  | nil => intro r h; exact h
  | cons m t ih => intro r h; exact ih _ (step_state_past_started r m h)

theorem callStart_rejected (r : Run) (h : r.c.state ≠ ProcessStateReady) :
    r.step .callStart = r.emit [.startRejected
      ("error starting periodical job [state:" ++ processStateString r.c.state ++ "]")] := by
  simp [Run.step, Run.Start, h]

theorem callStop_rejected (r : Run) (h : r.c.state ≠ ProcessStateReady)
    (h' : r.c.state ≠ ProcessStateStarted) :
    r.step .callStop = r.emit [.stopRejected
      ("error stopping periodical job [state:" ++ processStateString r.c.state ++ "]")] := by
  simp [Run.step, Run.Stop, h, h']

theorem callStart_state (r : Run) : (r.step .callStart).c.state ≠ ProcessStateReady := by
  by_cases h : r.c.state = ProcessStateReady
  · simp [Run.step, Run.Start, h, ProcessStateReady, ProcessStateStarted]
  · rw [callStart_rejected r h]
    exact h

theorem callStop_state (r : Run) :
    (r.step .callStop).c.state ≠ ProcessStateReady
      ∧ (r.step .callStop).c.state ≠ ProcessStateStarted := by
  by_cases h : r.c.state = ProcessStateReady
  · simp [Run.step, Run.Stop, h, ProcessStateReady, ProcessStateStarted, ProcessStateStopped]
  · by_cases h' : r.c.state = ProcessStateStarted
    · have hne : ¬ (ProcessStateStarted = ProcessStateReady) := by decide
      simp only [Run.step, Run.Stop, h', hne, if_false, if_true]
      split <;> simp [ProcessStateReady, ProcessStateStarted, ProcessStateStopped,
        ProcessStateStopping]
    · rw [callStop_rejected r h h']
      exact ⟨h, h'⟩

theorem step_quiet (r : Run) (m : Move)
    (h : r.c.state = ProcessStateStopped ∧ r.starter = .out ∧ r.stopper = false ∧ r.runs = 0 ∧
      (∀ n, Act.invoke n ∉ r.trace) ∧ (∀ o, Act.startEnds o ∉ r.trace)) :
    (r.step m).c.state = ProcessStateStopped ∧ (r.step m).starter = .out ∧
      (r.step m).stopper = false ∧ (r.step m).runs = 0 ∧
      (∀ n, Act.invoke n ∉ (r.step m).trace) ∧ (∀ o, Act.startEnds o ∉ (r.step m).trace) := by
  obtain ⟨h1, h2, h3, h4, h5, h6⟩ := h
  cases m <;>
    simp [Run.step, Run.Start, Run.Stop, Run.emit, h1, h2, h3, h4, h5, h6,
      ProcessStateReady, ProcessStateStarted, ProcessStateStopped]

theorem exec_quiet (moves : List Move) : ∀ r : Run,
    (r.c.state = ProcessStateStopped ∧ r.starter = .out ∧ r.stopper = false ∧ r.runs = 0 ∧
      (∀ n, Act.invoke n ∉ r.trace) ∧ (∀ o, Act.startEnds o ∉ r.trace)) →
    ((r.exec moves).c.state = ProcessStateStopped ∧ (r.exec moves).starter = .out ∧
      (r.exec moves).stopper = false ∧ (r.exec moves).runs = 0 ∧
      (∀ n, Act.invoke n ∉ (r.exec moves).trace) ∧
      (∀ o, Act.startEnds o ∉ (r.exec moves).trace)) := by
  induction moves with
  | nil => intro r h; exact h
  | cons m t ih => intro r h; exact ih _ (step_quiet r m h)

theorem step_ended (r : Run) (m : Move) (o : Outcome) (hs : r.Sound)
    (h : r.starter = .ended o) :
    (r.step m).starter = .ended o ∧ (r.step m).runs = r.runs ∧
      (r.step m).trace.filter Act.isInvoke = r.trace.filter Act.isInvoke := by
  rcases hs with hs | hs | hs | hs | hs
  · simp [h] at hs
  all_goals
    cases m <;>
      simp [Run.step, Run.Start, Run.Stop, Run.emit, Run.Stop.select, Run.Stop.swap, h, hs,
        ProcessStateReady, ProcessStateStarted, ProcessStateStopped, ProcessStateStopping,
        ProcessStateAborted, Act.isInvoke] <;>
      (repeat' split) <;> simp_all [Act.isInvoke]

theorem exec_ended (moves : List Move) (o : Outcome) : ∀ r : Run, r.Sound →
    r.starter = .ended o →
    ((r.exec moves).starter = .ended o ∧ (r.exec moves).runs = r.runs ∧
      (r.exec moves).trace.filter Act.isInvoke = r.trace.filter Act.isInvoke) := by
  induction moves with
  | nil => intro r _ h; exact ⟨h, rfl, rfl⟩
  | cons m t ih =>
      intro r hs h
      obtain ⟨h1, h2, h3⟩ := step_ended r m o hs h
      obtain ⟨h4, h5, h6⟩ := ih _ (Sound_step r m hs) h1
      exact ⟨h4, h5.trans h2, h6.trans h3⟩

theorem Tidy_init (c : periodical) : (Run.init c).Tidy := by
  simp [Run.Tidy, Run.init, StartPc.swaps]

theorem step_inside (r : Run) (m : Move) (hm : m ≠ .callStart) (hm' : m ≠ .callStop)
    (hm'' : ∀ t, m ≠ .stopSelect t) :
    (r.step m).c.state = r.c.state ∧ (r.step m).starter.swaps = r.starter.swaps ∧
      (r.step m).trace.filter Act.byStart = r.trace.filter Act.byStart ∧
      (r.step m).trace.filter Act.byStop = r.trace.filter Act.byStop ∧
      ((r.step m).starter = .out ↔ r.starter = .out) := by
  cases m with
  | callStart => exact absurd rfl hm
  | callStop => exact absurd rfl hm'
  | stopSelect t => exact absurd rfl (hm'' t)
  | jobEnds =>
      cases hp : r.starter <;> rcases hj : r.c.job r.runs with (_ | e) | ⟨d, st⟩
      all_goals
        simp [Run.step, Run.emit, Run.Start.afterJob, Run.Start.leave, hp, hj,
          List.filter_append, Act.byStart, Act.byStop, StartPc.swaps]
        try (split_ifs <;> simp [List.filter_append, Act.byStart, Act.byStop, StartPc.swaps])
  | _ =>
      cases hp : r.starter
      all_goals
        simp [Run.step, Run.emit, Run.Start.top, Run.Start.leave, Run.Start.idleSelect,
          Run.Start.stopCheck, Run.Start.periodSelect, hp,
          List.filter_append, Act.byStart, Act.byStop, StartPc.swaps]
        try (split_ifs <;>
          simp [List.filter_append, Act.byStart, Act.byStop, StartPc.swaps, hp])

theorem Sound_ready (r : Run) (hs : r.Sound) (h0 : r.c.state = ProcessStateReady) :
    r.starter = .out ∧ r.stopper = false ∧ r.c.done = false ∧ r.c.stop = false ∧
      r.c.cancelled = false ∧ r.runs = 0 ∧ r.trace = [] := by
  rcases hs with hs | hs | hs | hs | hs
  · exact hs.2
  all_goals
    exfalso
    have := hs.1
    simp_all [ProcessStateReady, ProcessStateStarted, ProcessStateStopped,
      ProcessStateStopping, ProcessStateAborted]

theorem Tidy_of (r r' : Run) (h : r.Tidy) (hsw : r'.starter.swaps = r.starter.swaps)
    (hout : r'.starter = .out ↔ r.starter = .out)
    (hA : r'.trace.filter Act.byStart = r.trace.filter Act.byStart)
    (hB : (r'.trace.filter Act.byStop = r.trace.filter Act.byStop ∧ r'.c.state = r.c.state) ∨
      r'.trace.filter Act.byStop ≠ []) : r'.Tidy := by
  obtain ⟨t1, t2⟩ := h
  refine ⟨by rw [hA, hsw, t1], ?_⟩
  intro hnil hno
  rcases hB with ⟨hB1, hB2⟩ | hB
  · rw [hB2]
    exact t2 (hB1 ▸ hnil) (fun ho => hno (hout.mpr ho))
  · exact absurd hnil hB

theorem Tidy_step (r : Run) (m : Move) (hs : r.Sound) (h : r.Tidy) : (r.step m).Tidy := by
  by_cases hm : m = .callStart
  · subst hm
    by_cases h0 : r.c.state = ProcessStateReady
    · obtain ⟨ho, -, -, -, -, -, ht⟩ := Sound_ready r hs h0
      simp [Run.step, Run.Start, Run.Tidy, h0, ht, Act.byStart, StartPc.swaps]
    · rw [callStart_rejected r h0]
      refine Tidy_of r _ h rfl Iff.rfl ?_ (Or.inl ⟨?_, rfl⟩) <;>
        simp [Run.emit, List.filter_append, Act.byStart, Act.byStop]
  by_cases hm' : m = .callStop
  · subst hm'
    by_cases h0 : r.c.state = ProcessStateReady
    · obtain ⟨ho, -, -, -, -, -, ht⟩ := Sound_ready r hs h0
      simp [Run.step, Run.Stop, Run.Tidy, h0, ht, ho, Act.byStart, Act.byStop, StartPc.swaps]
    · by_cases h1 : r.c.state = ProcessStateStarted
      · have hne : ¬ (ProcessStateStarted = ProcessStateReady) := by decide
        simp only [Run.step, Run.Stop, h1, hne, if_false, if_true]
        split <;>
          refine Tidy_of r _ h rfl Iff.rfl ?_ (Or.inr ?_) <;>
          simp [List.filter_append, Act.byStart, Act.byStop]
      · rw [callStop_rejected r h0 h1]
        refine Tidy_of r _ h rfl Iff.rfl ?_ (Or.inl ⟨?_, rfl⟩) <;>
          simp [Run.emit, List.filter_append, Act.byStart, Act.byStop]
  by_cases hm'' : ∃ t, m = .stopSelect t
  · obtain ⟨t, rfl⟩ := hm''
    by_cases hw : r.stopper = true
    · by_cases hg : r.c.state = ProcessStateStopping
      · by_cases hd : r.c.done = true <;> cases t <;>
          simp only [Run.step, Run.Stop.select, Run.Stop.swap, Run.emit, hw, hg, hd,
            if_true, if_false] <;>
          first
          | exact h
          | (refine Tidy_of r _ h rfl Iff.rfl ?_ (Or.inr ?_) <;>
              simp [List.filter_append, Act.byStart, Act.byStop])
      · by_cases hd : r.c.done = true <;> cases t <;>
          simp only [Run.step, Run.Stop.select, Run.Stop.swap, Run.emit, hw, hg, hd,
            if_true, if_false] <;>
          first
          | exact h
          | (refine Tidy_of r _ h rfl Iff.rfl ?_ (Or.inl ⟨?_, rfl⟩) <;>
              simp [List.filter_append, Act.byStart, Act.byStop])
    · simp only [Run.step, hw]
      exact h
  · push_neg at hm''
    obtain ⟨e1, e2, e3, e4, e5⟩ := step_inside r m hm hm' hm''
    exact Tidy_of r _ h e2 e5 e3 (Or.inl ⟨e4, e1⟩)

theorem Tidy_exec (moves : List Move) :
    ∀ r : Run, r.Sound → r.Tidy → (r.exec moves).Tidy := by
  induction moves with
  | nil => intro r _ h; exact h
  | cons m t ih => intro r hs h; exact ih _ (Sound_step r m hs) (Tidy_step r m hs h)

/-! ## The periodic job: claims -/

/-- C7: on a job built by `NewPeriodicalJob` or `NewWorker` that is still
`Ready`, `Stop` returns nil and its only compare-and-swap takes the state from
`Ready` to `Stopped`; whatever happens later, the state stays `Stopped`, the
user function is never called, and every call of `Start` is rejected with an
error. -/
theorem Stop_before_Start (c : periodical) (hc : c.Built) (moves later : List Move) :
    let r := (Run.init c).exec moves
    r.c.state = ProcessStateReady →
      let r1 := r.step .callStop
      let r2 := r1.exec later
      r.c.stop = false ∧ r.c.done = false ∧ r.trace = [] ∧
      r1.c.state = ProcessStateStopped ∧
      r1.trace = [.cas .Stop ProcessStateReady ProcessStateStopped,
                  .dbgf "stopping an unstarted periodical job",
                  .cancel, .closeStop, .closeDone, .stopEnds none] ∧
      r2.c.state = ProcessStateStopped ∧ r2.runs = 0 ∧
      (∀ n, Act.invoke n ∉ r2.trace) ∧ (∀ o, Act.startEnds o ∉ r2.trace) ∧
      r2.step .callStart
        = r2.emit [.startRejected "error starting periodical job [state:stopped]"] := by
  intro r h0 r1 r2
  have hs : r.Sound := Sound_exec moves _ (Sound_init c hc)
  obtain ⟨ho, hw, hd, hp, hx, hn, ht⟩ := Sound_ready r hs h0
  have e1 : r1 = r.Stop := rfl
  have hq : r1.c.state = ProcessStateStopped ∧ r1.starter = .out ∧ r1.stopper = false ∧
      r1.runs = 0 ∧ (∀ n, Act.invoke n ∉ r1.trace) ∧ (∀ o, Act.startEnds o ∉ r1.trace) := by
    rw [e1]
    simp [Run.Stop, h0, ho, hw, hn, ht]
  obtain ⟨q1, q2, q3, q4, q5, q6⟩ := exec_quiet later r1 hq
  refine ⟨hp, hd, ht, hq.1, ?_, q1, q4, q5, q6, ?_⟩
  · rw [e1]
    simp [Run.Stop, h0, ht]
  · have hne : r2.c.state ≠ ProcessStateReady := by
      rw [show r2.c.state = ProcessStateStopped from q1]
      decide
    rw [callStart_rejected r2 hne, show r2.c.state = ProcessStateStopped from q1]
    rfl

/-- C7, at a worker that is stopped before it is started and then started. -/
theorem Stop_before_Start_witness :
    ((Run.init (NewWorker jobOk [])).exec []).c.state = ProcessStateReady ∧
    ((((Run.init (NewWorker jobOk [])).exec []).step .callStop).exec
        [.callStart, .top]).c.state = ProcessStateStopped ∧
    ∀ n, Act.invoke n ∉
      ((((Run.init (NewWorker jobOk [])).exec []).step .callStop).exec
        [.callStart, .top]).trace :=
  ⟨rfl,
   (Stop_before_Start (NewWorker jobOk []) (Or.inr ⟨jobOk, [], rfl⟩) [] [.callStart, .top]
      rfl).2.2.2.2.2.1,
   (Stop_before_Start (NewWorker jobOk []) (Or.inr ⟨jobOk, [], rfl⟩) [] [.callStart, .top]
      rfl).2.2.2.2.2.2.2.1⟩

/-- C8: a call of `Start` in a state other than `Ready` only returns an error:
the job, the place of every goroutine and the count of runs are as before, and
the user function is not called. A call of `Stop` in a state other than `Ready`
and `Started` likewise. Hence, whatever happens in between, a call of `Stop`
after an earlier call of `Stop`, and a call of `Start` after an earlier call of
`Start`, are rejected. -/
theorem illegal_transitions_rejected (r : Run) (between : List Move) :
    (r.c.state ≠ ProcessStateReady →
      r.step .callStart = r.emit [.startRejected
        ("error starting periodical job [state:" ++ processStateString r.c.state ++ "]")] ∧
      (r.step .callStart).c.state = r.c.state ∧ (r.step .callStart).runs = r.runs ∧
      (r.step .callStart).trace.filter Act.isInvoke = r.trace.filter Act.isInvoke) ∧
    (r.c.state ≠ ProcessStateReady → r.c.state ≠ ProcessStateStarted →
      r.step .callStop = r.emit [.stopRejected
        ("error stopping periodical job [state:" ++ processStateString r.c.state ++ "]")] ∧
      (r.step .callStop).c.state = r.c.state) ∧
    (let r' := (r.step .callStop).exec between
     r'.step .callStop = r'.emit [.stopRejected
        ("error stopping periodical job [state:" ++ processStateString r'.c.state ++ "]")]) ∧
    (let r' := (r.step .callStart).exec between
     r'.step .callStart = r'.emit [.startRejected
        ("error starting periodical job [state:" ++ processStateString r'.c.state ++ "]")]) := by
  refine ⟨?_, ?_, ?_, ?_⟩
  · intro h
    rw [callStart_rejected r h]
    refine ⟨rfl, rfl, rfl, ?_⟩
    simp [Run.emit, List.filter_append, Act.isInvoke]
  · intro h h'
    rw [callStop_rejected r h h']
    exact ⟨rfl, rfl⟩
  · intro r'
    obtain ⟨h, h'⟩ := exec_state_past_started between _ (callStop_state r)
    exact callStop_rejected r' h h'
  · intro r'
    exact callStart_rejected r' (exec_state_not_ready between _ (callStart_state r))

/-- C8, at a job that has been started and stopped: a second `Start` and a
second `Stop` are rejected with the state unchanged. -/
theorem illegal_transitions_rejected_witness :
    ((Run.init (NewPeriodicalJob Second jobOk [])).exec
        [.callStart, .top, .callStop, .jobEnds, .stopCheck, .stopSelect false]).c.state
      = ProcessStateStopped ∧
    (((Run.init (NewPeriodicalJob Second jobOk [])).exec
        [.callStart, .top, .callStop, .jobEnds, .stopCheck, .stopSelect false]).step .callStart).c.state
      = ProcessStateStopped ∧
    (((Run.init (NewPeriodicalJob Second jobOk [])).exec
        [.callStart, .top, .callStop, .jobEnds, .stopCheck, .stopSelect false]).step .callStop).c.state
      = ProcessStateStopped :=
  ⟨rfl,
   ((illegal_transitions_rejected ((Run.init (NewPeriodicalJob Second jobOk [])).exec
      [.callStart, .top, .callStop, .jobEnds, .stopCheck, .stopSelect false]) []).1 (by decide)).2.1,
   ((illegal_transitions_rejected ((Run.init (NewPeriodicalJob Second jobOk [])).exec
      [.callStart, .top, .callStop, .jobEnds, .stopCheck, .stopSelect false]) []).2.1
      (by decide) (by decide)).2⟩

/-- C9: when a call of the user function made by `Start` ends with an error or
a panic, `Start` closes `done` (open until then) and ends the same way, with
that error or that panic value; it leaves the state as it is. Whatever happens
later the user function is not called again, the only compare-and-swap that
`Start` has performed is the one from `Ready` to `Started`, and the state is
`Started` as long as `Stop` has performed none. -/
theorem Start_passes_failure_through (c : periodical) (hc : c.Built)
    (moves later : List Move) :
    let r := (Run.init c).exec moves
    r.starter = .job → c.job r.runs ≠ .returned none →
      let r1 := r.step .jobEnds
      let r2 := r1.exec later
      r.c.done = false ∧
      r1.starter = .ended (c.job r.runs) ∧
      r1.trace = r.trace ++ [.closeDone, .startEnds (c.job r.runs)] ∧
      r1.c.state = r.c.state ∧
      r2.starter = .ended (c.job r.runs) ∧
      r2.runs = r.runs + 1 ∧
      r2.trace.filter Act.isInvoke = r.trace.filter Act.isInvoke ∧
      r2.trace.filter Act.byStart = [.cas .Start ProcessStateReady ProcessStateStarted] ∧
      (r2.trace.filter Act.byStop = [] → r2.c.state = ProcessStateStarted) := by
  intro r hp hj r1 r2
  have hs : r.Sound := Sound_exec moves _ (Sound_init c hc)
  have hjob : r.c.job = c.job := exec_job moves (Run.init c)
  have hd : r.c.done = false := by
    rcases hs with hs | hs | hs | hs | hs <;> simp_all [StartPc.left]
  have e1 : r1 = Run.Start.leave { r with runs := r.runs + 1 } (c.job r.runs) := by
    show r.step .jobEnds = _
    simp only [Run.step, hp, Run.Start.afterJob, hjob]
    rcases hc' : c.job r.runs with (_ | e) | ⟨d, st⟩
    · exact absurd hc' hj
    · rfl
    · rfl
  have hs1 : r1.Sound := Sound_step r .jobEnds hs
  have hp1 : r1.starter = .ended (c.job r.runs) := by rw [e1]; rfl
  obtain ⟨q1, q2, q3⟩ := exec_ended later (c.job r.runs) r1 hs1 hp1
  have ht : r2.Tidy :=
    Tidy_exec later r1 hs1 (Tidy_step r .jobEnds hs (Tidy_exec moves _ (Sound_init c hc)
      (Tidy_init c)))
  refine ⟨hd, hp1, by rw [e1]; rfl, by rw [e1]; rfl, q1, ?_, ?_, ?_, ?_⟩
  · rw [q2, e1]; rfl
  · rw [q3, e1]
    simp [Run.Start.leave, List.filter_append, Act.isInvoke]
  · rw [ht.1, show r2.starter = _ from q1]; rfl
  · intro hn
    refine ht.2 hn ?_
    rw [show r2.starter = _ from q1]
    simp

/-- C9, at the job `bad` of the tests, stopped after it failed. -/
theorem Start_passes_failure_through_witness :
    ((Run.init (NewPeriodicalJob Second jobBad [])).exec [.callStart, .top]).starter = .job ∧
    jobBad ((Run.init (NewPeriodicalJob Second jobBad [])).exec [.callStart, .top]).runs
      ≠ .returned none ∧
    ((((Run.init (NewPeriodicalJob Second jobBad [])).exec [.callStart, .top]).step
        .jobEnds).exec [.callStop, .top]).starter = .ended (.returned (some "bad")) :=
  ⟨rfl, by decide,
   (Start_passes_failure_through (NewPeriodicalJob Second jobBad [])
      (Or.inl ⟨Second, jobBad, [], rfl⟩) [.callStart, .top] [.callStop, .top] rfl
      (by decide)).2.2.2.2.1⟩

theorem Sound_started (r : Run) (hs : r.Sound) (h0 : r.c.state = ProcessStateStarted) :
    r.starter ≠ .out ∧ r.stopper = false ∧ r.c.done = r.starter.left ∧ r.c.stop = false ∧
      r.c.cancelled = false := by
  rcases hs with hs | hs | hs | hs | hs
  · exfalso; have := hs.1
    simp_all [ProcessStateReady, ProcessStateStarted]
  · exact hs.2
  all_goals
    exfalso
    have := hs.1
    simp_all [ProcessStateReady, ProcessStateStarted, ProcessStateStopped,
      ProcessStateStopping, ProcessStateAborted]

theorem Sound_stopping (r : Run) (hs : r.Sound) (h0 : r.c.state = ProcessStateStopping) :
    r.starter ≠ .out ∧ r.stopper = true ∧ r.c.done = r.starter.left ∧ r.c.stop = true ∧
      r.c.cancelled = true := by
  rcases hs with hs | hs | hs | hs | hs
  · exfalso; have := hs.1
    simp_all [ProcessStateReady, ProcessStateStopping]
  · exfalso; have := hs.1
    simp_all [ProcessStateStarted, ProcessStateStopping]
  · exact hs.2
  all_goals
    exfalso
    have := hs.1
    simp_all [ProcessStateReady, ProcessStateStarted, ProcessStateStopped,
      ProcessStateStopping, ProcessStateAborted]

/-- C10: on a job that is `Started`, `Stop` takes the state to `Stopping`,
cancels the context and closes `stop` (open until then). When `Start` has
already returned, `Stop` goes on to `Stopped` and returns nil. Otherwise it
waits, the state being `Stopping` until its `select` fires: the case of `done`
cannot fire before `Start` has returned, and when it fires `Stop` returns nil
and the state is `Stopped` from then on; when the timer fires `Stop` returns the
timeout error and the state is `Aborted` from then on, whatever `Start` does
later. -/
theorem Stop_from_Started (c : periodical) (hc : c.Built) (moves mid later : List Move) :
    let r := (Run.init c).exec moves
    r.c.state = ProcessStateStarted →
      let r1 := r.step .callStop
      r.c.stop = false ∧ r.c.cancelled = false ∧ r.c.done = r.starter.left ∧
      r1.c.stop = true ∧ r1.c.cancelled = true ∧
      (r.c.done = true →
        r1.trace = r.trace ++
          [.cas .Stop ProcessStateStarted ProcessStateStopping, .cancel, .closeStop,
           .dbgf "waiting for start to terminate",
           .cas .Stop ProcessStateStopping ProcessStateStopped, .stopEnds none] ∧
        r1.c.state = ProcessStateStopped ∧ r1.stopper = false ∧
        (r1.exec later).c.state = ProcessStateStopped) ∧
      (r.c.done = false →
        r1.trace = r.trace ++
          [.cas .Stop ProcessStateStarted ProcessStateStopping, .cancel, .closeStop,
           .dbgf "waiting for start to terminate"] ∧
        r1.c.state = ProcessStateStopping ∧ r1.stopper = true ∧
        ((∀ t, Move.stopSelect t ∉ mid) →
          let r2 := r1.exec mid
          let viaDone := r2.step (.stopSelect false)
          let viaTimer := r2.step (.stopSelect true)
          r2.c.state = ProcessStateStopping ∧ r2.stopper = true ∧
          r2.c.done = r2.starter.left ∧
          (r2.c.done = false → viaDone = r2) ∧
          (r2.c.done = true →
            viaDone.trace = r2.trace ++
              [.cas .Stop ProcessStateStopping ProcessStateStopped, .stopEnds none] ∧
            viaDone.c.state = ProcessStateStopped ∧
            (viaDone.exec later).c.state = ProcessStateStopped) ∧
          viaTimer.trace = r2.trace ++
            [.cas .Stop ProcessStateStopping ProcessStateAborted,
             .stopEnds (some "process terminated after shutdown timeout exceeded")] ∧
          viaTimer.c.state = ProcessStateAborted ∧
          (viaTimer.exec later).c.state = ProcessStateAborted)) := by
  intro r h0 r1
  have hs : r.Sound := Sound_exec moves _ (Sound_init c hc)
  obtain ⟨ho, hw, hd, hp, hx⟩ := Sound_started r hs h0
  have hne : ¬ (ProcessStateStarted = ProcessStateReady) := by decide
  have e1 : r1 = r.Stop := rfl
  refine ⟨hp, hx, hd, ?_, ?_, ?_, ?_⟩
  · rw [e1]; simp only [Run.Stop, h0, hne, if_false, if_true]; split <;> rfl
  · rw [e1]; simp only [Run.Stop, h0, hne, if_false, if_true]; split <;> rfl
  · intro hdone
    have e2 : r1.c.state = ProcessStateStopped := by
      rw [e1]; simp [Run.Stop, h0, hne, hdone]
    refine ⟨?_, e2, ?_, exec_state_stopped later r1 e2⟩
    · rw [e1]; simp [Run.Stop, h0, hne, hdone]
    · rw [e1]; simp [Run.Stop, h0, hne, hdone, hw]
  · intro hdone
    have e2 : r1.c.state = ProcessStateStopping := by
      rw [e1]; simp [Run.Stop, h0, hne, hdone]
    refine ⟨?_, e2, ?_, ?_⟩
    · rw [e1]; simp [Run.Stop, h0, hne, hdone]
    · rw [e1]; simp [Run.Stop, h0, hne, hdone]
    · intro hmid r2 viaDone viaTimer
      have hs2 : r2.Sound := Sound_exec mid _ (Sound_step r .callStop hs)
      have e3 : r2.c.state = ProcessStateStopping := exec_state_stopping mid r1 e2 hmid
      obtain ⟨-, hw2, hd2, -, -⟩ := Sound_stopping r2 hs2 e3
      have e4 : viaTimer.c.state = ProcessStateAborted := by
        show (r2.step (.stopSelect true)).c.state = _
        simp [Run.step, hw2, Run.Stop.select, Run.Stop.swap, e3, Run.emit]
      refine ⟨e3, hw2, hd2, ?_, ?_, ?_, e4, exec_state_aborted later _ e4⟩
      · intro hopen
        show r2.step (.stopSelect false) = r2
        simp [Run.step, hw2, Run.Stop.select, hopen]
      · intro hclosed
        have e5 : viaDone.c.state = ProcessStateStopped := by
          show (r2.step (.stopSelect false)).c.state = _
          simp [Run.step, hw2, Run.Stop.select, Run.Stop.swap, e3, Run.emit, hclosed]
        refine ⟨?_, e5, exec_state_stopped later _ e5⟩
        show (r2.step (.stopSelect false)).trace = _
        simp [Run.step, hw2, Run.Stop.select, Run.Stop.swap, e3, Run.emit, hclosed]
      · show (r2.step (.stopSelect true)).trace = _
        simp [Run.step, hw2, Run.Stop.select, Run.Stop.swap, e3, Run.emit]

/-- C10, at the slow job of the tests: `Stop` times out while the job runs, and
the state is still `Aborted` after `Start` has returned. -/
theorem Stop_from_Started_witness :
    ((Run.init (NewPeriodicalJob Second jobOk [])).exec [.callStart, .top]).c.state
      = ProcessStateStarted ∧
    ((Run.init (NewPeriodicalJob Second jobOk [])).exec [.callStart, .top]).c.done = false ∧
    (∀ t, Move.stopSelect t ∉ ([] : List Move)) ∧
    ((((((Run.init (NewPeriodicalJob Second jobOk [])).exec [.callStart, .top]).step
        .callStop).exec []).step (.stopSelect true)).exec
          [.jobEnds, .stopCheck]).c.state = ProcessStateAborted :=
  ⟨rfl, rfl, by simp,
   ((Stop_from_Started (NewPeriodicalJob Second jobOk [])
      (Or.inl ⟨Second, jobOk, [], rfl⟩) [.callStart, .top] [] [.jobEnds, .stopCheck]
      rfl).2.2.2.2.2.2 rfl).2.2.2 (by simp) |>.2.2.2.2.2.2.2⟩

/-! ## The options: lemmas -/

theorem merge_timeout (acc x : PeriodicalOptions) :
    (acc.merge x).ShutdownTimeout
      = if 0 < x.ShutdownTimeout then x.ShutdownTimeout else acc.ShutdownTimeout := by
  unfold PeriodicalOptions.merge
  simp only [gt_iff_lt]
  split_ifs <;> rfl

theorem foldl_merge_timeout (l : List PeriodicalOptions) : ∀ acc : PeriodicalOptions,
    (l.foldl PeriodicalOptions.merge acc).ShutdownTimeout
      = ((l.map fun o => o.ShutdownTimeout).filter fun t => decide (0 < t)).getLast?.getD
          acc.ShutdownTimeout := by
  induction l with
  | nil => intro acc; rfl
  | cons x t ih =>
      intro acc
      rw [List.foldl_cons, ih, merge_timeout]
      by_cases hx : 0 < x.ShutdownTimeout
      · simp [hx, List.getLast?_cons]
      · simp [hx]

theorem sanitize_timeout (opts : PeriodicalOptions) :
    opts.sanitize.ShutdownTimeout = sanitizedTimeout opts.ShutdownTimeout := by
  by_cases h1 : opts.ShutdownTimeout < Second <;> by_cases h2 : opts.Dbgf = .nil <;>
    simp [PeriodicalOptions.sanitize, sanitizedTimeout, h1, h2]

/-! ## The options: claims -/

/-- C12: the `ShutdownTimeout` of a job built by `NewPeriodicalJob` is the last
strictly positive one among the options when that is at least 1 second, and 60
seconds otherwise; it is never below 1 second, and it is 60 seconds when no
option gives a strictly positive one. -/
theorem ShutdownTimeout_floor (period : Int) (job : Nat → Outcome)
    (options : List PeriodicalOptions) :
    let t := lastPositiveTimeout options
    let c := NewPeriodicalJob period job options
    c.opts.ShutdownTimeout = (if Second ≤ t then t else 60 * Second) ∧
    Second ≤ c.opts.ShutdownTimeout ∧
    (Second ≤ t → c.opts.ShutdownTimeout = t) ∧
    ((∀ o ∈ options, o.ShutdownTimeout ≤ 0) → c.opts.ShutdownTimeout = 60 * Second) := by
  intro t c
  have h1 : c.opts.ShutdownTimeout = sanitizedTimeout t := by
    show ((options.foldl PeriodicalOptions.merge PeriodicalOptions.zero).sanitize).ShutdownTimeout
      = _
    rw [sanitize_timeout, foldl_merge_timeout]
    rfl
  have h2 : c.opts.ShutdownTimeout = (if Second ≤ t then t else 60 * Second) := by
    rw [h1]
    unfold sanitizedTimeout
    split_ifs <;> first | rfl | omega
  refine ⟨h2, ?_, ?_, ?_⟩
  · rw [h2]
    split_ifs with h
    · exact h
    · decide
  · intro h
    rw [h2, if_pos h]
  · intro hall
    have ht : t = 0 := by
      show ((options.map fun o => o.ShutdownTimeout).filter
        fun t => decide (0 < t)).getLast?.getD 0 = 0
      have : (options.map fun o => o.ShutdownTimeout).filter (fun t => decide (0 < t)) = [] := by
        rw [List.filter_eq_nil_iff]
        intro x hx
        obtain ⟨o, ho, rfl⟩ := List.mem_map.mp hx
        have := hall o ho
        simp only [decide_eq_true_eq]
        omega
      rw [this]
      rfl
    rw [h2, ht]
    rfl

/-- C12, at three lists of options: a timeout of 5 seconds is kept, one of half
a second gives 60 seconds, and so does no option at all. -/
theorem ShutdownTimeout_floor_witness :
    Second ≤ lastPositiveTimeout
      [{ PeriodicalOptions.zero with ShutdownTimeout := 5 * Second }, PeriodicalOptions.zero] ∧
    (NewPeriodicalJob Second jobOk
      [{ PeriodicalOptions.zero with ShutdownTimeout := 5 * Second },
        PeriodicalOptions.zero]).opts.ShutdownTimeout = 5 * Second ∧
    (NewPeriodicalJob Second jobOk
      [{ PeriodicalOptions.zero with ShutdownTimeout := 500000000 }]).opts.ShutdownTimeout
        = 60 * Second ∧
    (NewPeriodicalJob Second jobOk []).opts.ShutdownTimeout = 60 * Second :=
  ⟨by decide,
   (ShutdownTimeout_floor Second jobOk
      [{ PeriodicalOptions.zero with ShutdownTimeout := 5 * Second },
        PeriodicalOptions.zero]).2.2.1 (by decide),
   (ShutdownTimeout_floor Second jobOk
      [{ PeriodicalOptions.zero with ShutdownTimeout := 500000000 }]).1,
   (ShutdownTimeout_floor Second jobOk []).2.2.2 (by simp)⟩

/-! ## The transitions of the state: lemmas -/

theorem replay_append (l₁ l₂ : List Act) : ∀ s : Int,
    replay s (l₁ ++ l₂) = (replay s l₁).bind fun s' => replay s' l₂ := by
  induction l₁ with
  | nil => intro s; rfl
  | cons a t ih =>
      intro s
      cases a with
      | cas w o n =>
          simp only [List.cons_append, replay]
          split_ifs
          · exact ih n
          · rfl
      | _ =>
          simp only [List.cons_append, replay]
          exact ih s

theorem replay_step (r : Run) (m : Move) (s : Int)
    (h : replay s r.trace = some r.c.state) :
    replay s (r.step m).trace = some (r.step m).c.state := by
  have hR : replay s r.trace = some r.c.state := h
  cases m <;> cases hs : r.starter <;>
    simp [Run.step, Run.Start, Run.Stop, Run.emit, Run.Start.top,
      Run.Start.afterJob, Run.Start.leave, Run.Start.idleSelect, Run.Start.stopCheck,
      Run.Start.periodSelect, Run.Stop.select, Run.Stop.swap, hs] <;>
    (repeat' split) <;>
    simp_all [replay_append, replay, legalTransition, ProcessStateReady, ProcessStateStarted,
      ProcessStateStopping, ProcessStateStopped, ProcessStateAborted]

theorem replay_exec (moves : List Move) (s : Int) : ∀ r : Run,
    replay s r.trace = some r.c.state →
      replay s (r.exec moves).trace = some (r.exec moves).c.state := by
  induction moves with
  | nil => intro r h; exact h
  | cons m t ih => intro r h; exact ih _ (replay_step r m s h)

theorem replay_mem (l : List Act) : ∀ (s s' : Int), replay s l = some s' →
    ∀ who old new, Act.cas who old new ∈ l → legalTransition old new = true := by
  induction l with
  | nil => intro s s' _ who old new hm; simp at hm
  | cons a t ih =>
      intro s s' h who old new hm
      cases a with
      | cas w o n =>
          simp only [replay] at h
          split_ifs at h with hc
          rcases List.mem_cons.mp hm with he | ht
          · obtain ⟨-, rfl, rfl⟩ := Act.cas.inj he
            exact hc.2
          · exact ih _ _ h who old new ht
      | _ =>
          rcases List.mem_cons.mp hm with he | ht
          · exact absurd he (by simp)
          · exact ih _ _ (by simpa only [replay] using h) who old new ht

/-! ## The closes of `done`: lemmas -/

theorem Sound_inside (r : Run) (hs : r.Sound) (ho : r.starter ≠ .out)
    (hl : r.starter.left = false) : r.c.done = false := by
  rcases hs with hs | hs | hs | hs | hs
  · exact absurd hs.2.1 ho
  · rw [hs.2.2.2.1, hl]
  · rw [hs.2.2.2.1, hl]
  · rcases hs.2.1 with h | h
    · exact absurd h ho
    · rw [hl] at h; exact absurd h (by simp)
  · rw [hs.2.2.2.1, hl]

theorem DoneOnce_init (c : periodical) (hc : c.Built) : (Run.init c).DoneOnce := by
  obtain ⟨-, h2, -, -⟩ := Built_fresh c hc
  simp [Run.DoneOnce, Run.init, h2]

theorem DoneOnce_step (r : Run) (m : Move) (hs : r.Sound) (h : r.DoneOnce) :
    (r.step m).DoneOnce := by
  unfold Run.DoneOnce at h ⊢
  by_cases hm : m = .callStop
  · subst hm
    by_cases h0 : r.c.state = ProcessStateReady
    · obtain ⟨-, -, hd, -, -, -, ht⟩ := Sound_ready r hs h0
      simp [Run.step, Run.Stop, h0, ht, Act.isCloseDone]
    · by_cases h1 : r.c.state = ProcessStateStarted
      · have hne : ¬ (ProcessStateStarted = ProcessStateReady) := by decide
        simp only [Run.step, Run.Stop, h1, hne, if_false, if_true]
        split <;> simp_all [List.filter_append, Act.isCloseDone]
      · rw [callStop_rejected r h0 h1]
        simp [Run.emit, List.filter_append, Act.isCloseDone, h]
  · have hin : r.starter ≠ .out → r.starter.left = false → r.c.done = false :=
      Sound_inside r hs
    cases m with
    | callStop => exact absurd rfl hm
    | callStart =>
        by_cases h0 : r.c.state = ProcessStateReady
        · simp [Run.step, Run.Start, h0, List.filter_append, Act.isCloseDone, h]
        · rw [callStart_rejected r h0]
          simp [Run.emit, List.filter_append, Act.isCloseDone, h]
    | stopSelect t =>
        cases t <;>
          simp [Run.step, Run.Stop.select, Run.Stop.swap, Run.emit] <;>
          (repeat' split) <;>
          simp_all [List.filter_append, Act.isCloseDone]
    | jobEnds =>
        cases hp : r.starter <;> rcases hj : r.c.job r.runs with (_ | e) | ⟨d, st⟩
        all_goals
          simp [hp, StartPc.left] at hin
          simp [Run.step, Run.emit, Run.Start.afterJob, Run.Start.leave, hp, hj,
            List.filter_append, Act.isCloseDone, h, hin]
          try (split_ifs <;> simp_all [List.filter_append, Act.isCloseDone])
    | _ =>
        cases hp : r.starter
        all_goals
          simp [hp, StartPc.left] at hin
          simp [Run.step, Run.emit, Run.Start.top, Run.Start.leave, Run.Start.idleSelect,
            Run.Start.stopCheck, Run.Start.periodSelect, hp,
            List.filter_append, Act.isCloseDone, h, hin]
          try (split_ifs <;> simp_all [List.filter_append, Act.isCloseDone])

theorem DoneOnce_exec (moves : List Move) :
    ∀ r : Run, r.Sound → r.DoneOnce → (r.exec moves).DoneOnce := by
  induction moves with
  | nil => intro r _ h; exact h
  | cons m t ih => intro r hs h; exact ih _ (Sound_step r m hs) (DoneOnce_step r m hs h)

theorem no_Stop_step (r : Run) (m : Move) (hs : r.Sound) (ht : r.Tidy)
    (hm : m ≠ .callStop) (h : r.trace.filter Act.byStop = []) :
    (r.step m).trace.filter Act.byStop = [] := by
  by_cases hm1 : m = .callStart
  · subst hm1
    by_cases h0 : r.c.state = ProcessStateReady
    · simp [Run.step, Run.Start, h0, List.filter_append, Act.byStop, h]
    · rw [callStart_rejected r h0]
      simp [Run.emit, List.filter_append, Act.byStop, h]
  by_cases hm2 : ∃ t, m = .stopSelect t
  · obtain ⟨t, rfl⟩ := hm2
    have hw : r.stopper = false := by
      by_contra hw
      have hw' : r.stopper = true := by simpa using hw
      rcases hs with hs | hs | hs | hs | hs
      · rw [hs.2.2.1] at hw'; exact absurd hw' (by simp)
      · rw [hs.2.2.1] at hw'; exact absurd hw' (by simp)
      · have := ht.2 h hs.2.1
        rw [hs.1] at this
        exact absurd this (by decide)
      · rw [hs.2.2.1] at hw'; exact absurd hw' (by simp)
      · rw [hs.2.2.1] at hw'; exact absurd hw' (by simp)
    simp only [Run.step, hw]
    exact h
  · push_neg at hm2
    rw [(step_inside r m hm1 hm hm2).2.2.2.1]
    exact h

theorem no_Stop_exec (moves : List Move) : ∀ r : Run, r.Sound → r.Tidy →
    Move.callStop ∉ moves → r.trace.filter Act.byStop = [] →
      (r.exec moves).trace.filter Act.byStop = [] := by
  induction moves with
  | nil => intro r _ _ _ h; exact h
  | cons m t ih =>
      intro r hs ht hm h
      have hm1 : m ≠ .callStop := fun e => hm (by simp [e])
      have hm2 : Move.callStop ∉ t := fun e => hm (by simp [e])
      exact ih _ (Sound_step r m hs) (Tidy_step r m hs ht) hm2 (no_Stop_step r m hs ht hm1 h)

/-! ## The periodic job: further claims -/

/-- C11: when `Start`, entered from `Ready`, has ended before any call of
`Stop`, in whatever way, the state is still `Started` and `done` has been
closed, once. The first call of `Stop` then takes the state to `Stopping`,
finds `done` closed, takes the state to `Stopped` and returns nil; the state is
`Stopped` from then on, and `done` is never closed again. -/
theorem Stop_after_Start_ended (c : periodical) (hc : c.Built) (moves later : List Move)
    (o : Outcome) :
    let r := (Run.init c).exec moves
    Move.callStop ∉ moves → r.starter = .ended o →
      let r1 := r.step .callStop
      r.trace.filter Act.byStart = [.cas .Start ProcessStateReady ProcessStateStarted] ∧
      r.c.state = ProcessStateStarted ∧ r.c.done = true ∧
      r.trace.filter Act.isCloseDone = [.closeDone] ∧
      r1.trace = r.trace ++
        [.cas .Stop ProcessStateStarted ProcessStateStopping, .cancel, .closeStop,
         .dbgf "waiting for start to terminate",
         .cas .Stop ProcessStateStopping ProcessStateStopped, .stopEnds none] ∧
      r1.c.state = ProcessStateStopped ∧ r1.stopper = false ∧
      (r1.exec later).c.state = ProcessStateStopped ∧
      (r1.exec later).trace.filter Act.isCloseDone = [.closeDone] := by
  intro r hm ho r1
  have hs : r.Sound := Sound_exec moves _ (Sound_init c hc)
  have ht : r.Tidy := Tidy_exec moves _ (Sound_init c hc) (Tidy_init c)
  have hd : r.DoneOnce := DoneOnce_exec moves _ (Sound_init c hc) (DoneOnce_init c hc)
  have hn : r.trace.filter Act.byStop = [] :=
    no_Stop_exec moves _ (Sound_init c hc) (Tidy_init c) hm rfl
  have hout : r.starter ≠ .out := by rw [ho]; simp
  have h0 : r.c.state = ProcessStateStarted := ht.2 hn hout
  obtain ⟨-, hw, hdone, -, -⟩ := Sound_started r hs h0
  have hdone' : r.c.done = true := by rw [hdone, ho]; rfl
  have hne : ¬ (ProcessStateStarted = ProcessStateReady) := by decide
  have e1 : r1 = r.Stop := rfl
  have e2 : r1.c.state = ProcessStateStopped := by
    rw [e1]; simp [Run.Stop, h0, hne, hdone']
  have hs1 : r1.Sound := Sound_step r .callStop hs
  have hd2 : (r1.exec later).DoneOnce :=
    DoneOnce_exec later _ hs1 (DoneOnce_step r .callStop hs hd)
  have hs2 : (r1.exec later).Sound := Sound_exec later _ hs1
  have e3 : (r1.exec later).c.state = ProcessStateStopped := exec_state_stopped later r1 e2
  refine ⟨?_, h0, hdone', ?_, ?_, e2, ?_, e3, ?_⟩
  · rw [ht.1, ho]; rfl
  · have := hd
    unfold Run.DoneOnce at this
    rw [this, if_pos hdone']
  · rw [e1]; simp [Run.Stop, h0, hne, hdone']
  · rw [e1]; simp [Run.Stop, h0, hne, hdone', hw]
  · have hdl : (r1.exec later).c.done = true := by
      rcases hs2 with h | h | h | h | h
      · rw [h.1] at e3; exact absurd e3 (by decide)
      · rw [h.1] at e3; exact absurd e3 (by decide)
      · rw [h.1] at e3; exact absurd e3 (by decide)
      · exact h.2.2.2.1
      · rw [h.1] at e3; exact absurd e3 (by decide)
    have := hd2
    unfold Run.DoneOnce at this
    rw [this, if_pos hdl]

/-- C11, at the three jobs of the tests that end on their own: the worker that
returns nil, the job that returns an error and the job that panics. -/
theorem Stop_after_Start_ended_witness :
    (((Run.init (NewWorker jobOk [])).exec [.callStart, .top, .jobEnds]).step
        .callStop).c.state = ProcessStateStopped ∧
    (((Run.init (NewPeriodicalJob Second jobBad [])).exec [.callStart, .top, .jobEnds]).step
        .callStop).c.state = ProcessStateStopped ∧
    (((Run.init (NewPeriodicalJob Second jobPanic [])).exec [.callStart, .top, .jobEnds]).step
        .callStop).c.state = ProcessStateStopped :=
  ⟨(Stop_after_Start_ended (NewWorker jobOk []) (Or.inr ⟨jobOk, [], rfl⟩)
      [.callStart, .top, .jobEnds] [] (.returned none) (by decide) rfl).2.2.2.2.2.1,
   (Stop_after_Start_ended (NewPeriodicalJob Second jobBad [])
      (Or.inl ⟨Second, jobBad, [], rfl⟩)
      [.callStart, .top, .jobEnds] [] (.returned (some "bad")) (by decide) rfl).2.2.2.2.2.1,
   (Stop_after_Start_ended (NewPeriodicalJob Second jobPanic [])
      (Or.inl ⟨Second, jobPanic, [], rfl⟩)
      [.callStart, .top, .jobEnds] [] (.panicked (some "bad") "goroutine 9 [running]")
      (by decide) rfl).2.2.2.2.2.1⟩

theorem terminal_step (r : Run) (m : Move)
    (h : r.c.state = ProcessStateStopped ∨ r.c.state = ProcessStateAborted) :
    (r.step m).trace.filter Act.byStart = r.trace.filter Act.byStart ∧
      (r.step m).trace.filter Act.byStop = r.trace.filter Act.byStop := by
  have h0 : r.c.state ≠ ProcessStateReady := by
    rcases h with h | h <;> rw [h] <;> decide
  have h1 : r.c.state ≠ ProcessStateStarted := by
    rcases h with h | h <;> rw [h] <;> decide
  have h2 : r.c.state ≠ ProcessStateStopping := by
    rcases h with h | h <;> rw [h] <;> decide
  by_cases hm : m = .callStart
  · subst hm
    rw [callStart_rejected r h0]
    simp [Run.emit, List.filter_append, Act.byStart, Act.byStop]
  by_cases hm' : m = .callStop
  · subst hm'
    rw [callStop_rejected r h0 h1]
    simp [Run.emit, List.filter_append, Act.byStart, Act.byStop]
  by_cases hm'' : ∃ t, m = .stopSelect t
  · obtain ⟨t, rfl⟩ := hm''
    cases t <;>
      simp only [Run.step, Run.Stop.select, Run.Stop.swap, Run.emit, h2, if_false] <;>
      (repeat' split) <;>
      simp [List.filter_append, Act.byStart, Act.byStop]
  · push_neg at hm''
    obtain ⟨-, -, e3, e4, -⟩ := step_inside r m hm hm' hm''
    exact ⟨e3, e4⟩

theorem terminal_exec (moves : List Move) : ∀ r : Run,
    (r.c.state = ProcessStateStopped ∨ r.c.state = ProcessStateAborted) →
    ((r.exec moves).c.state = r.c.state ∧
      (r.exec moves).trace.filter Act.byStart = r.trace.filter Act.byStart ∧
      (r.exec moves).trace.filter Act.byStop = r.trace.filter Act.byStop) := by
  induction moves with
  | nil => intro r _; exact ⟨rfl, rfl, rfl⟩
  | cons m t ih =>
      intro r h
      have hst : (r.step m).c.state = r.c.state := by
        rcases h with h | h
        · rw [step_state_stopped r m h, h]
        · rw [step_state_aborted r m h, h]
      obtain ⟨a1, a2⟩ := terminal_step r m h
      obtain ⟨b0, b1, b2⟩ := ih (r.step m) (by rw [hst]; exact h)
      exact ⟨b0.trans hst, b1.trans a1, b2.trans a2⟩

theorem replay_init (c : periodical) (hc : c.Built) :
    replay ProcessStateReady (Run.init c).trace = some (Run.init c).c.state := by
  obtain ⟨h1, -, -, -⟩ := Built_fresh c hc
  show some ProcessStateReady = some c.state
  rw [h1]

/-- C15: in every run of a job built by `NewPeriodicalJob` (or `NewWorker`) the
state is what the compare-and-swaps of the trace make of `Ready`, each starting
from the state reached so far and being one of `Ready` to `Started`, `Ready` to
`Stopped`, `Started` to `Stopping`, `Stopping` to `Stopped`, `Stopping` to
`Aborted`. The state is never `Starting`, and once it is `Stopped` or `Aborted`
nothing that happens later changes it. -/
theorem state_changes_are_legal (c : periodical) (hc : c.Built) (moves later : List Move) :
    let r := (Run.init c).exec moves
    replay ProcessStateReady r.trace = some r.c.state ∧
    (∀ who old new, Act.cas who old new ∈ r.trace →
      (old = ProcessStateReady ∧ new = ProcessStateStarted) ∨
      (old = ProcessStateReady ∧ new = ProcessStateStopped) ∨
      (old = ProcessStateStarted ∧ new = ProcessStateStopping) ∨
      (old = ProcessStateStopping ∧ new = ProcessStateStopped) ∨
      (old = ProcessStateStopping ∧ new = ProcessStateAborted)) ∧
    (r.c.state = ProcessStateReady ∨ r.c.state = ProcessStateStarted ∨
      r.c.state = ProcessStateStopping ∨ r.c.state = ProcessStateStopped ∨
      r.c.state = ProcessStateAborted) ∧
    r.c.state ≠ ProcessStateStarting ∧
    (∀ who old, Act.cas who old ProcessStateStarting ∉ r.trace) ∧
    (r.c.state = ProcessStateStopped ∨ r.c.state = ProcessStateAborted →
      (r.exec later).c.state = r.c.state ∧
      (r.exec later).trace.filter Act.byStart = r.trace.filter Act.byStart ∧
      (r.exec later).trace.filter Act.byStop = r.trace.filter Act.byStop) := by
  intro r
  have hs : r.Sound := Sound_exec moves _ (Sound_init c hc)
  have hr : replay ProcessStateReady r.trace = some r.c.state :=
    replay_exec moves _ _ (replay_init c hc)
  have hmem : ∀ who old new, Act.cas who old new ∈ r.trace →
      (old = ProcessStateReady ∧ new = ProcessStateStarted) ∨
      (old = ProcessStateReady ∧ new = ProcessStateStopped) ∨
      (old = ProcessStateStarted ∧ new = ProcessStateStopping) ∨
      (old = ProcessStateStopping ∧ new = ProcessStateStopped) ∨
      (old = ProcessStateStopping ∧ new = ProcessStateAborted) := by
    intro who old new hm
    have := replay_mem r.trace _ _ hr who old new hm
    simp only [legalTransition, Bool.or_eq_true, Bool.and_eq_true, beq_iff_eq] at this
    tauto
  have hfive : r.c.state = ProcessStateReady ∨ r.c.state = ProcessStateStarted ∨
      r.c.state = ProcessStateStopping ∨ r.c.state = ProcessStateStopped ∨
      r.c.state = ProcessStateAborted := by
    rcases hs with h | h | h | h | h
    · exact Or.inl h.1
    · exact Or.inr (Or.inl h.1)
    · exact Or.inr (Or.inr (Or.inl h.1))
    · exact Or.inr (Or.inr (Or.inr (Or.inl h.1)))
    · exact Or.inr (Or.inr (Or.inr (Or.inr h.1)))
  refine ⟨hr, hmem, hfive, ?_, ?_, ?_⟩
  · rcases hfive with h | h | h | h | h <;> rw [h] <;> decide
  · intro who old hm
    rcases hmem who old _ hm with h | h | h | h | h <;> exact absurd h.2 (by decide)
  · intro hterm
    exact terminal_exec later r hterm

/-- C15, at a job that is started, stopped in time, and then started and
stopped again: the state is `Stopped` and stays so. -/
theorem state_changes_are_legal_witness :
    ((Run.init (NewPeriodicalJob Second jobOk [])).exec
        [.callStart, .top, .callStop, .jobEnds, .stopCheck, .stopSelect false]).c.state
      = ProcessStateStopped ∧
    (((Run.init (NewPeriodicalJob Second jobOk [])).exec
        [.callStart, .top, .callStop, .jobEnds, .stopCheck, .stopSelect false]).exec
        [.callStart, .callStop, .top]).c.state = ProcessStateStopped ∧
    replay ProcessStateReady ((Run.init (NewPeriodicalJob Second jobOk [])).exec
        [.callStart, .top, .callStop, .jobEnds, .stopCheck, .stopSelect false]).trace
      = some ProcessStateStopped :=
  ⟨rfl,
   ((state_changes_are_legal (NewPeriodicalJob Second jobOk [])
      (Or.inl ⟨Second, jobOk, [], rfl⟩)
      [.callStart, .top, .callStop, .jobEnds, .stopCheck, .stopSelect false]
      [.callStart, .callStop, .top]).2.2.2.2.2 (Or.inl rfl)).1,
   (state_changes_are_legal (NewPeriodicalJob Second jobOk [])
      (Or.inl ⟨Second, jobOk, [], rfl⟩)
      [.callStart, .top, .callStop, .jobEnds, .stopCheck, .stopSelect false] []).1⟩

/-! ## The `Idle` option: lemmas -/

theorem step_opts (r : Run) (m : Move) : (r.step m).c.opts = r.c.opts := by
  cases m <;> cases hs : r.starter <;>
    simp [Run.step, Run.Start, Run.Stop, Run.emit, Run.Start.top,
      Run.Start.afterJob, Run.Start.leave, Run.Start.idleSelect, Run.Start.stopCheck,
      Run.Start.periodSelect, Run.Stop.select, Run.Stop.swap, hs] <;>
    (repeat' split) <;> simp

theorem exec_opts (moves : List Move) : ∀ r : Run, (r.exec moves).c.opts = r.c.opts := by
  induction moves with
  | nil => intro r; rfl
  | cons m t ih => intro r; rw [exec_cons, ih, step_opts]

theorem step_withIdle (r : Run) (m : Move) (idle : Int) (hO : r.c.opts.Once = true) :
    (r.withIdle idle).step m = (r.step m).withIdle idle := by
  cases m with
  | jobEnds =>
      cases hs : r.starter <;> rcases hj : r.c.job r.runs with (_ | e) | ⟨d, st⟩ <;>
        simp [Run.step, Run.withIdle, periodical.withIdle, Run.emit, Run.Start.afterJob,
          Run.Start.leave, hs, hj, hO]
  | _ =>
      cases hs : r.starter <;>
        simp [Run.step, Run.withIdle, periodical.withIdle, Run.Start, Run.Stop, Run.emit,
          Run.Start.top, Run.Start.leave, Run.Start.idleSelect, Run.Start.stopCheck,
          Run.Start.periodSelect, Run.Stop.select, Run.Stop.swap, hs] <;>
        (repeat' split) <;> simp_all

theorem exec_withIdle (moves : List Move) (idle : Int) : ∀ r : Run, r.c.opts.Once = true →
    (r.withIdle idle).exec moves = (r.exec moves).withIdle idle := by
  induction moves with
  | nil => intro r _; rfl
  | cons m t ih =>
      intro r hO
      rw [exec_cons, exec_cons, step_withIdle r m idle hO]
      exact ih _ (by rw [step_opts]; exact hO)

/-- With the `Once` option set the `Idle` option is never read: two jobs that
differ in it only go through the same calls, waits and states under the same
moves, and `Start` ends the same way. -/
theorem Idle_ignored_when_Once (c : periodical) (hO : c.opts.Once = true)
    (idle₁ idle₂ : Int) (moves : List Move) :
    let r₁ := (Run.init (c.withIdle idle₁)).exec moves
    let r₂ := (Run.init (c.withIdle idle₂)).exec moves
    r₁.trace = r₂.trace ∧ r₁.starter = r₂.starter ∧ r₁.runs = r₂.runs ∧
    r₁.c.state = r₂.c.state ∧ r₁.stopper = r₂.stopper := by
  intro r₁ r₂
  have h₁ : r₁ = ((Run.init c).exec moves).withIdle idle₁ :=
    exec_withIdle moves idle₁ (Run.init c) hO
  have h₂ : r₂ = ((Run.init c).exec moves).withIdle idle₂ :=
    exec_withIdle moves idle₂ (Run.init c) hO
  rw [h₁, h₂]
  exact ⟨rfl, rfl, rfl, rfl, rfl⟩

/-! ## The worker: lemmas -/

theorem merge_timeout_only (acc : PeriodicalOptions) (t : Int) :
    acc.merge { PeriodicalOptions.zero with ShutdownTimeout := t }
      = if 0 < t then { acc with ShutdownTimeout := t } else acc := by
  by_cases h : 0 < t <;> simp [PeriodicalOptions.merge, PeriodicalOptions.zero, h]

theorem worker_fold (opts : List WorkerOptions) : ∀ acc : PeriodicalOptions,
    opts.foldl (fun options opt =>
        options.merge { PeriodicalOptions.zero with ShutdownTimeout := opt.ShutdownTimeout }) acc
      = { acc with
          ShutdownTimeout :=
            ((opts.map fun o => o.ShutdownTimeout).filter
              fun t => decide (0 < t)).getLast?.getD acc.ShutdownTimeout } := by
  induction opts with
  | nil => intro acc; rfl
  | cons x t ih =>
      intro acc
      rw [List.foldl_cons, ih, merge_timeout_only]
      by_cases hx : 0 < x.ShutdownTimeout
      · simp [hx, List.getLast?_cons]
      · simp [hx]

theorem NewWorker_eq (main : Nat → Outcome) (opts : List WorkerOptions) :
    NewWorker main opts =
      { state := ProcessStateReady, job := main, done := false, stop := false,
        cancelled := false, period := 0,
        opts := { Idle := 0, Once := true,
                  ShutdownTimeout := sanitizedTimeout (WorkerOptions.lastPositive opts),
                  Dbgf := .noop } } := by
  unfold NewWorker NewPeriodicalJob
  simp only [worker_fold, List.foldl_cons, List.foldl_nil]
  have hv : ∀ v : Int,
      ((PeriodicalOptions.zero.merge
          { Idle := 0, Once := true, ShutdownTimeout := v, Dbgf := .nil }).sanitize)
        = { Idle := 0, Once := true, ShutdownTimeout := sanitizedTimeout v, Dbgf := .noop } := by
    intro v
    have hS : (0 : Int) < Second := by decide
    by_cases h0 : 0 < v
    · by_cases h1 : v < Second <;>
        simp [PeriodicalOptions.merge, PeriodicalOptions.sanitize, PeriodicalOptions.zero,
          sanitizedTimeout, h0, h1]
    · have h1 : v < Second := by omega
      simp [PeriodicalOptions.merge, PeriodicalOptions.sanitize, PeriodicalOptions.zero,
        sanitizedTimeout, h0, h1, hS]
  exact congrArg _ (hv _)

theorem Single_of (r r' : Run) (h : r.Single) (hst : r'.starter = r.starter)
    (hruns : r'.runs = r.runs)
    (hinv : r'.trace.filter Act.isInvoke = r.trace.filter Act.isInvoke)
    (hstop : r.trace.filter Act.byStop ≠ [] → r'.trace.filter Act.byStop ≠ []) :
    r'.Single := by
  unfold Run.Single at h ⊢
  rw [hst, hruns, hinv]
  cases hp : r.starter <;> rw [hp] at h <;> simp only at h ⊢
  all_goals first
    | exact h
    | (rcases h with h | h
       · exact Or.inl h
       · exact Or.inr ⟨h.1, h.2.1, hstop h.2.2⟩)

theorem step_outside (r : Run) (m : Move) (hm : m = .callStop ∨ ∃ t, m = .stopSelect t) :
    (r.step m).starter = r.starter ∧ (r.step m).runs = r.runs ∧
      (r.step m).trace.filter Act.isInvoke = r.trace.filter Act.isInvoke ∧
      (r.trace.filter Act.byStop ≠ [] → (r.step m).trace.filter Act.byStop ≠ []) := by
  rcases hm with rfl | ⟨t, rfl⟩
  · refine ⟨?_, ?_, ?_, ?_⟩
    · simp only [Run.step, Run.Stop, Run.emit]; (repeat' split) <;> simp
    · simp only [Run.step, Run.Stop, Run.emit]; (repeat' split) <;> simp
    · simp only [Run.step, Run.Stop, Run.emit]
      (repeat' split) <;> simp [List.filter_append, Act.isInvoke]
    · intro hne
      simp only [Run.step, Run.Stop, Run.emit]
      (repeat' split) <;> simp [List.filter_append, Act.byStop]
      simpa using hne
  · refine ⟨?_, ?_, ?_, ?_⟩
    · simp only [Run.step, Run.Stop.select, Run.Stop.swap, Run.emit]; (repeat' split) <;> simp
    · simp only [Run.step, Run.Stop.select, Run.Stop.swap, Run.emit]; (repeat' split) <;> simp
    · simp only [Run.step, Run.Stop.select, Run.Stop.swap, Run.emit]
      (repeat' split) <;> simp [List.filter_append, Act.isInvoke]
    · intro hne
      simp only [Run.step, Run.Stop.select, Run.Stop.swap, Run.emit]
      (repeat' split) <;> simp [List.filter_append, Act.byStop] <;> simpa using hne

theorem Single_step (r : Run) (m : Move) (hs : r.Sound) (ht : r.Tidy)
    (hO : r.c.opts.Once = true) (h : r.Single) : (r.step m).Single := by
  by_cases hm : m = .callStart
  · subst hm
    by_cases h0 : r.c.state = ProcessStateReady
    · obtain ⟨ho, -, -, -, -, hr, htr⟩ := Sound_ready r hs h0
      simp [Run.step, Run.Start, Run.Single, h0, htr, hr, Act.isInvoke]
    · rw [callStart_rejected r h0]
      refine Single_of r _ h rfl rfl ?_ ?_
      · simp [Run.emit, List.filter_append, Act.isInvoke]
      · simp [Run.emit, List.filter_append, Act.byStop]
  by_cases hm' : m = .callStop ∨ ∃ t, m = .stopSelect t
  · obtain ⟨e1, e2, e3, e4⟩ := step_outside r m hm'
    exact Single_of r _ h e1 e2 e3 e4
  · push_neg at hm'
    have hstop : r.starter ≠ .out → r.c.state ≠ ProcessStateStarted →
        r.trace.filter Act.byStop ≠ [] := fun ho hne hnil => hne (ht.2 hnil ho)
    cases m with
    | callStart => exact absurd rfl hm
    | callStop => exact absurd rfl hm'.1
    | stopSelect t => exact absurd rfl (hm'.2 t)
    | top =>
        cases hp : r.starter with
        | loop =>
          unfold Run.Single at h
          rw [hp] at h hstop
          obtain ⟨hi, hr⟩ : r.trace.filter Act.isInvoke = [] ∧ r.runs = 0 := h
          by_cases h0 : r.c.state = ProcessStateStarted
          · simp [Run.step, hp, Run.Start.top, h0, Run.emit, Run.Single,
              List.filter_append, Act.isInvoke, hi, hr]
          · have := hstop (by simp) h0
            simp [Run.step, hp, Run.Start.top, h0, Run.emit, Run.Start.leave, Run.Single,
              List.filter_append, Act.isInvoke, Act.byStop, hi, hr]
            simpa using this
        | _ =>
          simp only [Run.step, hp]
          exact h
    | jobEnds =>
        cases hp : r.starter with
        | job =>
          unfold Run.Single at h
          rw [hp] at h
          obtain ⟨hi, hr⟩ : r.trace.filter Act.isInvoke = [.invoke 0] ∧ r.runs = 0 := h
          rcases hj : r.c.job 0 with (_ | e) | ⟨d, st⟩ <;>
            simp [Run.step, hp, Run.Start.afterJob, hr, hj, hO, Run.emit, Run.Start.leave,
              Run.Single, List.filter_append, Act.isInvoke, hi]
        | _ =>
          simp only [Run.step, hp]
          exact h
    | idleSelect v =>
        cases hp : r.starter with
        | idle =>
          unfold Run.Single at h
          rw [hp] at h
          exact absurd h (by simp)
        | _ =>
          simp only [Run.step, hp]
          exact h
    | stopCheck =>
        cases hp : r.starter with
        | check =>
          unfold Run.Single at h
          rw [hp] at h
          exact absurd h (by simp)
        | _ =>
          simp only [Run.step, hp]
          exact h
    | periodSelect v =>
        cases hp : r.starter with
        | period =>
          unfold Run.Single at h
          rw [hp] at h
          exact absurd h (by simp)
        | _ =>
          simp only [Run.step, hp]
          exact h

theorem Single_exec (moves : List Move) : ∀ r : Run, r.Sound → r.Tidy →
    r.c.opts.Once = true → r.Single → (r.exec moves).Single := by
  induction moves with
  | nil => intro r _ _ _ h; exact h
  | cons m t ih =>
      intro r hs ht hO h
      exact ih _ (Sound_step r m hs) (Tidy_step r m hs ht) (by rw [step_opts]; exact hO)
        (Single_step r m hs ht hO h)

/-! ## The options and the worker: further claims -/

/-- C13 against the code: with period 0 and `Once` not set, a job with an `Idle`
of one second waits on the idle timer between its first and its second run,
and the job that differs from it in `Idle` only (0) does not, under the same
moves. -/
theorem Idle_delays_runs_without_period :
    (NewPeriodicalJob 0 jobOk [{ PeriodicalOptions.zero with Idle := Second }]).period = 0 ∧
    (NewPeriodicalJob 0 jobOk [{ PeriodicalOptions.zero with Idle := Second }]).opts.Once
      = false ∧
    (NewPeriodicalJob 0 jobOk [{ PeriodicalOptions.zero with Idle := Second }]).opts.Idle
      = Second ∧
    (NewPeriodicalJob 0 jobOk [{ PeriodicalOptions.zero with Idle := Second }]).withIdle 0
      = NewPeriodicalJob 0 jobOk [] ∧
    ((Run.init (NewPeriodicalJob 0 jobOk [{ PeriodicalOptions.zero with Idle := Second }])).exec
        [.callStart, .top, .jobEnds, .idleSelect false, .stopCheck, .top]).trace.filter
        Act.isRunOrWait = [.invoke 0, .idled, .invoke 1] ∧
    ((Run.init (NewPeriodicalJob 0 jobOk [])).exec
        [.callStart, .top, .jobEnds, .idleSelect false, .stopCheck, .top]).trace.filter
        Act.isRunOrWait = [.invoke 0, .invoke 1] := by
  refine ⟨rfl, rfl, rfl, rfl, ?_, ?_⟩ <;> decide

theorem lastNonZero_of_nonneg (opts : List WorkerOptions)
    (h : ∀ o ∈ opts, 0 ≤ o.ShutdownTimeout) :
    WorkerOptions.lastPositive opts = WorkerOptions.lastNonZero opts := by
  unfold WorkerOptions.lastPositive WorkerOptions.lastNonZero
  congr 2
  apply List.filter_congr
  intro t ht
  obtain ⟨o, ho, rfl⟩ := List.mem_map.mp ht
  have := h o ho
  by_cases h0 : o.ShutdownTimeout = 0
  · simp [h0]
  · have hp : 0 < o.ShutdownTimeout := by omega
    simp [h0, hp]

/-- Against the comment of `NewWorker` ("will overwrite each other unless a zero
value is present"): a later option with a negative `ShutdownTimeout` does not
overwrite an earlier one. The worker keeps 5 seconds, where overwriting by
every value but 0 would leave -1 second, sanitised to 60 seconds. -/
theorem NewWorker_keeps_timeout_before_negative :
    (NewWorker jobOk [⟨5 * Second⟩, ⟨-Second⟩]).opts.ShutdownTimeout = 5 * Second ∧
    WorkerOptions.lastNonZero [⟨5 * Second⟩, ⟨-Second⟩] = -Second ∧
    sanitizedTimeout (WorkerOptions.lastNonZero [⟨5 * Second⟩, ⟨-Second⟩]) = 60 * Second := by
  refine ⟨?_, ?_, ?_⟩ <;> decide

/-- C14 as stated fails: a worker whose `Stop` is called between the
compare-and-swap of `Start` and the top of its loop ends `Start`, entered from
`Ready`, without a call of the function, and no call follows. -/
theorem Worker_claim_fails :
    (NewWorker jobOk []).state = ProcessStateReady ∧
    ((Run.init (NewWorker jobOk [])).exec [.callStart, .callStop, .top]).trace.filter
        Act.byStart = [.cas .Start ProcessStateReady ProcessStateStarted] ∧
    ((Run.init (NewWorker jobOk [])).exec [.callStart, .callStop, .top]).starter
      = .ended (.returned none) ∧
    ∀ later : List Move,
      (((Run.init (NewWorker jobOk [])).exec [.callStart, .callStop, .top]).exec
        later).trace.filter Act.isInvoke = [] := by
  refine ⟨by decide, by decide, by decide, ?_⟩
  intro later
  have hs : ((Run.init (NewWorker jobOk [])).exec [.callStart, .callStop, .top]).Sound :=
    Sound_exec _ _ (Sound_init _ (Or.inr ⟨jobOk, [], rfl⟩))
  rw [(exec_ended later (.returned none) _ hs (by decide)).2.2]
  decide

/-- C14, amended: `NewWorker` builds a job in state `Ready` with period 0, `Idle`
0 and `Once` set, in which the caller decides the function and the
`ShutdownTimeout` only; among options none of which has a negative
`ShutdownTimeout`, a later option overwrites an earlier one unless its
`ShutdownTimeout` is zero, and the result has 60 seconds in place of a value
below 1 second. `Start` entered from `Ready` goes to the top of its loop; there
it calls the function, for the first and only time, when the state is still
`Started`, and returns nil without a call, then or ever after, when a `Stop`
has changed the state before. In every run the function is called at most once;
it has been called once when `Start` is inside the call, and when `Start` has
ended without `Stop` having changed the state. -/
theorem Worker_runs_at_most_once (main : Nat → Outcome) (opts : List WorkerOptions)
    (moves : List Move) :
    let c := NewWorker main opts
    let r := (Run.init c).exec moves
    (c.state = ProcessStateReady ∧ c.period = 0 ∧ c.opts.Idle = 0 ∧ c.opts.Once = true ∧
      c.job = main ∧ c.done = false ∧ c.stop = false ∧ c.cancelled = false ∧
      c.opts.Dbgf = .noop) ∧
    Second ≤ c.opts.ShutdownTimeout ∧
    ((∀ o ∈ opts, 0 ≤ o.ShutdownTimeout) →
      c.opts.ShutdownTimeout = sanitizedTimeout (WorkerOptions.lastNonZero opts)) ∧
    (((Run.init c).step .callStart).starter = .loop ∧
      ((Run.init c).step .callStart).c.state = ProcessStateStarted) ∧
    (r.trace.filter Act.isInvoke = [] ∨ r.trace.filter Act.isInvoke = [.invoke 0]) ∧
    (r.starter = .loop → r.c.state = ProcessStateStarted →
      (r.step .top).starter = .job ∧
      (r.step .top).trace.filter Act.isInvoke = [.invoke 0]) ∧
    (r.starter = .loop → r.c.state ≠ ProcessStateStarted →
      (r.step .top).starter = .ended (.returned none) ∧
      ∀ later : List Move, ((r.step .top).exec later).trace.filter Act.isInvoke = []) ∧
    (r.starter = .job → r.trace.filter Act.isInvoke = [.invoke 0]) ∧
    (r.starter.left = true →
      (r.trace.filter Act.isInvoke = [.invoke 0] ∧ r.runs = 1) ∨
      (r.trace.filter Act.isInvoke = [] ∧ r.trace.filter Act.byStop ≠ [])) := by
  intro c r
  have hc : c.Built := Or.inr ⟨main, opts, rfl⟩
  have he := NewWorker_eq main opts
  have hO : c.opts.Once = true := by
    show (NewWorker main opts).opts.Once = true
    rw [he]
  have hsound : r.Sound := Sound_exec moves _ (Sound_init c hc)
  have hsingle : r.Single :=
    Single_exec moves _ (Sound_init c hc) (Tidy_init c) hO
      (by simp [Run.Single, Run.init])
  have ht : c.opts.ShutdownTimeout = sanitizedTimeout (WorkerOptions.lastPositive opts) := by
    show (NewWorker main opts).opts.ShutdownTimeout = _
    rw [he]
  refine ⟨?_, ?_, ?_, ?_, ?_, ?_, ?_, ?_, ?_⟩
  · have hce : c = _ := he
    rw [hce]
    exact ⟨rfl, rfl, rfl, rfl, rfl, rfl, rfl, rfl, rfl⟩
  · rw [ht]
    unfold sanitizedTimeout
    split_ifs with h
    · decide
    · omega
  · intro hpos
    rw [ht, lastNonZero_of_nonneg opts hpos]
  · have hce : c = _ := he
    rw [hce]
    simp [Run.step, Run.Start, Run.init]
  · unfold Run.Single at hsingle
    cases hp : r.starter <;> rw [hp] at hsingle <;> simp only at hsingle
    · exact Or.inl hsingle.1
    · exact Or.inl hsingle.1
    · exact Or.inr hsingle.1
    · rcases hsingle with h | h
      · exact Or.inr h.1
      · exact Or.inl h.1
  · intro hp hst
    unfold Run.Single at hsingle
    rw [hp] at hsingle
    obtain ⟨h1, h2⟩ := hsingle
    simp [Run.step, hp, Run.Start.top, hst, Run.emit, List.filter_append, h1, h2,
      Act.isInvoke]
  · intro hp hst
    unfold Run.Single at hsingle
    rw [hp] at hsingle
    obtain ⟨h1, h2⟩ := hsingle
    have hend : (r.step .top).starter = .ended (.returned none) := by
      simp [Run.step, hp, Run.Start.top, hst, Run.emit, Run.Start.leave]
    have hfil : (r.step .top).trace.filter Act.isInvoke = [] := by
      simp [Run.step, hp, Run.Start.top, hst, Run.emit, Run.Start.leave, List.filter_append,
        h1, Act.isInvoke]
    refine ⟨hend, fun later => ?_⟩
    rw [(exec_ended later (.returned none) _ (Sound_step r .top hsound) hend).2.2, hfil]
  · intro hp
    unfold Run.Single at hsingle
    rw [hp] at hsingle
    exact hsingle.1
  · intro hl
    unfold Run.Single at hsingle
    cases hp : r.starter with
    | ended o =>
        rw [hp] at hsingle
        rcases hsingle with h | h
        · exact Or.inl h
        · exact Or.inr ⟨h.1, h.2.2⟩
    | _ =>
        rw [hp] at hl
        exact absurd hl (by simp [StartPc.left])

/-- C14, amended, at a worker with the options 5 seconds and 0, whose `Stop` is
called before `Start` reaches the top of its loop: the timeout is 5 seconds, and
`Start` returns nil without a call of the function. -/
theorem Worker_runs_at_most_once_witness :
    (∀ o ∈ [(⟨5 * Second⟩ : WorkerOptions), ⟨0⟩], 0 ≤ o.ShutdownTimeout) ∧
    (NewWorker jobOk [⟨5 * Second⟩, ⟨0⟩]).opts.ShutdownTimeout = 5 * Second ∧
    ((Run.init (NewWorker jobOk [⟨5 * Second⟩, ⟨0⟩])).exec [.callStart, .callStop]).starter
      = .loop ∧
    ((Run.init (NewWorker jobOk [⟨5 * Second⟩, ⟨0⟩])).exec [.callStart, .callStop]).c.state
      ≠ ProcessStateStarted ∧
    ((Run.init (NewWorker jobOk [⟨5 * Second⟩, ⟨0⟩])).exec
        [.callStart, .callStop, .top]).starter = .ended (.returned none) ∧
    ((Run.init (NewWorker jobOk [⟨5 * Second⟩, ⟨0⟩])).exec [.callStart]).starter = .loop ∧
    ((Run.init (NewWorker jobOk [⟨5 * Second⟩, ⟨0⟩])).exec
        [.callStart, .top]).trace.filter Act.isInvoke = [.invoke 0] :=
  ⟨by decide,
   ((Worker_runs_at_most_once jobOk [⟨5 * Second⟩, ⟨0⟩] []).2.2.1 (by decide)).trans
     (by decide),
   by decide, by decide,
   ((Worker_runs_at_most_once jobOk [⟨5 * Second⟩, ⟨0⟩]
      [.callStart, .callStop]).2.2.2.2.2.2.1 (by decide) (by decide)).1,
   by decide,
   ((Worker_runs_at_most_once jobOk [⟨5 * Second⟩, ⟨0⟩]
      [.callStart]).2.2.2.2.2.1 (by decide) (by decide)).2⟩

end Procman
